import Mathlib

/-!
# XSmallHMI: the reactive value store and the widget state machines

A shallow embedding of `src/xs_core.hpp` (Value, Variable, VariableStore) and of
the widget classes of `src/main.cpp`, followed by theorems about them.

Conventions of the embedding

* `float` is the IEEE-754 binary32 format, kept as its three bit fields
  (`F32`).  Comparison, `int`-to-`float` conversion and addition are computed
  on the bit fields, rounding to nearest, ties to even.  The sign and the
  fraction of a NaN result are those of x86-64.
* `int` payloads are `Int`; `std::size_t` counters are `Nat`, reduced modulo
  `2 ^ 64` where the source increments them.
* `std::string` is `String`; one `Char` stands for one `char`.
* A `std::function` member is an `Option`: `none` is the empty function.  The
  closures themselves are values of a type parameter `κ`.  A member function
  that may call closures returns, next to the new object state, the list of
  calls it makes, in the order it makes them; the calls are not run by the
  member function of the model, so the returned object state is the one the
  source has when no closure writes back into the same object.
* A member function that can throw returns `Except Err _`.
* The closures of `main.cpp` are the constructors of `Observer` and `Action`;
  the store and the widgets they capture form a `World`.  A call of a member
  function with its closures run is a function on worlds: the calls a closure
  makes are run before the calls that were waiting, and a step bound limits
  the number of closure calls (`Fault.fuel` when it is used up).
-/

namespace xs

/-! ## IEEE-754 binary32 -/

/-- The three bit fields of a binary32 number: sign, biased exponent, fraction. -/
structure F32 where
  sign : Bool
  exp : Fin 256
  man : Fin 8388608
  deriving DecidableEq, Repr

namespace F32

/-- Exponent field all ones, fraction nonzero. -/
def isNaN (x : F32) : Bool := x.exp.val == 255 && x.man.val != 0

/-- Exponent field all ones, fraction zero. -/
def isInf (x : F32) : Bool := x.exp.val == 255 && x.man.val == 0

/-- Either of the two zeros. -/
def isZero (x : F32) : Bool := x.exp.val == 0 && x.man.val == 0

/-- The infinity of the given sign. -/
def inf (neg : Bool) : F32 := ⟨neg, 255, 0⟩

/-- The NaN an invalid operation on numbers produces on x86-64: sign bit set,
first fraction bit set (bits `0xffc00000`). -/
def qnan : F32 := ⟨true, 255, 4194304⟩

/-- The quiet form of a NaN: the first fraction bit set, the sign and the
other fraction bits kept. -/
def quiet (x : F32) : F32 :=
  ⟨x.sign, 255, if x.man.val < 4194304 then Fin.ofNat (x.man.val + 4194304) else x.man⟩

/-- The `==` of `float`: a NaN equals nothing, the two zeros are equal,
otherwise the bit fields decide. -/
def eq (x y : F32) : Bool :=
  if x.isNaN || y.isNaN then false
  else if x.isZero && y.isZero then true
  else x.sign == y.sign && x.exp == y.exp && x.man == y.man

/-- Sign-magnitude reading of the bit fields; monotone in the number denoted,
both zeros at `0`. -/
def key (x : F32) : Int :=
  if x.sign then -((x.exp.val * 8388608 + x.man.val : Nat) : Int)
  else ((x.exp.val * 8388608 + x.man.val : Nat) : Int)

/-- The `<=` of `float`. -/
def le (x y : F32) : Bool := !x.isNaN && !y.isNaN && decide (x.key ≤ y.key)

/-- The `>=` of `float`. -/
def ge (x y : F32) : Bool := le y x

/-- Number of binary digits of `n`; the first argument bounds the recursion. -/
def bitLen : Nat → Nat → Nat
  | 0, _ => 0
  | fuel + 1, n => if n = 0 then 0 else bitLen fuel (n / 2) + 1

/-- The binary32 number of the given sign nearest to `k * 2 ^ (-149)`, ties
to even, overflowing to infinity. -/
def round (neg : Bool) (k : Nat) : F32 :=
  if k < 16777216 then
    ⟨neg, Fin.ofNat (k / 8388608), Fin.ofNat (k % 8388608)⟩
  else
    let sh := bitLen k k - 24
    let q := k / 2 ^ sh
    let r := k % 2 ^ sh
    let half := 2 ^ (sh - 1)
    let q1 := if half < r ∨ (r = half ∧ q % 2 = 1) then q + 1 else q
    let sh1 := if q1 = 16777216 then sh + 1 else sh
    let q2 := if q1 = 16777216 then 8388608 else q1
    if 254 ≤ sh1 then inf neg
    else ⟨neg, Fin.ofNat (sh1 + 1), Fin.ofNat (q2 - 8388608)⟩

/-- The `static_cast<float>` of an `int`. -/
def ofInt (i : Int) : F32 :=
  if i = 0 then ⟨false, 0, 0⟩
  else round (decide (i < 0)) (i.natAbs * 2 ^ 149)

/-- Magnitude of a finite number in units of `2 ^ (-149)`. -/
def mag (x : F32) : Nat :=
  if x.exp.val = 0 then x.man.val
  else (8388608 + x.man.val) * 2 ^ (x.exp.val - 1)

/-- Signed value of a finite number in units of `2 ^ (-149)`. -/
def scaled (x : F32) : Int :=
  if x.sign then -(x.mag : Int) else (x.mag : Int)

/-- The `+` of `float`, as the SSE addition of x86-64 computes it.  A NaN
operand is returned in its quiet form (the left one here when both are NaN;
the instruction returns its first operand, and which operand of `+` that is
is the compiler's choice); the sum of the two infinities is `qnan`. -/
def add (x y : F32) : F32 :=
  if x.isNaN then x.quiet
  else if y.isNaN then y.quiet
  else if x.isInf then (if y.isInf && x.sign != y.sign then qnan else x)
  else if y.isInf then y
  else
    let s := x.scaled + y.scaled
    if s = 0 then ⟨x.sign && y.sign, 0, 0⟩
    else round (decide (s < 0)) s.natAbs

end F32

namespace core

/-! ## Value -/

/-- The enumeration `Value::Type`. -/
inductive ValueType where
  | Int
  | Float
  | Bool
  | String
  deriving DecidableEq, Repr

/-- The struct `Value`: a tag and one field per tag, all of them always present. -/
structure Value where
  type : ValueType := ValueType.Int
  i : Int := 0
  f : F32 := ⟨false, 0, 0⟩
  b : Bool := false
  s : String := ""
  deriving DecidableEq, Repr

namespace Value

def make_int (v : Int) : Value := { type := ValueType.Int, i := v }

def make_float (v : F32) : Value := { type := ValueType.Float, f := v }

def make_bool (v : Bool) : Value := { type := ValueType.Bool, b := v }

def make_string (v : String) : Value := { type := ValueType.String, s := v }

/-- The member `Value::equals`. -/
def equals (x other : Value) : Bool :=
  if x.type ≠ other.type then false
  else
    match x.type with
    | ValueType.Int => x.i == other.i
    | ValueType.Float => F32.eq x.f other.f
    | ValueType.Bool => x.b == other.b
    | ValueType.String => x.s == other.s

end Value

/-! ## Variable -/

/-- The struct `Variable::Subscriber`: an id and a possibly empty closure. -/
structure Subscriber (κ : Type) where
  id : Nat
  cb : Option κ
  deriving DecidableEq, Repr

/-- One call `cb(arg)` made by a Variable; `id` is the subscription whose
closure is called. -/
structure Call (κ : Type) where
  id : Nat
  cb : κ
  arg : Value
  deriving DecidableEq, Repr

/-- The class `Variable`; a default-constructed one holds `Int 0`. -/
structure Variable (κ : Type) where
  m_value : Value := Value.make_int 0
  m_subs : List (Subscriber κ) := []
  m_nextId : Nat := 0
  deriving DecidableEq, Repr

/-- Number of values of `std::size_t`. -/
def sizeModulus : Nat := 2 ^ 64

namespace Variable

variable {κ : Type}

/-- The member `Variable::get`. -/
def get (x : Variable κ) : Value := x.m_value

/-- The loop of `Variable::notify` over the subscribers still to visit: every
nonempty closure is called with the stored value. -/
def notifyLoop (v : Value) : List (Subscriber κ) → List (Call κ)
  | [] => []
  | s :: rest =>
    match s.cb with
    | some c => ⟨s.id, c, v⟩ :: notifyLoop v rest
    | none => notifyLoop v rest

/-- The member `Variable::notify`. -/
def notify (x : Variable κ) : List (Call κ) := notifyLoop x.m_value x.m_subs

/-- The member `Variable::set`: the new state and the calls made. -/
def set (x : Variable κ) (v : Value) : Variable κ × List (Call κ) :=
  if x.m_value.equals v then (x, [])
  else
    let x1 : Variable κ := { x with m_value := v }
    (x1, x1.notify)

/-- The member `Variable::subscribe`: the returned id, the new state and the
calls made. -/
def subscribe (x : Variable κ) (cb : Option κ) : Nat × Variable κ × List (Call κ) :=
  let id := (x.m_nextId + 1) % sizeModulus
  let x1 : Variable κ := { x with m_nextId := id, m_subs := x.m_subs ++ [⟨id, cb⟩] }
  match cb with
  | some c => (id, x1, [⟨id, c, x1.m_value⟩])
  | none => (id, x1, [])

/-- The loop of `Variable::unsubscribe`: scan from the front, erase the first
entry whose id matches and stop. -/
def eraseFirst (id : Nat) : List (Subscriber κ) → List (Subscriber κ)
  | [] => []
  | s :: rest => if s.id = id then rest else s :: eraseFirst id rest

/-- The member `Variable::unsubscribe`: the new state and the calls made (none). -/
def unsubscribe (x : Variable κ) (id : Nat) : Variable κ × List (Call κ) :=
  ({ x with m_subs := eraseFirst id x.m_subs }, [])

/-- One call of a member that changes a Variable. -/
inductive Op (κ : Type) where
  | subscribe (cb : Option κ)
  | unsubscribe (id : Nat)
  | set (v : Value)
  deriving DecidableEq, Repr

/-- The calls of a list made one after the other on a Variable: the last
state, and the subscriptions created, each the id `subscribe` returned with
the closure it was given, in the order of the calls. -/
def run (x : Variable κ) : List (Op κ) → Variable κ × List (Subscriber κ)
  | [] => (x, [])
  | Op.subscribe cb :: ops =>
    let r := x.subscribe cb
    let r1 := run r.2.1 ops
    (r1.1, ⟨r.1, cb⟩ :: r1.2)
  | Op.unsubscribe id :: ops => run (x.unsubscribe id).1 ops
  | Op.set v :: ops => run (x.set v).1 ops

/-- The number of `subscribe` calls in a list of calls. -/
def subscribeCount : List (Op κ) → Nat
  | [] => 0
  | Op.subscribe _ :: ops => subscribeCount ops + 1
  | _ :: ops => subscribeCount ops

/-- A list of `2 * n + 1` calls: `subscribe(cb)`, then `n` times a
`subscribe` of an empty closure followed by the `unsubscribe` of the id
`first + k` in round `k`. -/
def subscribeCycle (cb : κ) (first n : Nat) : List (Op κ) :=
  Op.subscribe (some cb) ::
    (List.range' first n).flatMap (fun i => [Op.subscribe none, Op.unsubscribe i])

end Variable

/-! ## VariableStore -/

/-- The exceptions the store can raise. -/
inductive Err where
  | out_of_range
  deriving DecidableEq, Repr

/-- The class `VariableStore`: `m_vars` as a finite map read through its lookup. -/
structure VariableStore (κ : Type) where
  m_vars : String → Option (Variable κ) := fun _ => none

namespace VariableStore

variable {κ : Type}

/-- The member `VariableStore::has`. -/
def has (s : VariableStore κ) (name : String) : Bool := (s.m_vars name).isSome

/-- The map with `name` bound to `x`, other keys as in `s`. -/
def put (s : VariableStore κ) (name : String) (x : Variable κ) : VariableStore κ :=
  { m_vars := fun k => if k = name then some x else s.m_vars k }

/-- The member `VariableStore::ensure`: the Variable referred to and the new store. -/
def ensure (s : VariableStore κ) (name : String) (initial : Value) :
    Variable κ × VariableStore κ :=
  match s.m_vars name with
  | some x => (x, s)
  | none => ({ m_value := initial }, s.put name { m_value := initial })

/-- The non-const member `VariableStore::at`: the Variable referred to, or the
exception of `unordered_map::at`, and the store afterwards. -/
def at_ (s : VariableStore κ) (name : String) :
    Except Err (Variable κ) × VariableStore κ :=
  match s.m_vars name with
  | some x => (Except.ok x, s)
  | none => (Except.error Err.out_of_range, s)

/-- The member `VariableStore::set`: `ensure` followed by `Variable::set` on
the Variable referred to. -/
def set (s : VariableStore κ) (name : String) (value : Value) :
    VariableStore κ × List (Call κ) :=
  let r := s.ensure name value
  let r1 := r.1.set value
  (r.2.put name r1.1, r1.2)

/-- The const member `VariableStore::get`. -/
def get (s : VariableStore κ) (name : String) : Except Err Value :=
  match s.m_vars name with
  | some x => Except.ok x.get
  | none => Except.error Err.out_of_range

/-- The const member `VariableStore::get_bool`. -/
def get_bool (s : VariableStore κ) (name : String) (fallback : Bool) : Except Err Bool :=
  if !s.has name then Except.ok fallback
  else
    match s.get name with
    | Except.error e => Except.error e
    | Except.ok v => Except.ok (if v.type = ValueType.Bool then v.b else fallback)

/-- The const member `VariableStore::get_float`. -/
def get_float (s : VariableStore κ) (name : String) (fallback : F32) : Except Err F32 :=
  if !s.has name then Except.ok fallback
  else
    match s.get name with
    | Except.error e => Except.error e
    | Except.ok v =>
      if v.type = ValueType.Float then Except.ok v.f
      else if v.type = ValueType.Int then Except.ok (F32.ofInt v.i)
      else Except.ok fallback

/-- The const member `VariableStore::get_string`. -/
def get_string (s : VariableStore κ) (name : String) (fallback : String) :
    Except Err String :=
  if !s.has name then Except.ok fallback
  else
    match s.get name with
    | Except.error e => Except.error e
    | Except.ok v => Except.ok (if v.type = ValueType.String then v.s else fallback)

end VariableStore

end core

/-! ## The windowing library, as far as the widgets read it -/

namespace sf

/-- The struct `sf::Vector2f`. -/
structure Vector2f where
  x : F32
  y : F32
  deriving DecidableEq, Repr

/-- The struct `sf::Color`, opaque colours only. -/
structure Color where
  r : Nat
  g : Nat
  b : Nat
  deriving DecidableEq, Repr

/-- The enumeration `sf::Mouse::Button`. -/
inductive MouseButton where
  | Left
  | Right
  | Middle
  | XButton1
  | XButton2
  deriving DecidableEq, Repr

/-- The enumeration `sf::Keyboard::Key`: the three keys the widgets test for
and every other key by its code. -/
inductive Key where
  | Left
  | Right
  | Escape
  | Other (code : Int)
  deriving DecidableEq, Repr

/-- The union `sf::Event` with its `type` tag: the kinds the widgets test for
and one constructor for every other kind. -/
inductive Event where
  | Closed
  | MouseMoved (x y : Int)
  | MouseButtonPressed (button : MouseButton) (x y : Int)
  | MouseButtonReleased (button : MouseButton) (x y : Int)
  | TextEntered (unicode : Nat)
  | KeyPressed (code : Key)
  | Other
  deriving DecidableEq, Repr

/-- What a widget reads of `sf::RenderWindow`: the pointer position
`sf::Mouse::getPosition(window)` reports. -/
structure RenderWindow where
  mouseX : Int
  mouseY : Int
  deriving DecidableEq, Repr

end sf

namespace ui

/-- The struct `Theme` with its default colours. -/
structure Theme where
  bg : sf.Color := ⟨22, 22, 26⟩
  panel : sf.Color := ⟨34, 34, 40⟩
  border : sf.Color := ⟨90, 90, 105⟩
  text : sf.Color := ⟨235, 235, 240⟩
  hint : sf.Color := ⟨170, 170, 185⟩
  accent : sf.Color := ⟨80, 160, 255⟩
  deriving DecidableEq, Repr

/-! ## Widget -/

/-- The data members of the base class `Widget`. -/
structure Widget where
  m_pos : sf.Vector2f := ⟨F32.ofInt 0, F32.ofInt 0⟩
  m_size : sf.Vector2f := ⟨F32.ofInt 0, F32.ofInt 0⟩
  m_enabled : Bool := true
  deriving DecidableEq, Repr

namespace Widget

/-- The member `Widget::contains`. -/
def contains (w : Widget) (p : sf.Vector2f) : Bool :=
  F32.ge p.x w.m_pos.x && F32.le p.x (F32.add w.m_pos.x w.m_size.x) &&
  F32.ge p.y w.m_pos.y && F32.le p.y (F32.add w.m_pos.y w.m_size.y)

/-- The member `Widget::set_enabled`. -/
def set_enabled (w : Widget) (enabled : Bool) : Widget := { w with m_enabled := enabled }

/-- The member `Widget::enabled`. -/
def enabled (w : Widget) : Bool := w.m_enabled

end Widget

/-! ## Button -/

/-- The class `Button`.  Of the drawables `m_box` and `m_text` the colours are
kept; the caption geometry belongs to the rendering library. -/
structure Button (κ : Type) extends Widget where
  m_theme : Theme := {}
  boxFill : sf.Color
  boxOutline : sf.Color
  textFill : sf.Color
  m_caption : String := "Button"
  m_onClick : Option κ := none
  m_hover : Bool := false
  m_pressed : Bool := false
  m_isOn : Bool := false
  m_subId : Nat := 0
  deriving DecidableEq, Repr

namespace Button

variable {κ : Type}

/-- The constructor `Button(font, charSize, theme)`. -/
def new (theme : Theme) : Button κ :=
  { m_theme := theme
    boxFill := theme.panel
    boxOutline := theme.border
    textFill := theme.text
    m_size := ⟨F32.ofInt 200, F32.ofInt 40⟩ }

/-- The member `Button::set_on_click`. -/
def set_on_click (b : Button κ) (fn : Option κ) : Button κ := { b with m_onClick := fn }

/-- The member `Button::set_position`. -/
def set_position (b : Button κ) (p : sf.Vector2f) : Button κ := { b with m_pos := p }

/-- The member `Button::set_size`. -/
def set_size (b : Button κ) (s : sf.Vector2f) : Button κ := { b with m_size := s }

/-- The member `Button::refresh_style`. -/
def refresh_style (b : Button κ) : Button κ :=
  if !b.enabled then
    { b with boxFill := ⟨45, 45, 52⟩, boxOutline := ⟨80, 80, 90⟩, textFill := ⟨150, 150, 160⟩ }
  else
    let b1 : Button κ :=
      { b with boxOutline := if b.m_isOn then b.m_theme.accent else b.m_theme.border }
    let b2 : Button κ :=
      if b1.m_pressed then { b1 with boxFill := ⟨28, 28, 34⟩ }
      else if b1.m_hover then { b1 with boxFill := ⟨40, 40, 48⟩ }
      else { b1 with boxFill := b1.m_theme.panel }
    { b2 with textFill := b2.m_theme.text }

/-- The first conditional of `Button::handle_event`: pointer moved. -/
def onMouseMoved (b : Button κ) (e : sf.Event) (window : sf.RenderWindow) : Button κ :=
  match e with
  | sf.Event.MouseMoved _ _ =>
    refresh_style
      { b with m_hover := b.contains ⟨F32.ofInt window.mouseX, F32.ofInt window.mouseY⟩ }
  | _ => b

/-- The second conditional of `Button::handle_event`: left button pressed. -/
def onMousePressed (b : Button κ) (e : sf.Event) : Button κ :=
  match e with
  | sf.Event.MouseButtonPressed sf.MouseButton.Left x y =>
    if b.contains ⟨F32.ofInt x, F32.ofInt y⟩ then refresh_style { b with m_pressed := true }
    else b
  | _ => b

/-- The third conditional of `Button::handle_event`: left button released.
Returns the new state and the closures called. -/
def onMouseReleased (b : Button κ) (e : sf.Event) : Button κ × List κ :=
  match e with
  | sf.Event.MouseButtonReleased sf.MouseButton.Left x y =>
    let wasPressed := b.m_pressed
    let b1 : Button κ := refresh_style { b with m_pressed := false }
    if wasPressed && b1.contains ⟨F32.ofInt x, F32.ofInt y⟩ then
      match b1.m_onClick with
      | some fn => (b1, [fn])
      | none => (b1, [])
    else (b1, [])
  | _ => (b, [])

/-- The member `Button::handle_event`: the new state and the closures called,
in order. -/
def handle_event (b : Button κ) (e : sf.Event) (window : sf.RenderWindow) :
    Button κ × List κ :=
  if !b.enabled then (b, [])
  else onMouseReleased (onMousePressed (onMouseMoved b e window) e) e

/-- The pump button of `main`: position `(240, 78)`, size `(220, 42)`, with a
click closure installed. -/
def pumpBtn (fn : κ) : Button κ :=
  set_on_click
    (set_size (set_position (new {}) ⟨F32.ofInt 240, F32.ofInt 78⟩)
      ⟨F32.ofInt 220, F32.ofInt 42⟩)
    (some fn)

end Button

/-- The `<` of `float`. -/
def F32.lt (x y : F32) : Bool := !x.isNaN && !y.isNaN && decide (x.key < y.key)

/-! ## The members of `std::string` the widgets call -/

/-- The call `s.insert(pos, 1, c)`: raises `out_of_range` when `pos` is past
the end. -/
def strInsert (s : String) (pos : Nat) (c : Char) : Except core.Err String :=
  if s.length < pos then Except.error core.Err.out_of_range
  else Except.ok ⟨s.data.take pos ++ c :: s.data.drop pos⟩

/-- The call `s.erase(pos, n)`: raises `out_of_range` when `pos` is past the
end. -/
def strErase (s : String) (pos n : Nat) : Except core.Err String :=
  if s.length < pos then Except.error core.Err.out_of_range
  else Except.ok ⟨s.data.take pos ++ s.data.drop (pos + n)⟩

/-! ## Label -/

/-- One decimal digit as a string. -/
def digit (n : Nat) : String := toString (n % 10)

/-- The output of `oss << std::fixed << std::setprecision(2) << x`: the decimal
expansion with two places nearest to the number, ties to even. -/
def fixed2 (x : F32) : String :=
  if x.isNaN then (if x.sign then "-nan" else "nan")
  else if x.isInf then (if x.sign then "-inf" else "inf")
  else
    let num := x.mag * 100
    let q := num / 2 ^ 149
    let r := num % 2 ^ 149
    let n := if 2 ^ 148 < r ∨ (r = 2 ^ 148 ∧ q % 2 = 1) then q + 1 else q
    (if x.sign then "-" else "") ++ toString (n / 100) ++ "." ++ digit (n / 10) ++ digit n

/-- The function `value_to_string`. -/
def value_to_string (v : core.Value) : String :=
  match v.type with
  | core.ValueType.Int => toString v.i
  | core.ValueType.Float => fixed2 v.f
  | core.ValueType.Bool => if v.b then "true" else "false"
  | core.ValueType.String => v.s

/-- The class `Label`: `m_text` is the string of the drawable of that name. -/
structure Label extends Widget where
  m_theme : Theme := {}
  m_text : String := ""
  m_prefix : String := ""
  m_valueText : String := ""
  m_subId : Nat := 0
  deriving DecidableEq, Repr

namespace Label

/-- The constructor `Label(font, charSize, theme)`. -/
def new (charSize : Nat) (theme : Theme) : Label :=
  { m_theme := theme
    m_size := ⟨F32.ofInt 300, F32.add (F32.ofInt charSize) (F32.ofInt 10)⟩ }

/-- The member `Label::rebuild`. -/
def rebuild (l : Label) : Label :=
  let combined := l.m_prefix
  let combined1 := if !(combined.length == 0) then combined ++ " " else combined
  { l with m_text := combined1 ++ l.m_valueText }

/-- The member `Label::set_prefix`. -/
def set_prefix (l : Label) (p : String) : Label := rebuild { l with m_prefix := p }

/-- The member `Label::set_text`. -/
def set_text (l : Label) (t : String) : Label := rebuild { l with m_valueText := t }

/-- The member `Label::set_position`. -/
def set_position (l : Label) (p : sf.Vector2f) : Label := { l with m_pos := p }

/-- The body of the closure `Label::bind_to` subscribes. -/
def onValue (l : Label) (v : core.Value) : Label := l.set_text (value_to_string v)

/-- The member `Label::handle_event`: nothing happens. -/
def handle_event (l : Label) (_e : sf.Event) (_window : sf.RenderWindow) : Label := l

end Label

/-! ## TextField -/

/-- The class `TextField`.  Of the drawables the outline colour of `m_box` and
the string of `m_text` are kept; the pixel position of the caret belongs to
the rendering library. -/
structure TextField (κ : Type) extends Widget where
  m_theme : Theme := {}
  boxOutline : sf.Color
  m_text : String := ""
  m_hint : String := "Enter text..."
  m_value : String := ""
  m_focused : Bool := false
  m_caretPos : Nat := 0
  m_blinkTimer : F32 := ⟨false, 0, 0⟩
  m_caretVisible : Bool := false
  m_subId : Nat := 0
  m_commit : Option κ := none
  deriving DecidableEq, Repr

namespace TextField

variable {κ : Type}

/-- The member `m_maxLen`, initialised to 32 and never assigned. -/
def m_maxLen (_f : TextField κ) : Nat := 32

/-- The constructor `TextField(font, charSize, theme)`. -/
def new (theme : Theme) : TextField κ :=
  { m_theme := theme
    boxOutline := theme.border
    m_size := ⟨F32.ofInt 260, F32.ofInt 40⟩ }

/-- The member `TextField::set_hint`. -/
def set_hint (f : TextField κ) (s : String) : TextField κ := { f with m_hint := s }

/-- The member `TextField::set_position`. -/
def set_position (f : TextField κ) (p : sf.Vector2f) : TextField κ := { f with m_pos := p }

/-- The member `TextField::set_size`. -/
def set_size (f : TextField κ) (s : sf.Vector2f) : TextField κ := { f with m_size := s }

/-- The member `TextField::apply_text`. -/
def apply_text (f : TextField κ) : TextField κ := { f with m_text := f.m_value }

/-- The member `TextField::set_text`. -/
def set_text (f : TextField κ) (s : String) : TextField κ :=
  let f1 : TextField κ := { f with m_value := s }
  let f2 : TextField κ :=
    if f1.m_value.length < f1.m_caretPos then { f1 with m_caretPos := f1.m_value.length }
    else f1
  apply_text f2

/-- The body of the closure `TextField::bind_string` subscribes. -/
def onValue (f : TextField κ) (v : core.Value) : TextField κ :=
  if !f.m_focused && v.type == core.ValueType.String then f.set_text v.s else f

/-- The member `TextField::refresh_style`. -/
def refresh_style (f : TextField κ) : TextField κ :=
  if !f.enabled then { f with boxOutline := ⟨80, 80, 90⟩ }
  else
    { f with
      boxOutline := if f.m_focused then f.m_theme.accent else f.m_theme.border
      m_blinkTimer := ⟨false, 0, 0⟩
      m_caretVisible := f.m_focused }

/-- The first conditional of `TextField::handle_event`: left button pressed.
The commit closure is called before any member changes. -/
def onMousePressed (f : TextField κ) (e : sf.Event) : TextField κ × List κ :=
  match e with
  | sf.Event.MouseButtonPressed sf.MouseButton.Left x y =>
    let nowFocused := f.contains ⟨F32.ofInt x, F32.ofInt y⟩
    let calls := if f.m_focused && !nowFocused then f.m_commit.toList else []
    let f1 : TextField κ := refresh_style { f with m_focused := nowFocused }
    let f2 : TextField κ :=
      if f1.m_focused then { f1 with m_caretPos := f1.m_value.length } else f1
    (f2, calls)
  | _ => (f, [])

/-- The conditional of `TextField::handle_event` on a text-input event with
the given code. -/
def onTextEntered (f : TextField κ) (code : Nat) : Except core.Err (TextField κ × List κ) :=
  if code = 8 then
    if 0 < f.m_caretPos && !(f.m_value.length == 0) then
      match strErase f.m_value (f.m_caretPos - 1) 1 with
      | Except.error err => Except.error err
      | Except.ok s =>
        Except.ok (apply_text { f with m_value := s, m_caretPos := f.m_caretPos - 1 }, [])
    else Except.ok (f, [])
  else if code = 13 then
    Except.ok (refresh_style { f with m_focused := false }, f.m_commit.toList)
  else if code = 9 then Except.ok (f, [])
  else if 32 ≤ code ∧ code ≤ 126 then
    if f.m_value.length < f.m_maxLen then
      match strInsert f.m_value f.m_caretPos (Char.ofNat code) with
      | Except.error err => Except.error err
      | Except.ok s =>
        Except.ok (apply_text { f with m_value := s, m_caretPos := f.m_caretPos + 1 }, [])
    else Except.ok (f, [])
  else Except.ok (f, [])

/-- The conditional of `TextField::handle_event` on a key press. -/
def onKeyPressed (f : TextField κ) (code : sf.Key) : TextField κ :=
  match code with
  | sf.Key.Left => if 0 < f.m_caretPos then { f with m_caretPos := f.m_caretPos - 1 } else f
  | sf.Key.Right =>
    if f.m_caretPos < f.m_value.length then { f with m_caretPos := f.m_caretPos + 1 } else f
  | sf.Key.Escape => refresh_style { f with m_focused := false }
  | sf.Key.Other _ => f

/-- The member `TextField::handle_event`: the new state and the closures
called, or the exception a string member raises. -/
def handle_event (f : TextField κ) (e : sf.Event) (_window : sf.RenderWindow) :
    Except core.Err (TextField κ × List κ) :=
  if !f.enabled then Except.ok (f, [])
  else
    let r := onMousePressed f e
    if !r.1.m_focused then Except.ok r
    else
      match e with
      | sf.Event.TextEntered code =>
        match onTextEntered r.1 code with
        | Except.error err => Except.error err
        | Except.ok r1 => Except.ok (r1.1, r.2 ++ r1.2)
      | sf.Event.KeyPressed code => Except.ok (onKeyPressed r.1 code, r.2)
      | _ => Except.ok r

/-- The member `TextField::update`. -/
def update (f : TextField κ) (dt : F32) : TextField κ :=
  if !f.m_focused then { f with m_caretVisible := false }
  else
    let f1 : TextField κ := { f with m_blinkTimer := F32.add f.m_blinkTimer dt }
    if F32.ge f1.m_blinkTimer ⟨false, 126, 0⟩ then
      { f1 with m_blinkTimer := ⟨false, 0, 0⟩, m_caretVisible := !f1.m_caretVisible }
    else f1

end TextField

/-! ## The closures of the program and the objects they capture

The lambdas of `main.cpp` capture `this` (a widget) or a reference to the
store.  In the model the widgets and the store live in one `World`, a captured
`this` is the index of the widget in it, and a closure is the constructor
naming its lambda together with the captured values. -/

namespace Button

variable {κ : Type}

/-- The member `Button::set_caption`. -/
def set_caption (b : Button κ) (s : String) : Button κ := { b with m_caption := s }

/-- The body of the closure `Button::bind_toggle_bool` subscribes. -/
def onValue (b : Button κ) (v : core.Value) : Button κ :=
  refresh_style { b with m_isOn := if v.type = core.ValueType.Bool then v.b else false }

end Button

/-- The function `on_off` of `main.cpp`. -/
def on_off (v : Bool) : String := if v then "ON" else "OFF"

/-- The closures of type `Variable::Callback`, called with a `const Value&`. -/
inductive Observer where
  /-- The lambda `main` subscribes to `pump.enabled`; captures the store. -/
  | pumpView
  /-- The lambda of `Label::bind_to`; captures `this`. -/
  | labelValue (label : Nat)
  /-- The lambda `Button::bind_toggle_bool` subscribes; captures `this`. -/
  | buttonIsOn (button : Nat)
  /-- The lambda `TextField::bind_string` subscribes; captures `this`. -/
  | fieldValue (field : Nat)
  deriving DecidableEq, Repr

/-- The closures of type `std::function<void()>`. -/
inductive Action where
  /-- The click lambda of `Button::bind_toggle_bool`; captures the store and
  the variable name. -/
  | toggleBool (varName : String)
  /-- The click lambda of the button `tempUp` of `main`; captures the store. -/
  | tempUp
  /-- The lambda `m_commit` of `TextField::bind_string`; captures the store,
  the variable name and `this`. -/
  | fieldCommit (varName : String) (field : Nat)
  deriving DecidableEq, Repr

/-- The store and the widgets of a running program. -/
structure World where
  vars : core.VariableStore Observer := {}
  labels : List Label := []
  buttons : List (Button Action) := []
  fields : List (TextField Action) := []

/-- Why a run of the model stops without a result. -/
inductive Fault where
  /-- A C++ exception left the call. -/
  | exception (err : core.Err)
  /-- A closure refers to a widget or Variable that is not in the world. -/
  | dangling
  /-- The step bound of the run was used up. -/
  | fuel
  deriving DecidableEq, Repr

/-- A closure call still to be made: a subscriber closure, to be called with
the value of the named Variable (`notify` passes `m_value` by reference), or
a `void()` closure. -/
inductive Job where
  | notify (name : String) (cb : Observer)
  | act (a : Action)
  deriving DecidableEq, Repr

namespace World

/-- The calls `VariableStore::set` or `Variable::subscribe` makes on the
Variable `name`, as jobs. -/
def jobsOf (name : String) (calls : List (core.Call Observer)) : List Job :=
  calls.map (fun c => Job.notify name c.cb)

/-- The call `store.set(name, value)` made inside a closure: the store is
updated and the subscriber calls of the Variable come first among the calls
still to be made. -/
def storeSet (w : World) (name : String) (value : core.Value) : World × List Job :=
  let r := w.vars.set name value
  ({ w with vars := r.1 }, jobsOf name r.2)

/-- The body of a subscriber closure, called with `v`. -/
def runObserver (w : World) (cb : Observer) (v : core.Value) :
    Except Fault (World × List Job) :=
  match cb with
  | Observer.pumpView =>
    let b := if v.type = core.ValueType.Bool then v.b else false
    Except.ok (w.storeSet "pump.enabled.view" (core.Value.make_string (on_off b)))
  | Observer.labelValue j =>
    match w.labels[j]? with
    | none => Except.error Fault.dangling
    | some l => Except.ok ({ w with labels := w.labels.set j (l.onValue v) }, [])
  | Observer.buttonIsOn k =>
    match w.buttons[k]? with
    | none => Except.error Fault.dangling
    | some b => Except.ok ({ w with buttons := w.buttons.set k (b.onValue v) }, [])
  | Observer.fieldValue i =>
    match w.fields[i]? with
    | none => Except.error Fault.dangling
    | some f => Except.ok ({ w with fields := w.fields.set i (f.onValue v) }, [])

/-- The body of a `void()` closure.  In each of them the call of
`store.set` is the last statement. -/
def runAction (w : World) (a : Action) : Except Fault (World × List Job) :=
  match a with
  | Action.toggleBool varName =>
    match w.vars.get_bool varName false with
    | Except.error err => Except.error (Fault.exception err)
    | Except.ok cur => Except.ok (w.storeSet varName (core.Value.make_bool (!cur)))
  | Action.tempUp =>
    match w.vars.get_float "temperature" ⟨false, 0, 0⟩ with
    | Except.error err => Except.error (Fault.exception err)
    | Except.ok t =>
      Except.ok (w.storeSet "temperature"
        (core.Value.make_float (F32.add t ⟨false, 125, 0⟩)))
  | Action.fieldCommit varName i =>
    match w.fields[i]? with
    | none => Except.error Fault.dangling
    | some f => Except.ok (w.storeSet varName (core.Value.make_string f.m_value))

/-- One closure call: the world after the statements of the closure before
its `store.set`, and the calls that `set` makes. -/
def runJob (w : World) (j : Job) : Except Fault (World × List Job) :=
  match j with
  | Job.notify name cb =>
    match w.vars.m_vars name with
    | none => Except.error Fault.dangling
    | some x => w.runObserver cb x.get
  | Job.act a => w.runAction a

/-- The closure calls still to be made, in order; the calls a closure makes
are made before the calls that were waiting.  The first argument bounds the
number of closure calls. -/
def exec : Nat → List Job → World → Except Fault World
  | _, [], w => Except.ok w
  | 0, _ :: _, _ => Except.error Fault.fuel
  | fuel + 1, j :: js, w =>
    match w.runJob j with
    | Except.error err => Except.error err
    | Except.ok r => exec fuel (r.2 ++ js) r.1

/-- The call `vars.set(name, value)` with the subscriber closures run. -/
def set (fuel : Nat) (name : String) (value : core.Value) (w : World) : Except Fault World :=
  let r := w.storeSet name value
  exec fuel r.2 r.1

/-- The call `vars.at(name).subscribe(cb)` with the closure run: the id
returned and the world. -/
def subscribe (fuel : Nat) (name : String) (cb : Observer) (w : World) :
    Except Fault (Nat × World) :=
  match (w.vars.at_ name).1 with
  | Except.error err => Except.error (Fault.exception err)
  | Except.ok x =>
    let r := x.subscribe (some cb)
    match exec fuel (jobsOf name r.2.2) { w with vars := w.vars.put name r.2.1 } with
    | Except.error err => Except.error err
    | Except.ok w1 => Except.ok (r.1, w1)

/-- The call `Label::bind_to(store, varName)` on the label of index `j`. -/
def label_bind_to (fuel : Nat) (j : Nat) (varName : String) (w : World) :
    Except Fault World :=
  let w0 : World := { w with vars := (w.vars.ensure varName (core.Value.make_string "")).2 }
  match subscribe fuel varName (Observer.labelValue j) w0 with
  | Except.error err => Except.error err
  | Except.ok r =>
    match r.2.labels[j]? with
    | none => Except.error Fault.dangling
    | some l => Except.ok { r.2 with labels := r.2.labels.set j { l with m_subId := r.1 } }

/-- The call `Button::bind_toggle_bool(store, varName)` on the button of
index `k`. -/
def button_bind_toggle_bool (fuel : Nat) (k : Nat) (varName : String) (w : World) :
    Except Fault World :=
  let w0 : World := { w with vars := (w.vars.ensure varName (core.Value.make_bool false)).2 }
  match subscribe fuel varName (Observer.buttonIsOn k) w0 with
  | Except.error err => Except.error err
  | Except.ok r =>
    match r.2.buttons[k]? with
    | none => Except.error Fault.dangling
    | some b =>
      let b1 : Button Action :=
        Button.set_on_click { b with m_subId := r.1 } (some (Action.toggleBool varName))
      Except.ok { r.2 with buttons := r.2.buttons.set k b1 }

/-- The call `TextField::bind_string(store, varName)` on the field of index
`i`. -/
def field_bind_string (fuel : Nat) (i : Nat) (varName : String) (w : World) :
    Except Fault World :=
  let w0 : World := { w with vars := (w.vars.ensure varName (core.Value.make_string "")).2 }
  match subscribe fuel varName (Observer.fieldValue i) w0 with
  | Except.error err => Except.error err
  | Except.ok r =>
    match r.2.fields[i]? with
    | none => Except.error Fault.dangling
    | some f =>
      let f1 : TextField Action :=
        { f with m_subId := r.1, m_commit := some (Action.fieldCommit varName i) }
      Except.ok { r.2 with fields := r.2.fields.set i f1 }

/-- The call `handle_event(e, window)` on the button of index `k`: the
members change first, the click closure is called last. -/
def button_handle_event (fuel : Nat) (k : Nat) (e : sf.Event) (window : sf.RenderWindow)
    (w : World) : Except Fault World :=
  match w.buttons[k]? with
  | none => Except.error Fault.dangling
  | some b =>
    let r := b.handle_event e window
    exec fuel (r.2.map Job.act) { w with buttons := w.buttons.set k r.1 }

/-- The call `handle_event(e, window)` on the field of index `i`: the commit
closure, where the handler calls it, is called before any member changes; the
members then change from the state the closure left. -/
def field_handle_event (fuel : Nat) (i : Nat) (e : sf.Event) (window : sf.RenderWindow)
    (w : World) : Except Fault World :=
  match w.fields[i]? with
  | none => Except.error Fault.dangling
  | some f =>
    match f.handle_event e window with
    | Except.error err => Except.error (Fault.exception err)
    | Except.ok r =>
      match exec fuel (r.2.map Job.act) w with
      | Except.error err => Except.error err
      | Except.ok w1 =>
        match w1.fields[i]? with
        | none => Except.error Fault.dangling
        | some f1 =>
          match f1.handle_event e window with
          | Except.error err => Except.error (Fault.exception err)
          | Except.ok r1 => Except.ok { w1 with fields := w1.fields.set i r1.1 }

/-- The events of a list handled one after the other by the field of index `i`. -/
def field_handle_events (fuel : Nat) (i : Nat) (window : sf.RenderWindow) :
    List sf.Event → World → Except Fault World
  | [], w => Except.ok w
  | e :: es, w =>
    match field_handle_event fuel i e window w with
    | Except.error err => Except.error err
    | Except.ok w1 => field_handle_events fuel i window es w1

end World

/-! ## The wiring of `main` -/

namespace World

/-- A label constructed by `main`, appended to the labels of the world. -/
def addLabel (w : World) (l : Label) : World := { w with labels := w.labels ++ [l] }

/-- A button constructed by `main`, appended to the buttons of the world. -/
def addButton (w : World) (b : Button Action) : World := { w with buttons := w.buttons ++ [b] }

/-- A text field constructed by `main`, appended to the fields of the world. -/
def addField (w : World) (f : TextField Action) : World := { w with fields := w.fields ++ [f] }

end World

/-- The statements of `main` from the declaration of `vars` to the last
`panel->add`: the store, the subscriber on `pump.enabled`, and the widgets in
the order of their construction (labels `title`, `pumpLabel`, `tempLabel`,
`nameLabel`, `tip1`, `tip2`; buttons `pumpBtn`, `tempUp`; field `nameField`). -/
def main_setup (fuel : Nat) : Except Fault World := do
  let w1 ← World.set fuel "pump.enabled" (core.Value.make_bool false) {}
  let w2 ← World.set fuel "operator.name" (core.Value.make_string "Ivan") w1
  let w3 ← World.set fuel "temperature" (core.Value.make_float ⟨false, 131, 3932160⟩) w2
  let w4 ← World.set fuel "pump.enabled.view" (core.Value.make_string "OFF") w3
  let r5 ← World.subscribe fuel "pump.enabled" Observer.pumpView w4
  let w6 := r5.2.addLabel
    (((Label.new 22 {}).set_position ⟨F32.ofInt 40, F32.ofInt 35⟩).set_text
      "IO Components Demo")
  let w7 := w6.addLabel
    (( Label.set_prefix (Label.new 18 {}) "Pump:").set_position ⟨F32.ofInt 40, F32.ofInt 85⟩)
  let w8 ← World.label_bind_to fuel 1 "pump.enabled.view" w7
  let w9 := w8.addButton
    ((((Button.new {}).set_position ⟨F32.ofInt 240, F32.ofInt 78⟩).set_size
      ⟨F32.ofInt 220, F32.ofInt 42⟩).set_caption "Toggle pump.enabled")
  let w10 ← World.button_bind_toggle_bool fuel 0 "pump.enabled" w9
  let w11 := w10.addLabel
    (( Label.set_prefix (Label.new 18 {}) "Temperature:").set_position
      ⟨F32.ofInt 40, F32.ofInt 145⟩)
  let w12 ← World.label_bind_to fuel 2 "temperature" w11
  let w13 := w12.addButton
    (((((Button.new {}).set_position ⟨F32.ofInt 240, F32.ofInt 138⟩).set_size
      ⟨F32.ofInt 220, F32.ofInt 42⟩).set_caption "Temperature +0.25").set_on_click
      (some Action.tempUp))
  let w14 := w13.addLabel
    (( Label.set_prefix (Label.new 18 {}) "Operator name:").set_position
      ⟨F32.ofInt 40, F32.ofInt 215⟩)
  let w15 ← World.label_bind_to fuel 3 "operator.name" w14
  let w16 := w15.addField
    ((((TextField.new {}).set_position ⟨F32.ofInt 240, F32.ofInt 205⟩).set_size
      ⟨F32.ofInt 320, F32.ofInt 42⟩).set_hint "Type name, press Enter...")
  let w17 ← World.field_bind_string fuel 0 "operator.name" w16
  let w18 := w17.addLabel
    (((Label.new 16 {}).set_position ⟨F32.ofInt 40, F32.ofInt 290⟩).set_text
      "Variables: pump.enabled, operator.name, temperature")
  let w19 := w18.addLabel
    (((Label.new 16 {}).set_position ⟨F32.ofInt 40, F32.ofInt 320⟩).set_text
      "Tip: click text field -> type -> Enter to commit")
  pure w19

/-- One click on `pumpBtn` of `main`: the left button pressed and released at
the same point, both events handled by the button. -/
def clickPump (fuel : Nat) (x y : Int) (w : World) : Except Fault World :=
  match World.button_handle_event fuel 0
      (sf.Event.MouseButtonPressed sf.MouseButton.Left x y) ⟨x, y⟩ w with
  | Except.error err => Except.error err
  | Except.ok w1 =>
    World.button_handle_event fuel 0
      (sf.Event.MouseButtonReleased sf.MouseButton.Left x y) ⟨x, y⟩ w1

/-- A number of clicks on `pumpBtn`, one after the other. -/
def clicksPump (fuel : Nat) (x y : Int) : Nat → World → Except Fault World
  | 0, w => Except.ok w
  | n + 1, w =>
    match clickPump fuel x y w with
    | Except.error err => Except.error err
    | Except.ok w1 => clicksPump fuel x y n w1

namespace TextField

variable {κ : Type}

/-- The member `Widget::set_enabled` on a TextField. -/
def set_enabled (f : TextField κ) (enabled : Bool) : TextField κ :=
  { f with m_enabled := enabled }

/-- The states a TextField takes: the constructed field, and every state a
call of a public member, a notification from the bound Variable or the
assignments of `bind_string` lead to from such a state. -/
inductive Reachable : TextField κ → Prop where
  | new (theme : Theme) : Reachable (new theme)
  | handle_event {f f1 : TextField κ} {calls : List κ} (e : sf.Event)
      (window : sf.RenderWindow) :
      Reachable f → f.handle_event e window = Except.ok (f1, calls) → Reachable f1
  | set_text {f : TextField κ} (s : String) : Reachable f → Reachable (f.set_text s)
  | update {f : TextField κ} (dt : F32) : Reachable f → Reachable (f.update dt)
  | onValue {f : TextField κ} (v : core.Value) : Reachable f → Reachable (f.onValue v)
  | set_hint {f : TextField κ} (s : String) : Reachable f → Reachable (f.set_hint s)
  | set_position {f : TextField κ} (p : sf.Vector2f) :
      Reachable f → Reachable (f.set_position p)
  | set_size {f : TextField κ} (s : sf.Vector2f) : Reachable f → Reachable (f.set_size s)
  | set_enabled {f : TextField κ} (enabled : Bool) :
      Reachable f → Reachable (f.set_enabled enabled)
  | bound {f : TextField κ} (id : Nat) (commit : Option κ) :
      Reachable f → Reachable { f with m_subId := id, m_commit := commit }

end TextField

namespace TextField

variable {κ : Type}

/-- The events of a list handled one after the other by one field: the last
state and all the closures called, in order. -/
def handle_events (f : TextField κ) (window : sf.RenderWindow) :
    List sf.Event → Except core.Err (TextField κ × List κ)
  | [] => Except.ok (f, [])
  | e :: es =>
    match f.handle_event e window with
    | Except.error err => Except.error err
    | Except.ok r =>
      match handle_events r.1 window es with
      | Except.error err => Except.error err
      | Except.ok r1 => Except.ok (r1.1, r.2 ++ r1.2)

/-- The events of an edit that is not committed: text input other than Enter,
and the keys Left and Right. -/
def isEdit : sf.Event → Bool
  | sf.Event.TextEntered code => code != 13
  | sf.Event.KeyPressed sf.Key.Left => true
  | sf.Event.KeyPressed sf.Key.Right => true
  | _ => false

end TextField

/-- The subscriber closures that capture a widget and change nothing else. -/
def Observer.isWidget : Observer → Bool
  | Observer.pumpView => false
  | _ => true

/-- The widget a subscriber closure captures is in the world. -/
def World.hasTarget (w : World) : Observer → Bool
  | Observer.pumpView => true
  | Observer.labelValue j => decide (j < w.labels.length)
  | Observer.buttonIsOn k => decide (k < w.buttons.length)
  | Observer.fieldValue i => decide (i < w.fields.length)

/-- The Variable `name` exists and each of its subscribers is a closure of a
widget of the world: the state `Label::bind_to`, `Button::bind_toggle_bool`
and `TextField::bind_string` leave a Variable in. -/
def World.widgetBound (w : World) (name : String) : Bool :=
  match w.vars.m_vars name with
  | none => false
  | some x =>
    x.m_subs.all (fun s =>
      match s.cb with
      | none => true
      | some c => c.isWidget && w.hasTarget c)

/-- The world a fresh field is in after `bind_string(store, "operator.name")`
on an empty store and a click inside the field: the Variable holds the empty
string, its one subscriber is the closure of the field, and the field is
focused with the caret at 0. -/
def World.typingDemo : World :=
  { vars := ({} : core.VariableStore Observer).put "operator.name"
      ⟨core.Value.make_string "", [⟨1, some (Observer.fieldValue 0)⟩], 1⟩
    fields :=
      [{ (TextField.new {} : TextField Action) with
          m_focused := true
          m_caretVisible := true
          boxOutline := ⟨80, 160, 255⟩
          m_subId := 1
          m_commit := some (Action.fieldCommit "operator.name" 0) }] }

/-- The world after `vars.set("operator.name", make_string("Ivan"))`, a
constructed label with `set_prefix("Operator name:")` and
`bind_to(vars, "operator.name")`, and a constructed field with
`bind_string(vars, "operator.name")`: the Variable holds `Ivan` and is
subscribed to by the closures of the label (id 1) and of the field (id 2);
both widgets show `Ivan`, the field unfocused. -/
def World.nameDemo : World :=
  { vars := ({} : core.VariableStore Observer).put "operator.name"
      ⟨core.Value.make_string "Ivan",
        [⟨1, some (Observer.labelValue 0)⟩, ⟨2, some (Observer.fieldValue 0)⟩], 2⟩
    labels :=
      [{ (( Label.set_prefix (Label.new 18 {}) "Operator name:").set_text "Ivan") with
          m_subId := 1 }]
    fields :=
      [{ (TextField.new {} : TextField Action) with
          m_value := "Ivan"
          m_text := "Ivan"
          m_subId := 2
          m_commit := some (Action.fieldCommit "operator.name" 0) }] }

/-- A store in which the Variable a field is bound to has a subscriber that
writes to the store: the statements
`vars.set("pump.enabled.view", make_string("OFF"))`, a `subscribe` on
`pump.enabled.view` of the lambda `main` subscribes to `pump.enabled` (it
sets `pump.enabled.view` to `on_off` of the Bool it is called with, of
`false` for any other value), and `bind_string(vars, "pump.enabled.view")` on
a constructed field. -/
def World.echoDemo (fuel : Nat) : Except Fault World := do
  let w1 ← World.set fuel "pump.enabled.view" (core.Value.make_string "OFF") {}
  let r2 ← World.subscribe fuel "pump.enabled.view" Observer.pumpView w1
  World.field_bind_string fuel 0 "pump.enabled.view" (r2.2.addField (TextField.new {}))

/-- A run whose result stays the same when its step bound grows. -/
def World.Mono {α : Type} (f : Nat → Except Fault α) : Prop :=
  ∀ n m a, n ≤ m → f n = Except.ok a → f m = Except.ok a

/-- The geometry of `pumpBtn` in `main`. -/
def pumpWidget : Widget :=
  { m_pos := ⟨F32.ofInt 240, F32.ofInt 78⟩, m_size := ⟨F32.ofInt 220, F32.ofInt 42⟩ }

/-- The pump part of the wiring of `main` with `pump.enabled` holding
`Bool b`: the Variable with the subscriber of `main` and the closure of
`pumpBtn`; `pump.enabled.view` holding `on_off b` with the closure of
`pumpLabel`; the label showing `on_off b` after its prefix; the button in
place, enabled, released, with its toggle closure. -/
def pumpWired (b : Bool) (w : World) : Prop :=
  w.vars.m_vars "pump.enabled" =
      some ⟨core.Value.make_bool b,
        [⟨1, some Observer.pumpView⟩, ⟨2, some (Observer.buttonIsOn 0)⟩], 2⟩ ∧
    w.vars.m_vars "pump.enabled.view" =
      some ⟨core.Value.make_string (on_off b), [⟨1, some (Observer.labelValue 1)⟩], 1⟩ ∧
    (w.labels[1]?).map (fun l => ( l.m_prefix, l.m_valueText, l.m_text)) =
      some ("Pump:", on_off b, "Pump: " ++ on_off b) ∧
    (w.buttons[0]?).map (fun k => (k.toWidget, k.m_onClick, k.m_pressed)) =
      some (pumpWidget, some (Action.toggleBool "pump.enabled"), false)

instance (b : Bool) (w : World) : Decidable (pumpWired b w) := by
  unfold pumpWired
  infer_instance

/-- The check that a run ended in a world wired as `pumpWired b` says. -/
def endsWired (b : Bool) (r : Except Fault World) : Bool :=
  match r with
  | Except.ok w => decide (pumpWired b w)
  | Except.error _ => false

end ui

/-! # Theorems -/

namespace core

variable {κ : Type}

/-! ## Helper lemmas on the notification loop -/

theorem notifyLoop_eq_filterMap (v : Value) (l : List (Subscriber κ)) :
    Variable.notifyLoop v l = l.filterMap (fun s => s.cb.map (fun c => Call.mk s.id c v)) := by
  induction l with
  | nil => rfl
  | cons s rest ih =>
    cases hcb : s.cb <;> simp [Variable.notifyLoop, hcb, ih, List.filterMap_cons]

theorem notifyLoop_append (v : Value) (l₁ l₂ : List (Subscriber κ)) :
    Variable.notifyLoop v (l₁ ++ l₂) = Variable.notifyLoop v l₁ ++ Variable.notifyLoop v l₂ := by
  simp [notifyLoop_eq_filterMap, List.filterMap_append]

theorem notifyLoop_arg (v : Value) (l : List (Subscriber κ)) :
    ∀ c ∈ Variable.notifyLoop v l, c.arg = v := by
  induction l with
  | nil => simp [Variable.notifyLoop]
  | cons s rest ih =>
    intro c hc
    cases hcb : s.cb with
    | none =>
      simp only [Variable.notifyLoop, hcb] at hc
      exact ih c hc
    | some k =>
      simp only [Variable.notifyLoop, hcb, List.mem_cons] at hc
      rcases hc with rfl | hc
      · rfl
      · exact ih c hc

theorem notifyLoop_subscribers (v : Value) (l : List (Subscriber κ)) :
    (Variable.notifyLoop v l).map (fun c => Subscriber.mk c.id (some c.cb)) =
      l.filter (fun s => s.cb.isSome) := by
  induction l with
  | nil => rfl
  | cons s rest ih =>
    obtain ⟨sid, scb⟩ := s
    cases scb <;> simp [Variable.notifyLoop, ih]

theorem notifyLoop_mem (v : Value) (l : List (Subscriber κ)) (c : Call κ)
    (hc : c ∈ Variable.notifyLoop v l) : ∃ t ∈ l, t.id = c.id ∧ t.cb = some c.cb := by
  induction l with
  | nil => simp [Variable.notifyLoop] at hc
  | cons s rest ih =>
    cases hcb : s.cb with
    | none =>
      simp only [Variable.notifyLoop, hcb] at hc
      obtain ⟨t, ht, h1, h2⟩ := ih hc
      exact ⟨t, List.mem_cons_of_mem _ ht, h1, h2⟩
    | some k =>
      simp only [Variable.notifyLoop, hcb, List.mem_cons] at hc
      rcases hc with rfl | hc
      · exact ⟨s, List.mem_cons_self _ _, rfl, hcb⟩
      · obtain ⟨t, ht, h1, h2⟩ := ih hc
        exact ⟨t, List.mem_cons_of_mem _ ht, h1, h2⟩

/-! ## Variable.set -/

/-- C1: when the stored value `equals` the argument, `set` returns at once:
the Variable (stored value, subscriber list, id counter) is unchanged and no
subscriber closure is called. -/
theorem Variable.set_equal_noop (x : Variable κ) (v : Value)
    (h : x.get.equals v = true) :
    (x.set v).1 = x ∧ (x.set v).1.get = x.get ∧ (x.set v).1.m_subs = x.m_subs ∧
      (x.set v).2 = [] := by
  have h1 : x.m_value.equals v = true := h
  simp [Variable.set, h1]

/-- Witness for `Variable.set_equal_noop`: the test's Variable holding `Int 1`
with one subscriber, set to `Int 1` again. -/
theorem Variable.set_equal_noop_witness :
    ((⟨Value.make_int 1, [⟨1, some 0⟩], 1⟩ : Variable Nat).set (Value.make_int 1)).1
        = ⟨Value.make_int 1, [⟨1, some 0⟩], 1⟩ ∧
      ((⟨Value.make_int 1, [⟨1, some 0⟩], 1⟩ : Variable Nat).set (Value.make_int 1)).2 = [] :=
  have h := Variable.set_equal_noop (⟨Value.make_int 1, [⟨1, some 0⟩], 1⟩ : Variable Nat)
    (Value.make_int 1) (by decide)
  ⟨h.1, h.2.2.2⟩

/-- C2: when the stored value does not `equals` the argument `v`, `set` stores
`v`, keeps the subscriber list, and calls the closures of the subscribers in
list order, each nonempty closure once and with `v`: the calls are the
subscriber list with the empty closures left out. -/
theorem Variable.set_changed_notifies (x : Variable κ) (v : Value)
    (h : x.get.equals v = false) :
    (x.set v).1.get = v ∧ (x.set v).1.m_subs = x.m_subs ∧
      (x.set v).1.m_nextId = x.m_nextId ∧
      (x.set v).2 = x.m_subs.filterMap (fun s => s.cb.map (fun c => Call.mk s.id c v)) ∧
      (x.set v).2.map (fun c => Subscriber.mk c.id (some c.cb)) =
        x.m_subs.filter (fun s => s.cb.isSome) ∧
      (∀ c ∈ (x.set v).2, c.arg = v) := by
  have h1 : x.m_value.equals v = false := h
  refine ⟨?_, ?_, ?_, ?_, ?_, ?_⟩
  · simp [Variable.set, h1, Variable.get]
  · simp [Variable.set, h1]
  · simp [Variable.set, h1]
  · simp [Variable.set, h1, Variable.notify, notifyLoop_eq_filterMap]
  · simp only [Variable.set, h1, Variable.notify]
    exact notifyLoop_subscribers v x.m_subs
  · simp only [Variable.set, h1, Variable.notify]
    exact notifyLoop_arg v x.m_subs

/-- Witness for `Variable.set_changed_notifies`: a Variable holding `Int 1`
with three subscribers, the second with an empty closure, set to `Int 2`. -/
theorem Variable.set_changed_notifies_witness :
    ((⟨Value.make_int 1, [⟨1, some 10⟩, ⟨2, none⟩, ⟨5, some 30⟩], 5⟩ : Variable Nat).set
        (Value.make_int 2)).2
      = [⟨1, 10, Value.make_int 2⟩, ⟨5, 30, Value.make_int 2⟩] :=
  (Variable.set_changed_notifies
    (⟨Value.make_int 1, [⟨1, some 10⟩, ⟨2, none⟩, ⟨5, some 30⟩], 5⟩ : Variable Nat)
    (Value.make_int 2) (by decide)).2.2.2.1

/-! ## Variable.subscribe -/

/-- C3: `subscribe` with a nonempty closure `cb` makes exactly one call, of
`cb` with the value `get` returns at the time of the call, under the returned
id; the stored value is unchanged, the subscriber list grows by `cb` at its
end, and every later `set` that changes the value calls `cb` with the new
value, after the closures of the earlier subscribers. -/
theorem Variable.subscribe_calls_once (x : Variable κ) (cb : κ) :
    (x.subscribe (some cb)).2.2 = [⟨(x.subscribe (some cb)).1, cb, x.get⟩] ∧
      (x.subscribe (some cb)).2.1.get = x.get ∧
      (x.subscribe (some cb)).2.1.m_subs
        = x.m_subs ++ [⟨(x.subscribe (some cb)).1, some cb⟩] ∧
      (∀ v, (x.subscribe (some cb)).2.1.get.equals v = false →
        ((x.subscribe (some cb)).2.1.set v).1.get = v ∧
        ((x.subscribe (some cb)).2.1.set v).2
          = Variable.notifyLoop v x.m_subs ++ [⟨(x.subscribe (some cb)).1, cb, v⟩]) := by
  refine ⟨rfl, rfl, rfl, ?_⟩
  intro v hv
  have h1 : x.m_value.equals v = false := hv
  simp [Variable.subscribe, Variable.set, h1, Variable.notify, Variable.get,
    notifyLoop_append, Variable.notifyLoop]

/-- Witness for `Variable.subscribe_calls_once`: the test's Variable holding
`Bool true`; the new closure is called once with `Bool true`, and a later
`set` to `Bool false` reaches it. -/
theorem Variable.subscribe_calls_once_witness :
    ((⟨Value.make_bool true, [], 0⟩ : Variable Nat).subscribe (some 7)).2.2
        = [⟨1, 7, Value.make_bool true⟩] ∧
      (((⟨Value.make_bool true, [], 0⟩ : Variable Nat).subscribe (some 7)).2.1.set
          (Value.make_bool false)).2
        = [⟨1, 7, Value.make_bool false⟩] :=
  have h := Variable.subscribe_calls_once (⟨Value.make_bool true, [], 0⟩ : Variable Nat) 7
  ⟨h.1, (h.2.2.2 (Value.make_bool false) (by decide)).2⟩

/-! ## Variable.unsubscribe -/

theorem eraseFirst_of_absent (id : Nat) (l : List (Subscriber κ))
    (h : ∀ s ∈ l, s.id ≠ id) : Variable.eraseFirst id l = l := by
  induction l with
  | nil => rfl
  | cons s rest ih =>
    have hs : s.id ≠ id := h s (List.mem_cons_self _ _)
    have hr : ∀ t ∈ rest, t.id ≠ id := fun t ht => h t (List.mem_cons_of_mem _ ht)
    simp [Variable.eraseFirst, hs, ih hr]

theorem eraseFirst_of_present (id : Nat) (l : List (Subscriber κ))
    (h : ∃ s ∈ l, s.id = id) :
    ∃ pre s post, l = pre ++ s :: post ∧ s.id = id ∧ (∀ t ∈ pre, t.id ≠ id) ∧
      Variable.eraseFirst id l = pre ++ post := by
  induction l with
  | nil => simp at h
  | cons a rest ih =>
    by_cases ha : a.id = id
    · exact ⟨[], a, rest, rfl, ha, by simp, by simp [Variable.eraseFirst, ha]⟩
    · have hr : ∃ s ∈ rest, s.id = id := by
        obtain ⟨s, hs, hsid⟩ := h
        rcases List.mem_cons.mp hs with rfl | hs
        · exact absurd hsid ha
        · exact ⟨s, hs, hsid⟩
      obtain ⟨pre, s, post, hl, hsid, hpre, he⟩ := ih hr
      refine ⟨a :: pre, s, post, by simp [hl], hsid, ?_, by simp [Variable.eraseFirst, ha, he]⟩
      intro t ht
      rcases List.mem_cons.mp ht with rfl | ht
      · exact ha
      · exact hpre t ht

theorem eraseFirst_sublist (id : Nat) (l : List (Subscriber κ)) :
    List.Sublist (Variable.eraseFirst id l) l := by
  induction l with
  | nil => exact List.Sublist.refl _
  | cons a rest ih =>
    by_cases ha : a.id = id
    · simp only [Variable.eraseFirst, ha, if_true]
      exact List.sublist_cons_self a rest
    · simp only [Variable.eraseFirst, ha, if_false]
      exact List.Sublist.cons₂ a ih

theorem eraseFirst_no_id (id : Nat) (l : List (Subscriber κ))
    (hd : (l.map (fun s => s.id)).Nodup) : ∀ t ∈ Variable.eraseFirst id l, t.id ≠ id := by
  induction l with
  | nil => simp [Variable.eraseFirst]
  | cons a rest ih =>
    have hd1 : (rest.map (fun s => s.id)).Nodup := (List.nodup_cons.mp hd).2
    have hd2 : a.id ∉ rest.map (fun s => s.id) := (List.nodup_cons.mp hd).1
    by_cases ha : a.id = id
    · simp only [Variable.eraseFirst, ha, if_true]
      intro t ht hid
      apply hd2
      rw [ha, ← hid]
      exact List.mem_map_of_mem _ ht
    · simp only [Variable.eraseFirst, ha, if_false]
      intro t ht
      rcases List.mem_cons.mp ht with rfl | ht
      · exact ha
      · exact ih hd1 t ht

/-- C9: `unsubscribe` calls no closure and keeps the stored value and the id
counter.  If some subscriber has the id, the first such entry and only it is
removed, the others keeping their order; if none has it, the Variable is
unchanged.  Every call a later `set` makes belongs to a subscriber that is
still in the list, and where the ids in the list are pairwise distinct no
later call carries the removed id. -/
theorem Variable.unsubscribe_removes_first (x : Variable κ) (id : Nat) :
    (x.unsubscribe id).2 = [] ∧
      (x.unsubscribe id).1.get = x.get ∧
      (x.unsubscribe id).1.m_nextId = x.m_nextId ∧
      ((∃ s ∈ x.m_subs, s.id = id) →
        ∃ pre s post, x.m_subs = pre ++ s :: post ∧ s.id = id ∧ (∀ t ∈ pre, t.id ≠ id) ∧
          (x.unsubscribe id).1.m_subs = pre ++ post) ∧
      ((∀ s ∈ x.m_subs, s.id ≠ id) → (x.unsubscribe id).1 = x) ∧
      (∀ v, ∀ c ∈ ((x.unsubscribe id).1.set v).2,
        ∃ t ∈ (x.unsubscribe id).1.m_subs, t.id = c.id ∧ t.cb = some c.cb) ∧
      ((x.m_subs.map (fun s => s.id)).Nodup →
        ∀ v, ∀ c ∈ ((x.unsubscribe id).1.set v).2, c.id ≠ id) := by
  have hcalls : ∀ v, ∀ c ∈ ((x.unsubscribe id).1.set v).2,
      ∃ t ∈ (x.unsubscribe id).1.m_subs, t.id = c.id ∧ t.cb = some c.cb := by
    intro v c hc
    by_cases he : x.m_value.equals v = true
    · simp [Variable.unsubscribe, Variable.set, he] at hc
    · simp only [Variable.unsubscribe, Variable.set, he, Variable.notify] at hc
      exact notifyLoop_mem v _ c hc
  refine ⟨rfl, rfl, rfl, ?_, ?_, hcalls, ?_⟩
  · intro h
    exact eraseFirst_of_present id x.m_subs h
  · intro h
    simp [Variable.unsubscribe, eraseFirst_of_absent id x.m_subs h]
  · intro hd v c hc
    obtain ⟨t, ht, hid, _⟩ := hcalls v c hc
    rw [← hid]
    exact eraseFirst_no_id id x.m_subs hd t ht

/-- Witness for `Variable.unsubscribe_removes_first`: three subscribers with
ids 1, 2, 3; removing id 2 leaves 1 and 3 in order, and a later changing `set`
calls only those two. -/
theorem Variable.unsubscribe_removes_first_witness :
    ((⟨Value.make_int 1, [⟨1, some 10⟩, ⟨2, some 20⟩, ⟨3, some 30⟩], 3⟩ :
        Variable Nat).unsubscribe 2).1.m_subs = [⟨1, some 10⟩, ⟨3, some 30⟩] ∧
      (∀ c ∈ (((⟨Value.make_int 1, [⟨1, some 10⟩, ⟨2, some 20⟩, ⟨3, some 30⟩], 3⟩ :
        Variable Nat).unsubscribe 2).1.set (Value.make_int 4)).2, c.id ≠ 2) ∧
      ((⟨Value.make_int 1, [⟨1, some 10⟩, ⟨2, some 20⟩, ⟨3, some 30⟩], 3⟩ :
        Variable Nat).unsubscribe 7).1
        = ⟨Value.make_int 1, [⟨1, some 10⟩, ⟨2, some 20⟩, ⟨3, some 30⟩], 3⟩ :=
  have h := Variable.unsubscribe_removes_first
    (⟨Value.make_int 1, [⟨1, some 10⟩, ⟨2, some 20⟩, ⟨3, some 30⟩], 3⟩ : Variable Nat)
  ⟨by decide, (h 2).2.2.2.2.2.2 (by decide) (Value.make_int 4), (h 7).2.2.2.2.1 (by decide)⟩

/-! ## Value.equals -/

theorem f32_eq_iff (x y : F32) :
    F32.eq x y = true ↔
      x.isNaN = false ∧ y.isNaN = false ∧ (x = y ∨ (x.isZero = true ∧ y.isZero = true)) := by
  obtain ⟨xs, xe, xm⟩ := x
  obtain ⟨ys, ye, ym⟩ := y
  unfold F32.eq
  by_cases hx : F32.isNaN ⟨xs, xe, xm⟩ = true
  · simp [hx]
  · by_cases hy : F32.isNaN ⟨ys, ye, ym⟩ = true
    · simp [hy]
    · by_cases hz : (F32.isZero ⟨xs, xe, xm⟩ && F32.isZero ⟨ys, ye, ym⟩) = true
      · have hz1 := hz
        simp only [Bool.and_eq_true] at hz1
        simp [hx, hy, hz1.1, hz1.2]
      · have hz1 : ¬ (F32.isZero ⟨xs, xe, xm⟩ = true ∧ F32.isZero ⟨ys, ye, ym⟩ = true) := by
          simpa only [Bool.and_eq_true] using hz
        simp only [Bool.not_eq_true] at hx hy hz
        simp [hx, hy, hz, hz1, and_assoc]

theorem f32_eq_comm (x y : F32) : F32.eq x y = F32.eq y x := by
  have h : ∀ a b : F32, F32.eq a b = true → F32.eq b a = true := by
    intro a b hab
    obtain ⟨h1, h2, h3⟩ := (f32_eq_iff a b).mp hab
    refine (f32_eq_iff b a).mpr ⟨h2, h1, ?_⟩
    rcases h3 with h3 | h3
    · exact Or.inl h3.symm
    · exact Or.inr ⟨h3.2, h3.1⟩
  cases hxy : F32.eq x y with
  | true => exact (h x y hxy).symm
  | false =>
    cases hyx : F32.eq y x with
    | false => rfl
    | true => rw [h y x hyx] at hxy; exact absurd hxy (by decide)

/-- C7: Values whose tags differ are never `equals`, whatever their fields hold. -/
theorem Value.equals_tags_differ (a b : Value) (h : a.type ≠ b.type) :
    a.equals b = false := by
  simp [Value.equals, h]

/-- Witness for `Value.equals_tags_differ`: the test's `Int 10` against
`Float 10.0`. -/
theorem Value.equals_tags_differ_witness :
    (Value.make_int 10).equals (Value.make_float ⟨false, 130, 2097152⟩) = false :=
  Value.equals_tags_differ (Value.make_int 10) (Value.make_float ⟨false, 130, 2097152⟩)
    (by decide)

/-- C8, as stated, fails on Float payloads: a Float NaN is not `equals` to
itself (same tag, identical payload), and the Floats `+0.0` and `-0.0`, whose
payloads differ, are `equals`. -/
theorem Value.equals_float_counterexample :
    (Value.make_float ⟨false, 255, 4194304⟩).equals (Value.make_float ⟨false, 255, 4194304⟩)
        = false ∧
      (Value.make_float ⟨false, 0, 0⟩).equals (Value.make_float ⟨true, 0, 0⟩) = true := by
  decide

/-- C8, amended: for Values of the same tag, `equals` is true exactly when the
payload selected by the tag is equal, for the tags Int, Bool and String; for
the tag Float it is true exactly when neither payload is a NaN and the
payloads are identical or both are zeros.  The fields the tag does not select
play no role.  `equals` is symmetric, and reflexive on every Value that is not
a Float NaN. -/
theorem Value.equals_same_tag (a b : Value) :
    (a.type = b.type → a.type = ValueType.Int → (a.equals b = true ↔ a.i = b.i)) ∧
      (a.type = b.type → a.type = ValueType.Bool → (a.equals b = true ↔ a.b = b.b)) ∧
      (a.type = b.type → a.type = ValueType.String → (a.equals b = true ↔ a.s = b.s)) ∧
      (a.type = b.type → a.type = ValueType.Float →
        (a.equals b = true ↔
          a.f.isNaN = false ∧ b.f.isNaN = false ∧
            (a.f = b.f ∨ (a.f.isZero = true ∧ b.f.isZero = true)))) ∧
      a.equals b = b.equals a ∧
      (¬ (a.type = ValueType.Float ∧ a.f.isNaN = true) → a.equals a = true) := by
  refine ⟨?_, ?_, ?_, ?_, ?_, ?_⟩
  · intro h hi
    have hb : b.type = ValueType.Int := h ▸ hi
    simp [Value.equals, hi, hb]
  · intro h hi
    have hb : b.type = ValueType.Bool := h ▸ hi
    simp [Value.equals, hi, hb]
  · intro h hi
    have hb : b.type = ValueType.String := h ▸ hi
    simp [Value.equals, hi, hb]
  · intro h hi
    have hb : b.type = ValueType.Float := h ▸ hi
    simp only [Value.equals, hi, hb, ne_eq, not_true_eq_false, if_false]
    exact f32_eq_iff a.f b.f
  · by_cases h : a.type = b.type
    · cases ha : a.type <;>
        simp [Value.equals, ← h, ha, f32_eq_comm a.f b.f, eq_comm, Bool.beq_comm]
    · have h' : b.type ≠ a.type := fun e => h e.symm
      simp [Value.equals, h, h']
  · intro hn
    cases ha : a.type with
    | Int => simp [Value.equals, ha]
    | Bool => simp [Value.equals, ha]
    | String => simp [Value.equals, ha]
    | Float =>
      have hnan : a.f.isNaN = false := by
        cases hnn : a.f.isNaN with
        | false => rfl
        | true => exact absurd ⟨ha, hnn⟩ hn
      simp only [Value.equals, ha, ne_eq, not_true_eq_false, if_false]
      exact (f32_eq_iff a.f a.f).mpr ⟨hnan, hnan, Or.inl rfl⟩

/-- Witness for `Value.equals_same_tag`: the test's `Int 10` against `Int 10`
and against `Int 11`, with the unselected fields differing; `Float 2.25`
against itself. -/
theorem Value.equals_same_tag_witness :
    (Value.mk ValueType.Int 10 ⟨false, 0, 0⟩ true "x").equals (Value.make_int 10) = true ∧
      ¬ ((Value.make_int 10).equals (Value.make_int 11) = true) ∧
      (Value.make_float ⟨false, 128, 1048576⟩).equals (Value.make_float ⟨false, 128, 1048576⟩)
        = true :=
  ⟨((Value.equals_same_tag (Value.mk ValueType.Int 10 ⟨false, 0, 0⟩ true "x")
      (Value.make_int 10)).1 rfl rfl).mpr rfl,
    fun h => absurd (((Value.equals_same_tag (Value.make_int 10) (Value.make_int 11)).1
      rfl rfl).mp h) (by decide),
    (Value.equals_same_tag (Value.make_float ⟨false, 128, 1048576⟩)
      (Value.make_float ⟨false, 128, 1048576⟩)).2.2.2.2.2 (by decide)⟩

/-! ## VariableStore -/

theorem VariableStore.ext_vars (s t : VariableStore κ) (h : ∀ k, s.m_vars k = t.m_vars k) :
    s = t := by
  cases s
  cases t
  simp only [VariableStore.mk.injEq]
  exact funext h

theorem VariableStore.ensure_present (s : VariableStore κ) (name : String) (v : Value)
    (x : Variable κ) (h : s.m_vars name = some x) : s.ensure name v = (x, s) := by
  simp [VariableStore.ensure, h]

theorem VariableStore.ensure_absent (s : VariableStore κ) (name : String) (v : Value)
    (h : s.m_vars name = none) :
    s.ensure name v = ({ m_value := v }, s.put name { m_value := v }) := by
  simp [VariableStore.ensure, h]

theorem VariableStore.put_same (s : VariableStore κ) (name : String) (x : Variable κ) :
    (s.put name x).m_vars name = some x := by
  simp [VariableStore.put]

theorem VariableStore.put_other (s : VariableStore κ) (name k : String) (x : Variable κ)
    (h : k ≠ name) : (s.put name x).m_vars k = s.m_vars k := by
  simp [VariableStore.put, h]

theorem VariableStore.ensure_lookup (s : VariableStore κ) (name : String) (v : Value) :
    (s.ensure name v).2.m_vars name = some (s.ensure name v).1 := by
  cases h : s.m_vars name with
  | none => rw [VariableStore.ensure_absent s name v h]; exact VariableStore.put_same _ _ _
  | some x => rw [VariableStore.ensure_present s name v x h]; exact h

/-- C4: `ensure` on an absent name creates a Variable holding the initial
value, without subscribers, and leaves every other name as it was; on a
present name it returns the existing Variable and leaves the store unchanged.
So a second `ensure` of the same name never changes the store, whatever
initial value it is given: after `ensure(name, v1)` on a store without `name`
and then `ensure(name, v2)`, `get(name)` is `v1`. -/
theorem VariableStore.ensure_creates_once (s : VariableStore κ) (name : String)
    (v1 v2 : Value) :
    (s.has name = false →
        (s.ensure name v1).2.has name = true ∧
        (s.ensure name v1).2.get name = Except.ok v1 ∧
        (s.ensure name v1).2.m_vars name = some { m_value := v1 } ∧
        (∀ k, k ≠ name → (s.ensure name v1).2.m_vars k = s.m_vars k) ∧
        ((s.ensure name v1).2.ensure name v2).2.get name = Except.ok v1) ∧
      (s.has name = true →
        (s.ensure name v2).2 = s ∧ s.m_vars name = some (s.ensure name v2).1) ∧
      ((s.ensure name v1).2.ensure name v2).2 = (s.ensure name v1).2 ∧
      ((s.ensure name v1).2.ensure name v2).1 = (s.ensure name v1).1 ∧
      ((s.ensure name v1).2.ensure name v1).2 = (s.ensure name v1).2 := by
  have hsecond : ∀ w, (s.ensure name v1).2.ensure name w
      = ((s.ensure name v1).1, (s.ensure name v1).2) := fun w =>
    VariableStore.ensure_present _ name w _ (VariableStore.ensure_lookup s name v1)
  refine ⟨?_, ?_, ?_, ?_, ?_⟩
  · intro h
    have hn : s.m_vars name = none := by
      cases hm : s.m_vars name with
      | none => rfl
      | some x => simp [VariableStore.has, hm] at h
    rw [hsecond v2]
    rw [VariableStore.ensure_absent s name v1 hn]
    refine ⟨?_, ?_, ?_, ?_, ?_⟩
    · simp [VariableStore.has, VariableStore.put]
    · simp [VariableStore.get, VariableStore.put, Variable.get]
    · simp [VariableStore.put]
    · intro k hk
      exact VariableStore.put_other s name k _ hk
    · simp [VariableStore.get, VariableStore.put, Variable.get]
  · intro h
    cases hm : s.m_vars name with
    | none => simp [VariableStore.has, hm] at h
    | some x => simp [VariableStore.ensure_present s name v2 x hm]
  · rw [hsecond v2]
  · rw [hsecond v2]
  · rw [hsecond v1]

/-- Witness for `VariableStore.ensure_creates_once`: the test's empty store
and name `a`, ensured with `Int 5` and then with `Int 7`. -/
theorem VariableStore.ensure_creates_once_witness :
    ((({} : VariableStore Nat).ensure "a" (Value.make_int 5)).2.ensure "a"
        (Value.make_int 7)).2.get "a" = Except.ok (Value.make_int 5) ∧
      ((({} : VariableStore Nat).ensure "a" (Value.make_int 5)).2.ensure "a"
        (Value.make_int 7)).2 = (({} : VariableStore Nat).ensure "a" (Value.make_int 5)).2 :=
  ⟨((VariableStore.ensure_creates_once ({} : VariableStore Nat) "a"
      (Value.make_int 5) (Value.make_int 7)).1 rfl).2.2.2.2,
    ((VariableStore.ensure_creates_once
      (({} : VariableStore Nat).ensure "a" (Value.make_int 5)).2 "a"
      (Value.make_int 5) (Value.make_int 7)).2.1 rfl).1⟩

set_option maxRecDepth 100000 in
theorem ofInt_three : F32.ofInt 3 = ⟨false, 128, 4194304⟩ := by decide

/-- C5: the typed getters never raise.  `get_bool` returns the stored bool of
a present name tagged Bool and the fallback otherwise; `get_string` likewise
for the tag String; `get_float` returns the stored float for the tag Float,
the stored int converted to `float` for the tag Int, and the fallback
otherwise.  On the empty store `get_float("missing", 1.5)` is `1.5`, and after
`set("t", Int 3)`, `get_float("t", 0.0)` is `3.0`.  The getters are const
members: functions of the store, which they cannot change. -/
theorem VariableStore.typed_getters (s : VariableStore κ) (name : String)
    (fb : Bool) (ff : F32) (fs : String) :
    s.get_bool name fb = Except.ok
        (match s.m_vars name with
          | some x => if x.get.type = ValueType.Bool then x.get.b else fb
          | none => fb) ∧
      s.get_string name fs = Except.ok
        (match s.m_vars name with
          | some x => if x.get.type = ValueType.String then x.get.s else fs
          | none => fs) ∧
      s.get_float name ff = Except.ok
        (match s.m_vars name with
          | some x =>
            if x.get.type = ValueType.Float then x.get.f
            else if x.get.type = ValueType.Int then F32.ofInt x.get.i
            else ff
          | none => ff) ∧
      ({} : VariableStore κ).get_float "missing" ⟨false, 127, 4194304⟩
        = Except.ok ⟨false, 127, 4194304⟩ ∧
      (({} : VariableStore κ).set "t" (Value.make_int 3)).1.get_float "t" ⟨false, 0, 0⟩
        = Except.ok ⟨false, 128, 4194304⟩ := by
  refine ⟨?_, ?_, ?_, rfl, ?_⟩
  · cases h : s.m_vars name <;> simp [VariableStore.get_bool, VariableStore.has,
      VariableStore.get, h]
  · cases h : s.m_vars name <;> simp [VariableStore.get_string, VariableStore.has,
      VariableStore.get, h]
  · cases h : s.m_vars name with
    | none => simp [VariableStore.get_float, VariableStore.has, h]
    | some x =>
      by_cases h1 : x.get.type = ValueType.Float
      · simp [VariableStore.get_float, VariableStore.has, VariableStore.get, h, h1]
      · by_cases h2 : x.get.type = ValueType.Int
        · simp [VariableStore.get_float, VariableStore.has, VariableStore.get, h, h2]
        · simp [VariableStore.get_float, VariableStore.has, VariableStore.get, h, h1, h2]
  · simp [VariableStore.get_float, VariableStore.has, VariableStore.get, VariableStore.set,
      VariableStore.ensure, VariableStore.put, Variable.set, Variable.get, Value.equals,
      Value.make_int, ofInt_three]

/-- C6: `at` and `get` raise `out_of_range` exactly when `has` is false; on a
present name `at` yields the stored Variable and `get` its value; the lookup
through `at` leaves the store as it was in both cases, nothing being created
(`get` is a const member). -/
theorem VariableStore.lookup_not_found (s : VariableStore κ) (name : String) :
    ((s.at_ name).1 = Except.error Err.out_of_range ↔ s.has name = false) ∧
      (s.get name = Except.error Err.out_of_range ↔ s.has name = false) ∧
      (∀ x, s.m_vars name = some x →
        (s.at_ name).1 = Except.ok x ∧ s.get name = Except.ok x.get) ∧
      (s.has name = true →
        ∃ x, s.m_vars name = some x ∧ (s.at_ name).1 = Except.ok x ∧
          s.get name = Except.ok x.get) ∧
      (s.at_ name).2 = s ∧
      (s.at_ name).2.has name = s.has name := by
  cases h : s.m_vars name <;>
    simp [VariableStore.at_, VariableStore.get, VariableStore.has, h]

/-- Witness for `VariableStore.lookup_not_found`: the store holding only `a`,
looked up at `a` and at `b`. -/
theorem VariableStore.lookup_not_found_witness :
    (({} : VariableStore Nat).put "a" { m_value := Value.make_int 5 }).get "a"
        = Except.ok (Value.make_int 5) ∧
      (({} : VariableStore Nat).put "a" { m_value := Value.make_int 5 }).get "b"
        = Except.error Err.out_of_range :=
  ⟨((VariableStore.lookup_not_found
      (({} : VariableStore Nat).put "a" { m_value := Value.make_int 5 }) "a").2.2.1
      { m_value := Value.make_int 5 } rfl).2,
    (VariableStore.lookup_not_found
      (({} : VariableStore Nat).put "a" { m_value := Value.make_int 5 }) "b").2.1.mpr rfl⟩

/-! ## Subscription ids -/

theorem subscribe_fields (x : Variable κ) (cb : Option κ) :
    (x.subscribe cb).1 = (x.m_nextId + 1) % sizeModulus ∧
      (x.subscribe cb).2.1.m_nextId = (x.m_nextId + 1) % sizeModulus ∧
      (x.subscribe cb).2.1.m_subs = x.m_subs ++ [⟨(x.m_nextId + 1) % sizeModulus, cb⟩] ∧
      (x.subscribe cb).2.1.m_value = x.m_value := by
  cases cb <;> exact ⟨rfl, rfl, rfl, rfl⟩

theorem set_fields (x : Variable κ) (v : Value) :
    (x.set v).1.m_nextId = x.m_nextId ∧ (x.set v).1.m_subs = x.m_subs := by
  by_cases h : x.m_value.equals v = true <;> simp [Variable.set, h]

theorem run_ids (ops : List (Variable.Op κ)) :
    ∀ x : Variable κ, x.m_nextId + Variable.subscribeCount ops < sizeModulus →
      (Variable.run x ops).2.map (fun s => s.id)
          = List.range' (x.m_nextId + 1) (Variable.subscribeCount ops) ∧
        (Variable.run x ops).1.m_nextId = x.m_nextId + Variable.subscribeCount ops ∧
        List.Sublist (Variable.run x ops).1.m_subs (x.m_subs ++ (Variable.run x ops).2) := by
  induction ops with
  | nil =>
    intro x _
    simp [Variable.run, Variable.subscribeCount]
  | cons op rest ih =>
    intro x hx
    cases op with
    | subscribe cb =>
      simp only [Variable.subscribeCount] at hx ⊢
      obtain ⟨h1, h2, h3, _⟩ := subscribe_fields x cb
      have hmod : (x.m_nextId + 1) % sizeModulus = x.m_nextId + 1 :=
        Nat.mod_eq_of_lt (by omega)
      rw [hmod] at h1 h2 h3
      obtain ⟨i1, i2, i3⟩ := ih (x.subscribe cb).2.1 (by rw [h2]; omega)
      rw [h2] at i1 i2
      rw [h3] at i3
      simp only [Variable.run, List.map_cons, h1, i1, i2]
      refine ⟨?_, by omega, ?_⟩
      · rw [List.range'_succ]
      · simpa using i3
    | unsubscribe id =>
      simp only [Variable.subscribeCount] at hx ⊢
      obtain ⟨i1, i2, i3⟩ := ih (x.unsubscribe id).1 hx
      simp only [Variable.run]
      refine ⟨i1, i2, i3.trans ?_⟩
      exact List.Sublist.append (eraseFirst_sublist id x.m_subs) (List.Sublist.refl _)
    | set v =>
      simp only [Variable.subscribeCount] at hx ⊢
      obtain ⟨s1, s2⟩ := set_fields x v
      obtain ⟨i1, i2, i3⟩ := ih (x.set v).1 (by rw [s1]; exact hx)
      rw [s1] at i1 i2
      rw [s2] at i3
      simp only [Variable.run]
      exact ⟨i1, i2, i3⟩

theorem eraseFirst_eq_filter (id : Nat) (l : List (Subscriber κ))
    (hd : (l.map (fun s => s.id)).Nodup) :
    Variable.eraseFirst id l = l.filter (fun s => decide (s.id ≠ id)) := by
  induction l with
  | nil => rfl
  | cons a rest ih =>
    have hd1 : (rest.map (fun s => s.id)).Nodup := (List.nodup_cons.mp hd).2
    have hd2 : a.id ∉ rest.map (fun s => s.id) := (List.nodup_cons.mp hd).1
    by_cases ha : a.id = id
    · have hall : ∀ t ∈ rest, t.id ≠ id := by
        intro t ht hid
        apply hd2
        rw [ha, ← hid]
        exact List.mem_map_of_mem _ ht
      simp only [Variable.eraseFirst, ha, if_true, List.filter_cons, ne_eq, not_true_eq_false,
        decide_False, Bool.false_eq_true, if_false]
      exact (List.filter_eq_self.mpr (fun t ht => by simpa using hall t ht)).symm
    · simp [Variable.eraseFirst, ha, ih hd1]

theorem run_cycle (s : Subscriber κ) (v : Value) :
    ∀ (n m : Nat), s.id ≤ m → m + n < sizeModulus →
      (Variable.run ⟨v, [s], m⟩
        ((List.range' (m + 1) n).flatMap
          (fun i => [Variable.Op.subscribe none, Variable.Op.unsubscribe i]))).1
        = ⟨v, [s], m + n⟩ := by
  intro n
  induction n with
  | zero =>
    intro m _ _
    simp [Variable.run]
  | succ n ih =>
    intro m hs hm
    have hmod : (m + 1) % sizeModulus = m + 1 := Nat.mod_eq_of_lt (by omega)
    have hne : s.id ≠ m + 1 := by omega
    have hstep := ih (m + 1) (by omega) (by omega)
    have hsum : m + 1 + n = m + (n + 1) := by omega
    rw [hsum] at hstep
    rw [List.range'_succ, List.flatMap_cons]
    simp only [List.cons_append, List.nil_append, Variable.run, Variable.subscribe,
      Variable.unsubscribe, hmod, Variable.eraseFirst, hne, if_false, if_true,
      List.singleton_append]
    exact hstep

theorem run_subscribeCycle (cb : κ) (n : Nat) (hn : 1 + n < sizeModulus) :
    (Variable.run ({} : Variable κ) (Variable.subscribeCycle cb 2 n)).1
        = ⟨Value.make_int 0, [⟨1, some cb⟩], 1 + n⟩ ∧
      (Variable.run ({} : Variable κ) (Variable.subscribeCycle cb 2 n)).2.head?
        = some ⟨1, some cb⟩ := by
  have hmod : (0 + 1) % sizeModulus = 1 := by decide
  have hc := run_cycle (⟨1, some cb⟩ : Subscriber κ) (Value.make_int 0) n 1 (Nat.le_refl 1) hn
  constructor
  · simp only [Variable.subscribeCycle, Variable.run, Variable.subscribe, hmod,
      List.nil_append]
    exact hc
  · simp only [Variable.subscribeCycle, Variable.run, Variable.subscribe, hmod,
      List.head?_cons]

/-- C22, as stated, fails when the counter wraps.  On a fresh Variable
`subscribe` is called with the closure 7 and returns 1; then `2 ^ 64 - 2`
times an empty closure is subscribed and unsubscribed again.  The counter now
holds `2 ^ 64 - 1` and the subscription of id 1 is still in the list.  The
next `subscribe` returns 0, below every id returned before, and the one after
it returns 1 again: the list holds the ids 1, 0, 1, and `unsubscribe(1)`
removes the subscription of the closure 7, not the one `subscribe` has just
returned 1 for. -/
theorem Variable.subscribe_id_wraps :
    ∃ x : Variable Nat,
      (Variable.run ({} : Variable Nat) (Variable.subscribeCycle 7 2 (sizeModulus - 2))).1 = x ∧
      (Variable.run ({} : Variable Nat) (Variable.subscribeCycle 7 2 (sizeModulus - 2))).2.head?
        = some ⟨1, some 7⟩ ∧
      x = ⟨Value.make_int 0, [⟨1, some 7⟩], sizeModulus - 1⟩ ∧
      (x.subscribe (some 8)).1 = 0 ∧
      ((x.subscribe (some 8)).2.1.subscribe (some 9)).1 = 1 ∧
      ((x.subscribe (some 8)).2.1.subscribe (some 9)).2.1.m_subs
        = [⟨1, some 7⟩, ⟨0, some 8⟩, ⟨1, some 9⟩] ∧
      (((x.subscribe (some 8)).2.1.subscribe (some 9)).2.1.unsubscribe 1).1.m_subs
        = [⟨0, some 8⟩, ⟨1, some 9⟩] := by
  have h := run_subscribeCycle (7 : Nat) (sizeModulus - 2) (by decide)
  have hsum : 1 + (sizeModulus - 2) = sizeModulus - 1 := by decide
  rw [hsum] at h
  exact ⟨_, h.1, h.2, rfl, by decide, by decide, by decide, by decide⟩

/-- C22, amended: on a fresh Variable (holding any value) a sequence of
`subscribe`, `unsubscribe` and `set` calls with fewer than `2 ^ 64` calls of
`subscribe` among them returns the ids 1, 2, 3, ... in the order of the
`subscribe` calls, so each id is above every id returned before and the first
is 1, and the counter holds the number of `subscribe` calls.  The current
subscribers are, in order, some of the subscriptions created; their ids are
strictly increasing in list order and pairwise distinct; a subscriber in the
list with some id is the subscription `subscribe` returned that id for; and
`unsubscribe(id)` leaves exactly the subscribers with another id, in order. -/
theorem Variable.subscribe_ids_increase (v : Value) (ops : List (Variable.Op κ))
    (hn : Variable.subscribeCount ops < sizeModulus) :
    (Variable.run { m_value := v } ops).2.map (fun s => s.id)
        = List.range' 1 (Variable.subscribeCount ops) ∧
      ((Variable.run { m_value := v } ops).2.map (fun s => s.id)).Pairwise (fun a b => a < b) ∧
      (Variable.run { m_value := v } ops).1.m_nextId = Variable.subscribeCount ops ∧
      List.Sublist (Variable.run { m_value := v } ops).1.m_subs
        (Variable.run { m_value := v } ops).2 ∧
      ((Variable.run { m_value := v } ops).1.m_subs.map (fun s => s.id)).Pairwise
        (fun a b => a < b) ∧
      ((Variable.run { m_value := v } ops).1.m_subs.map (fun s => s.id)).Nodup ∧
      (∀ s ∈ (Variable.run { m_value := v } ops).1.m_subs,
        ∀ t ∈ (Variable.run { m_value := v } ops).2, t.id = s.id → t = s) ∧
      (∀ id, ((Variable.run { m_value := v } ops).1.unsubscribe id).1.m_subs
        = (Variable.run { m_value := v } ops).1.m_subs.filter (fun s => decide (s.id ≠ id))) := by
  obtain ⟨h1, h2, h3⟩ := run_ids ops ({ m_value := v } : Variable κ)
    (by simpa using hn)
  simp only [Nat.zero_add, List.nil_append] at h1 h2 h3
  have hp : ((Variable.run { m_value := v } ops).2.map (fun s => s.id)).Pairwise
      (fun a b => a < b) := by
    rw [h1]
    exact List.pairwise_lt_range' 1 _
  have hq : ((Variable.run { m_value := v } ops).1.m_subs.map (fun s => s.id)).Pairwise
      (fun a b => a < b) := hp.sublist (h3.map _)
  have hnd : ((Variable.run { m_value := v } ops).1.m_subs.map (fun s => s.id)).Nodup :=
    hq.imp (fun h => Nat.ne_of_lt h)
  have hnd2 : ((Variable.run { m_value := v } ops).2.map (fun s => s.id)).Nodup :=
    hp.imp (fun h => Nat.ne_of_lt h)
  refine ⟨h1, hp, h2, h3, hq, hnd, ?_, ?_⟩
  · intro s hs t ht hid
    exact List.inj_on_of_nodup_map hnd2 ht (h3.subset hs) hid
  · intro id
    exact eraseFirst_eq_filter id _ hnd

/-- Witness for `Variable.subscribe_ids_increase`: three subscriptions on a
Variable holding `Int 5`, the first unsubscribed again and a `set` in between:
the ids returned are 1, 2, 3 and the subscribers left are those of ids 2 and
3. -/
theorem Variable.subscribe_ids_increase_witness :
    (Variable.run ({ m_value := Value.make_int 5 } : Variable Nat)
        [Variable.Op.subscribe (some 7), Variable.Op.subscribe none, Variable.Op.unsubscribe 1,
          Variable.Op.set (Value.make_int 3), Variable.Op.subscribe (some 9)]).2.map
        (fun s => s.id) = [1, 2, 3] ∧
      (Variable.run ({ m_value := Value.make_int 5 } : Variable Nat)
        [Variable.Op.subscribe (some 7), Variable.Op.subscribe none, Variable.Op.unsubscribe 1,
          Variable.Op.set (Value.make_int 3), Variable.Op.subscribe (some 9)]).1.m_subs
        = [⟨2, none⟩, ⟨3, some 9⟩] :=
  have h := Variable.subscribe_ids_increase (Value.make_int 5)
    ([Variable.Op.subscribe (some 7), Variable.Op.subscribe none, Variable.Op.unsubscribe 1,
      Variable.Op.set (Value.make_int 3), Variable.Op.subscribe (some 9)] :
      List (Variable.Op Nat)) (by decide)
  ⟨h.1, by decide⟩

end core

namespace ui

variable {κ : Type}

/-! ## Button.handle_event -/

theorem Button.refresh_style_frame (b : Button κ) :
    b.refresh_style.toWidget = b.toWidget ∧ b.refresh_style.m_pressed = b.m_pressed ∧
      b.refresh_style.m_hover = b.m_hover ∧ b.refresh_style.m_onClick = b.m_onClick ∧
      b.refresh_style.m_isOn = b.m_isOn := by
  unfold Button.refresh_style
  by_cases he : b.enabled = true
  · by_cases hp : b.m_pressed = true
    · simp [he, hp]
    · by_cases hh : b.m_hover = true <;> simp [he, hp, hh]
  · simp [he]

theorem Button.onMouseMoved_frame (b : Button κ) (e : sf.Event) (w : sf.RenderWindow) :
    (b.onMouseMoved e w).toWidget = b.toWidget ∧ (b.onMouseMoved e w).m_pressed = b.m_pressed ∧
      (b.onMouseMoved e w).m_onClick = b.m_onClick := by
  cases e <;> simp [Button.onMouseMoved, Button.refresh_style_frame]

theorem Button.onMousePressed_frame (b : Button κ) (e : sf.Event) :
    (b.onMousePressed e).toWidget = b.toWidget ∧
      (b.onMousePressed e).m_onClick = b.m_onClick := by
  cases e with
  | MouseButtonPressed button x y =>
    cases button <;> simp only [Button.onMousePressed, and_self]
    by_cases hc : b.contains ⟨F32.ofInt x, F32.ofInt y⟩ = true
    · simp [hc, Button.refresh_style_frame]
    · simp [hc]
  | _ => simp [Button.onMousePressed]

theorem Button.handle_release (b : Button κ) (x y : Int) (w : sf.RenderWindow)
    (he : b.enabled = true) :
    b.handle_event (sf.Event.MouseButtonReleased sf.MouseButton.Left x y) w =
      (Button.refresh_style { b with m_pressed := false },
        if b.m_pressed && b.contains ⟨F32.ofInt x, F32.ofInt y⟩ then b.m_onClick.toList
        else []) := by
  have hw : (Button.refresh_style { b with m_pressed := false }).toWidget = b.toWidget :=
    (Button.refresh_style_frame _).1
  have hk : (Button.refresh_style { b with m_pressed := false }).m_onClick = b.m_onClick :=
    (Button.refresh_style_frame _).2.2.2.1
  have hc : ∀ p, (Button.refresh_style { b with m_pressed := false }).contains p
      = b.contains p := by
    intro p
    rw [hw]
  simp only [Button.handle_event, he, Bool.not_true, Bool.false_eq_true, if_false,
    Button.onMouseMoved, Button.onMousePressed, Button.onMouseReleased, hc, hk]
  by_cases hp : (b.m_pressed && b.contains ⟨F32.ofInt x, F32.ofInt y⟩) = true
  · cases hk2 : b.m_onClick <;> simp [hp, hk2]
  · simp [hp]

theorem Button.handle_press (b : Button κ) (x y : Int) (w : sf.RenderWindow)
    (he : b.enabled = true) (hc : b.contains ⟨F32.ofInt x, F32.ofInt y⟩ = true) :
    b.handle_event (sf.Event.MouseButtonPressed sf.MouseButton.Left x y) w =
      (Button.refresh_style { b with m_pressed := true }, []) := by
  simp [Button.handle_event, he, Button.onMouseMoved, Button.onMousePressed,
    Button.onMouseReleased, hc]

/-- C10: an enabled Button handling a left-button release at `(x, y)` calls
its click closure once if `pressed` was true and the point is inside the
bounds, and calls nothing otherwise; `pressed` is false afterwards in every
case.  So after a left press inside the bounds, a left release inside calls
the click closure exactly once and a left release outside calls nothing, and
both leave `pressed` false. -/
theorem Button.release_fires_click (b : Button κ) (x y : Int) (w : sf.RenderWindow)
    (he : b.enabled = true) :
    (b.handle_event (sf.Event.MouseButtonReleased sf.MouseButton.Left x y) w).2
        = (if b.m_pressed && b.contains ⟨F32.ofInt x, F32.ofInt y⟩ then b.m_onClick.toList
          else []) ∧
      (b.handle_event (sf.Event.MouseButtonReleased sf.MouseButton.Left x y) w).1.m_pressed
        = false ∧
      (∀ (x0 y0 : Int) (w0 : sf.RenderWindow),
        b.contains ⟨F32.ofInt x0, F32.ofInt y0⟩ = true →
        (b.handle_event (sf.Event.MouseButtonPressed sf.MouseButton.Left x0 y0) w0).2 = [] ∧
        (b.handle_event (sf.Event.MouseButtonPressed sf.MouseButton.Left x0 y0) w0).1.m_pressed
          = true ∧
        ((b.handle_event (sf.Event.MouseButtonPressed sf.MouseButton.Left x0 y0) w0).1.handle_event
            (sf.Event.MouseButtonReleased sf.MouseButton.Left x y) w).2
          = (if b.contains ⟨F32.ofInt x, F32.ofInt y⟩ then b.m_onClick.toList else []) ∧
        ((b.handle_event (sf.Event.MouseButtonPressed sf.MouseButton.Left x0 y0) w0).1.handle_event
            (sf.Event.MouseButtonReleased sf.MouseButton.Left x y) w).1.m_pressed = false) := by
  refine ⟨?_, ?_, ?_⟩
  · rw [Button.handle_release b x y w he]
  · rw [Button.handle_release b x y w he]
    exact (Button.refresh_style_frame _).2.1
  · intro x0 y0 w0 hc
    rw [Button.handle_press b x0 y0 w0 he hc]
    have hw : (Button.refresh_style { b with m_pressed := true }).toWidget = b.toWidget :=
      (Button.refresh_style_frame _).1
    have he1 : (Button.refresh_style { b with m_pressed := true }).enabled = true := by
      have : (Button.refresh_style { b with m_pressed := true }).enabled = b.enabled :=
        congrArg Widget.enabled hw
      rw [this, he]
    have hp1 : (Button.refresh_style { b with m_pressed := true }).m_pressed = true :=
      (Button.refresh_style_frame _).2.1
    have hk1 : (Button.refresh_style { b with m_pressed := true }).m_onClick = b.m_onClick :=
      (Button.refresh_style_frame _).2.2.2.1
    have hc1 : (Button.refresh_style { b with m_pressed := true }).contains
        ⟨F32.ofInt x, F32.ofInt y⟩ = b.contains ⟨F32.ofInt x, F32.ofInt y⟩ :=
      congrArg (fun t => Widget.contains t ⟨F32.ofInt x, F32.ofInt y⟩) hw
    refine ⟨rfl, hp1, ?_, ?_⟩
    · rw [Button.handle_release _ x y w he1, hp1, hk1, hc1]
      simp
    · rw [Button.handle_release _ x y w he1]
      exact (Button.refresh_style_frame _).2.1

set_option maxRecDepth 100000 in
theorem pumpBtn_contains_inside :
    (Button.pumpBtn 0 : Button Nat).contains ⟨F32.ofInt 250, F32.ofInt 80⟩ = true := by
  decide

set_option maxRecDepth 100000 in
theorem pumpBtn_contains_corner :
    (Button.pumpBtn 0 : Button Nat).contains ⟨F32.ofInt 460, F32.ofInt 120⟩ = true := by
  decide

set_option maxRecDepth 100000 in
theorem pumpBtn_contains_outside :
    (Button.pumpBtn 0 : Button Nat).contains ⟨F32.ofInt 461, F32.ofInt 80⟩ = false := by
  decide

/-- Witness for `Button.release_fires_click`: the pump button of `main`,
pressed at `(250, 80)`; released at the corner `(460, 120)` it calls its
closure once, released at `(461, 80)` it calls nothing. -/
theorem Button.release_fires_click_witness :
    (((Button.pumpBtn 0 : Button Nat).handle_event
        (sf.Event.MouseButtonPressed sf.MouseButton.Left 250 80) ⟨250, 80⟩).1.handle_event
        (sf.Event.MouseButtonReleased sf.MouseButton.Left 460 120) ⟨460, 120⟩).2 = [0] ∧
      (((Button.pumpBtn 0 : Button Nat).handle_event
        (sf.Event.MouseButtonPressed sf.MouseButton.Left 250 80) ⟨250, 80⟩).1.handle_event
        (sf.Event.MouseButtonReleased sf.MouseButton.Left 461 80) ⟨461, 80⟩).2 = [] ∧
      (((Button.pumpBtn 0 : Button Nat).handle_event
        (sf.Event.MouseButtonPressed sf.MouseButton.Left 250 80) ⟨250, 80⟩).1.handle_event
        (sf.Event.MouseButtonReleased sf.MouseButton.Left 461 80) ⟨461, 80⟩).1.m_pressed
        = false :=
  ⟨(((Button.release_fires_click (Button.pumpBtn 0 : Button Nat) 460 120 ⟨460, 120⟩ rfl).2.2
      250 80 ⟨250, 80⟩ pumpBtn_contains_inside).2.2.1).trans
      (by rw [pumpBtn_contains_corner]; rfl),
    (((Button.release_fires_click (Button.pumpBtn 0 : Button Nat) 461 80 ⟨461, 80⟩ rfl).2.2
      250 80 ⟨250, 80⟩ pumpBtn_contains_inside).2.2.1).trans
      (by rw [pumpBtn_contains_outside]; rfl),
    ((Button.release_fires_click (Button.pumpBtn 0 : Button Nat) 461 80 ⟨461, 80⟩ rfl).2.2
      250 80 ⟨250, 80⟩ pumpBtn_contains_inside).2.2.2⟩

/-! ## Label.rebuild -/

theorem string_length_eq_zero (s : String) : s.length = 0 ↔ s = "" := by
  obtain ⟨l⟩ := s
  cases l with
  | nil => simp [String.length]
  | cons a t =>
    simp only [String.length, List.length_cons, Nat.succ_ne_zero, false_iff]
    intro h
    have h1 := congrArg String.data h
    exact absurd h1 (List.cons_ne_nil a t)

theorem Label.rebuild_text (l : Label) :
    l.rebuild.m_text =
      (if l.m_prefix = "" then l.m_valueText else l.m_prefix ++ " " ++ l.m_valueText) ∧
      l.rebuild.m_prefix = l.m_prefix ∧ l.rebuild.m_valueText = l.m_valueText := by
  by_cases h : l.m_prefix = ""
  · simp [Label.rebuild, h]
  · have h1 : ¬ ( l.m_prefix.length = 0) := fun e => h ((string_length_eq_zero _).mp e)
    simp [Label.rebuild, h, h1]

/-- C15, as stated, fails for an empty value text: the label of `main` with
prefix `Pump:` and no value text shows the prefix followed by a space. -/
theorem Label.rebuild_trailing_space :
    ( Label.set_prefix (Label.new 18 {}) "Pump:").m_text = "Pump: " ∧
      ( Label.set_prefix (Label.new 18 {}) "Pump:").m_valueText = "" ∧
      ( Label.set_prefix (Label.new 18 {}) "Pump:").m_text ≠ "Pump:" := by
  refine ⟨by decide, by decide, by decide⟩

/-- C15, amended: after `set_prefix` and `set_text` the shown text is the
prefix, one space and the value text when the prefix is not empty, whether or
not the value text is empty, and the value text alone when the prefix is
empty. -/
theorem Label.shown_text (l : Label) (p t : String) :
    (( Label.set_prefix l p).set_text t).m_text = (if p = "" then t else p ++ " " ++ t) ∧
      ( Label.set_prefix (l.set_text t) p).m_text = (if p = "" then t else p ++ " " ++ t) ∧
      (p ≠ "" → (( Label.set_prefix l p).set_text "").m_text = p ++ " ") ∧
      (( Label.set_prefix l "").set_text t).m_text = t := by
  have h1 : (( Label.set_prefix l p).set_text t).m_text = (if p = "" then t else p ++ " " ++ t) := by
    simp [ Label.set_prefix, Label.set_text, Label.rebuild_text]
  have h2 : ( Label.set_prefix (l.set_text t) p).m_text = (if p = "" then t else p ++ " " ++ t) := by
    simp [ Label.set_prefix, Label.set_text, Label.rebuild_text]
  refine ⟨h1, h2, ?_, ?_⟩
  · intro hp
    simp [ Label.set_prefix, Label.set_text, Label.rebuild_text, hp]
  · simp [ Label.set_prefix, Label.set_text, Label.rebuild_text]

/-- Witness for `Label.shown_text`: the prefix `Pump:` with the value texts
`OFF` and the empty string. -/
theorem Label.shown_text_witness :
    (( Label.set_prefix (Label.new 18 {}) "Pump:").set_text "OFF").m_text = "Pump: OFF" ∧
      (( Label.set_prefix (Label.new 18 {}) "Pump:").set_text "").m_text = "Pump: " :=
  ⟨(Label.shown_text (Label.new 18 {}) "Pump:" "OFF").1.trans (by decide),
    ((Label.shown_text (Label.new 18 {}) "Pump:" "OFF").2.2.1 (by decide)).trans (by decide)⟩

/-! ## Helper lemmas on the closure runs -/

theorem list_set_self {α : Type} (l : List α) (i : Nat) (a : α) (h : l[i]? = some a) :
    l.set i a = l := by
  induction l generalizing i with
  | nil => rfl
  | cons b t ih =>
    cases i with
    | zero =>
      simp only [List.getElem?_cons_zero, Option.some.injEq] at h
      simp [h]
    | succ n =>
      simp only [List.getElem?_cons_succ] at h
      simp [ih n h]

theorem exec_nil (fuel : Nat) (w : World) : World.exec fuel [] w = Except.ok w := by
  cases fuel <;> rfl

theorem exec_cons (fuel : Nat) (j : Job) (js : List Job) (w : World) :
    World.exec (fuel + 1) (j :: js) w =
      (match w.runJob j with
        | Except.error err => Except.error err
        | Except.ok r => World.exec fuel (r.2 ++ js) r.1) := rfl

/-! ## Disabled widgets -/

/-- C16: a Button and a TextField whose enabled flag is false return from
`handle_event` at once, for every event: no exception, every member
unchanged, no closure called; with the closures run, the whole world (store
and widgets) is as before. -/
theorem disabled_ignores_events (e : sf.Event) (window : sf.RenderWindow) :
    (∀ b : Button κ, b.enabled = false → b.handle_event e window = (b, [])) ∧
      (∀ f : TextField κ, f.enabled = false → f.handle_event e window = Except.ok (f, [])) ∧
      (∀ (fuel k : Nat) (w : World) (b : Button Action), w.buttons[k]? = some b →
        b.enabled = false → World.button_handle_event fuel k e window w = Except.ok w) ∧
      (∀ (fuel i : Nat) (w : World) (f : TextField Action), w.fields[i]? = some f →
        f.enabled = false → World.field_handle_event fuel i e window w = Except.ok w) := by
  have hb : ∀ (κ : Type) (b : Button κ), b.enabled = false →
      b.handle_event e window = (b, []) := by
    intro κ b h
    simp [Button.handle_event, h]
  have hf : ∀ (κ : Type) (f : TextField κ), f.enabled = false →
      f.handle_event e window = Except.ok (f, []) := by
    intro κ f h
    simp [TextField.handle_event, h]
  refine ⟨hb κ, hf κ, ?_, ?_⟩
  · intro fuel k w b hk hd
    simp [World.button_handle_event, hk, hb Action b hd, exec_nil, list_set_self _ _ _ hk]
  · intro fuel i w f hi hd
    simp [World.field_handle_event, hi, hf Action f hd, exec_nil, list_set_self _ _ _ hi]

/-- Witness for `disabled_ignores_events`: the pump button of `main`, disabled
and pressed, ignores the release that would click it; a disabled focused
field ignores a typed character. -/
theorem disabled_ignores_events_witness :
    ({ (Button.pumpBtn 0 : Button Nat) with m_enabled := false, m_pressed := true }).handle_event
        (sf.Event.MouseButtonReleased sf.MouseButton.Left 250 80) ⟨250, 80⟩
        = ({ (Button.pumpBtn 0 : Button Nat) with m_enabled := false, m_pressed := true }, []) ∧
      ({ (TextField.new {} : TextField Nat) with m_enabled := false, m_focused := true }).handle_event
        (sf.Event.TextEntered 65) ⟨0, 0⟩
        = Except.ok
          ({ (TextField.new {} : TextField Nat) with m_enabled := false, m_focused := true }, []) :=
  ⟨(disabled_ignores_events (sf.Event.MouseButtonReleased sf.MouseButton.Left 250 80)
      ⟨250, 80⟩).1 _ rfl,
    (disabled_ignores_events (sf.Event.TextEntered 65) ⟨0, 0⟩).2.1 _ rfl⟩

/-! ## TextField: text input -/

theorem TextField.restyle_frame (f : TextField κ) :
    f.refresh_style.toWidget = f.toWidget ∧ f.refresh_style.m_value = f.m_value ∧
      f.refresh_style.m_caretPos = f.m_caretPos ∧ f.refresh_style.m_focused = f.m_focused ∧
      f.refresh_style.m_commit = f.m_commit ∧ f.refresh_style.m_text = f.m_text ∧
      f.refresh_style.m_subId = f.m_subId := by
  unfold TextField.refresh_style
  by_cases he : f.enabled = true <;> simp [he]

theorem TextField.handle_text (f : TextField κ) (k : Nat) (window : sf.RenderWindow)
    (he : f.enabled = true) (hf : f.m_focused = true) :
    f.handle_event (sf.Event.TextEntered k) window = TextField.onTextEntered f k := by
  cases h : TextField.onTextEntered f k <;>
    simp [TextField.handle_event, TextField.onMousePressed, he, hf, h]

theorem TextField.handle_key (f : TextField κ) (c : sf.Key) (window : sf.RenderWindow)
    (he : f.enabled = true) (hf : f.m_focused = true) :
    f.handle_event (sf.Event.KeyPressed c) window = Except.ok (TextField.onKeyPressed f c, []) := by
  simp [TextField.handle_event, TextField.onMousePressed, he, hf]

theorem strInsert_ok (s : String) (pos : Nat) (c : Char) (h : pos ≤ s.length) :
    strInsert s pos c = Except.ok ⟨s.data.take pos ++ c :: s.data.drop pos⟩ ∧
      (String.mk (s.data.take pos ++ c :: s.data.drop pos)).length = s.length + 1 := by
  constructor
  · simp [strInsert, Nat.not_lt.mpr h]
  · have h1 : pos ≤ s.data.length := h
    simp only [String.length, List.length_append, List.length_cons, List.length_take,
      List.length_drop]
    omega

theorem strErase_ok (s : String) (pos : Nat) (h : pos < s.length) :
    strErase s pos 1 = Except.ok ⟨s.data.take pos ++ s.data.drop (pos + 1)⟩ ∧
      (String.mk (s.data.take pos ++ s.data.drop (pos + 1))).length = s.length - 1 := by
  constructor
  · simp [strErase, Nat.not_lt.mpr (Nat.le_of_lt h)]
  · have h1 : pos < s.data.length := h
    simp only [String.length, List.length_append, List.length_take, List.length_drop]
    omega

theorem TextField.backspace_eq (f : TextField κ) (hc : f.m_caretPos ≤ f.m_value.length) :
    TextField.onTextEntered f 8 =
      Except.ok
        (if 0 < f.m_caretPos then
          { f with
            m_value := ⟨f.m_value.data.take (f.m_caretPos - 1) ++ f.m_value.data.drop f.m_caretPos⟩
            m_caretPos := f.m_caretPos - 1
            m_text := ⟨f.m_value.data.take (f.m_caretPos - 1) ++
              f.m_value.data.drop f.m_caretPos⟩ }
        else f, []) := by
  by_cases h0 : 0 < f.m_caretPos
  · have hlen : ¬ (f.m_value.length = 0) := by omega
    have hlt : f.m_caretPos - 1 < f.m_value.length := by omega
    have hsub : f.m_caretPos - 1 + 1 = f.m_caretPos := by omega
    have he := (strErase_ok f.m_value (f.m_caretPos - 1) hlt).1
    rw [hsub] at he
    simp [TextField.onTextEntered, h0, hlen, he, TextField.apply_text]
  · simp [TextField.onTextEntered, h0]

theorem TextField.printable_eq (f : TextField κ) (k : Nat)
    (hc : f.m_caretPos ≤ f.m_value.length) (hlo : 32 ≤ k) (hhi : k ≤ 126)
    (hlen : f.m_value.length < 32) :
    TextField.onTextEntered f k =
      Except.ok
        ({ f with
          m_value := ⟨f.m_value.data.take f.m_caretPos ++ Char.ofNat k ::
            f.m_value.data.drop f.m_caretPos⟩
          m_caretPos := f.m_caretPos + 1
          m_text := ⟨f.m_value.data.take f.m_caretPos ++ Char.ofNat k ::
            f.m_value.data.drop f.m_caretPos⟩ }, []) := by
  have hins := strInsert_ok f.m_value f.m_caretPos (Char.ofNat k) hc
  have h8 : k ≠ 8 := by omega
  have h13 : k ≠ 13 := by omega
  have h9 : k ≠ 9 := by omega
  simp [TextField.onTextEntered, h8, h13, h9, hlo, hhi, TextField.m_maxLen, hlen, hins.1,
    TextField.apply_text]

theorem TextField.printable_full_eq (f : TextField κ) (k : Nat) (hlo : 32 ≤ k) (hhi : k ≤ 126)
    (hlen : 32 ≤ f.m_value.length) : TextField.onTextEntered f k = Except.ok (f, []) := by
  have h8 : k ≠ 8 := by omega
  have h13 : k ≠ 13 := by omega
  have h9 : k ≠ 9 := by omega
  simp [TextField.onTextEntered, h8, h13, h9, hlo, hhi, TextField.m_maxLen,
    Nat.not_lt.mpr hlen]

theorem TextField.other_code_eq (f : TextField κ) (k : Nat) (h8 : k ≠ 8) (h13 : k ≠ 13)
    (hr : ¬ (32 ≤ k ∧ k ≤ 126)) : TextField.onTextEntered f k = Except.ok (f, []) := by
  by_cases h9 : k = 9
  · simp [TextField.onTextEntered, h9]
  · simp [TextField.onTextEntered, h8, h13, h9, hr]

theorem TextField.enter_eq (f : TextField κ) :
    TextField.onTextEntered f 13 =
      Except.ok (TextField.refresh_style { f with m_focused := false }, f.m_commit.toList) := by
  simp [TextField.onTextEntered]

/-- C20: an enabled, focused TextField whose caret is inside the text handles
a text-input event with code `k` as follows.  For `32 <= k <= 126` and a text
shorter than 32 the character of code `k` is inserted at the caret and the
caret moves one place right; for `32 <= k <= 126` and a text of 32 or more
characters nothing changes; for every code other than 8, 13 and those of
`[32, 126]`, tab included, nothing changes.  No closure is called in any of
these cases.  Whatever the code, a text of at most 32 characters has at most
32 characters afterwards. -/
theorem TextField.text_entered (f : TextField κ) (k : Nat) (window : sf.RenderWindow)
    (he : f.enabled = true) (hf : f.m_focused = true)
    (hc : f.m_caretPos ≤ f.m_value.length) :
    (32 ≤ k → k ≤ 126 → f.m_value.length < 32 →
        f.handle_event (sf.Event.TextEntered k) window =
          Except.ok
            ({ f with
              m_value := ⟨f.m_value.data.take f.m_caretPos ++ Char.ofNat k ::
                f.m_value.data.drop f.m_caretPos⟩
              m_caretPos := f.m_caretPos + 1
              m_text := ⟨f.m_value.data.take f.m_caretPos ++ Char.ofNat k ::
                f.m_value.data.drop f.m_caretPos⟩ }, [])) ∧
      (32 ≤ k → k ≤ 126 → 32 ≤ f.m_value.length →
        f.handle_event (sf.Event.TextEntered k) window = Except.ok (f, [])) ∧
      (k ≠ 8 → k ≠ 13 → ¬ (32 ≤ k ∧ k ≤ 126) →
        f.handle_event (sf.Event.TextEntered k) window = Except.ok (f, [])) ∧
      (f.m_value.length ≤ 32 →
        ∃ r, f.handle_event (sf.Event.TextEntered k) window = Except.ok r ∧
          r.1.m_value.length ≤ 32) := by
  rw [TextField.handle_text f k window he hf]
  have hins := strInsert_ok f.m_value f.m_caretPos (Char.ofNat k) hc
  have h1 := TextField.printable_eq f k hc
  have h2 := TextField.printable_full_eq f k
  have h3 := TextField.other_code_eq f k
  refine ⟨h1, h2, h3, ?_⟩
  intro hlen
  by_cases h8 : k = 8
  · subst h8
    rw [TextField.backspace_eq f hc]
    refine ⟨_, rfl, ?_⟩
    by_cases h0 : 0 < f.m_caretPos
    · have hlt : f.m_caretPos - 1 < f.m_value.length := by omega
      have hsub : f.m_caretPos - 1 + 1 = f.m_caretPos := by omega
      have hl := (strErase_ok f.m_value (f.m_caretPos - 1) hlt).2
      rw [hsub] at hl
      simp only [h0, if_true]
      omega
    · simp only [h0, if_false]
      exact hlen
  · by_cases h13 : k = 13
    · subst h13
      refine ⟨(TextField.refresh_style { f with m_focused := false }, f.m_commit.toList),
        TextField.enter_eq f, ?_⟩
      rw [(TextField.restyle_frame _).2.1]
      exact hlen
    · by_cases hr : 32 ≤ k ∧ k ≤ 126
      · by_cases hl : f.m_value.length < 32
        · refine ⟨_, h1 hr.1 hr.2 hl, ?_⟩
          have := hins.2
          simp only
          omega
        · exact ⟨_, h2 hr.1 hr.2 (Nat.not_lt.mp hl), hlen⟩
      · exact ⟨_, h3 h8 h13 hr, hlen⟩

/-- Witness for `TextField.text_entered`: a focused field holding `Ian` with
the caret after the `I` receives `v`. -/
theorem TextField.text_entered_witness :
    ({ (TextField.new {} : TextField Nat) with
        m_focused := true, m_value := "Ian", m_caretPos := 1 }).handle_event
      (sf.Event.TextEntered 118) ⟨0, 0⟩
      = Except.ok
        ({ (TextField.new {} : TextField Nat) with
          m_focused := true, m_value := "Ivan", m_caretPos := 2, m_text := "Ivan" }, []) :=
  (TextField.text_entered
    { (TextField.new {} : TextField Nat) with
      m_focused := true, m_value := "Ian", m_caretPos := 1 }
    118 ⟨0, 0⟩ rfl rfl (by decide)).1 (by decide) (by decide) (by decide)

/-! ## TextField: the caret stays inside the text -/

theorem TextField.set_text_caret (f : TextField κ) (s : String) :
    (f.set_text s).m_value = s ∧ (f.set_text s).m_caretPos = min f.m_caretPos s.length ∧
      (f.set_text s).m_focused = f.m_focused ∧ (f.set_text s).m_text = s := by
  unfold TextField.set_text
  by_cases h : s.length < f.m_caretPos
  · simp [h, TextField.apply_text, Nat.min_eq_right (Nat.le_of_lt h)]
  · simp [h, TextField.apply_text, Nat.min_eq_left (Nat.not_lt.mp h)]

theorem TextField.onValue_inv (f : TextField κ) (v : core.Value)
    (h : f.m_caretPos ≤ f.m_value.length) :
    (f.onValue v).m_caretPos ≤ (f.onValue v).m_value.length := by
  unfold TextField.onValue
  split
  · rw [(TextField.set_text_caret f v.s).1, (TextField.set_text_caret f v.s).2.1]
    exact Nat.min_le_right _ _
  · exact h

theorem TextField.update_frame (f : TextField κ) (dt : F32) :
    (f.update dt).m_value = f.m_value ∧ (f.update dt).m_caretPos = f.m_caretPos ∧
      (f.update dt).m_focused = f.m_focused := by
  unfold TextField.update
  by_cases hf : f.m_focused = true
  · by_cases hg : F32.ge (F32.add f.m_blinkTimer dt) ⟨false, 126, 0⟩ = true <;> simp [hf, hg]
  · simp [hf]

theorem TextField.onMousePressed_inv (f : TextField κ) (e : sf.Event)
    (h : f.m_caretPos ≤ f.m_value.length) :
    (TextField.onMousePressed f e).1.m_caretPos ≤ (TextField.onMousePressed f e).1.m_value.length ∧
      (TextField.onMousePressed f e).1.enabled = f.enabled := by
  cases e with
  | MouseButtonPressed button x y =>
    cases button <;> simp only [TextField.onMousePressed, h, and_self, true_and]
    have hfr := TextField.restyle_frame
      { f with m_focused := f.contains ⟨F32.ofInt x, F32.ofInt y⟩ }
    constructor
    · split
      · simp
      · rw [hfr.2.1, hfr.2.2.1]
        exact h
    · split
      · exact congrArg Widget.enabled hfr.1
      · exact congrArg Widget.enabled hfr.1
  | _ => simp [TextField.onMousePressed, h]

theorem TextField.onTextEntered_inv (f : TextField κ) (k : Nat)
    (h : f.m_caretPos ≤ f.m_value.length) :
    ∃ r, TextField.onTextEntered f k = Except.ok r ∧ r.1.m_caretPos ≤ r.1.m_value.length := by
  by_cases h8 : k = 8
  · subst h8
    rw [TextField.backspace_eq f h]
    refine ⟨_, rfl, ?_⟩
    by_cases h0 : 0 < f.m_caretPos
    · have hlt : f.m_caretPos - 1 < f.m_value.length := by omega
      have hsub : f.m_caretPos - 1 + 1 = f.m_caretPos := by omega
      have hl := (strErase_ok f.m_value (f.m_caretPos - 1) hlt).2
      rw [hsub] at hl
      simp only [h0, if_true]
      omega
    · simp only [h0, if_false]
      exact h
  · by_cases h13 : k = 13
    · subst h13
      refine ⟨_, TextField.enter_eq f, ?_⟩
      rw [(TextField.restyle_frame _).2.1, (TextField.restyle_frame _).2.2.1]
      exact h
    · by_cases hr : 32 ≤ k ∧ k ≤ 126
      · by_cases hl : f.m_value.length < 32
        · refine ⟨_, TextField.printable_eq f k h hr.1 hr.2 hl, ?_⟩
          have := (strInsert_ok f.m_value f.m_caretPos (Char.ofNat k) h).2
          simp only
          omega
        · exact ⟨_, TextField.printable_full_eq f k hr.1 hr.2 (Nat.not_lt.mp hl), h⟩
      · exact ⟨_, TextField.other_code_eq f k h8 h13 hr, h⟩

theorem TextField.onKeyPressed_inv (f : TextField κ) (c : sf.Key)
    (h : f.m_caretPos ≤ f.m_value.length) :
    (TextField.onKeyPressed f c).m_caretPos ≤ (TextField.onKeyPressed f c).m_value.length := by
  cases c with
  | Left =>
    simp only [TextField.onKeyPressed]
    split
    · simp only
      omega
    · exact h
  | Right =>
    simp only [TextField.onKeyPressed]
    split
    · simp only
      omega
    · exact h
  | Escape =>
    simp only [TextField.onKeyPressed]
    rw [(TextField.restyle_frame _).2.1, (TextField.restyle_frame _).2.2.1]
    exact h
  | Other code => exact h

theorem TextField.handle_event_inv (f : TextField κ) (e : sf.Event) (window : sf.RenderWindow)
    (h : f.m_caretPos ≤ f.m_value.length) :
    ∃ r, f.handle_event e window = Except.ok r ∧ r.1.m_caretPos ≤ r.1.m_value.length := by
  unfold TextField.handle_event
  by_cases he : f.enabled = true
  · have hm := (TextField.onMousePressed_inv f e h).1
    by_cases hfoc : (TextField.onMousePressed f e).1.m_focused = true
    · cases e with
      | TextEntered code =>
        obtain ⟨r, hr, hinv⟩ := TextField.onTextEntered_inv (TextField.onMousePressed f
          (sf.Event.TextEntered code)).1 code hm
        refine ⟨(r.1, (TextField.onMousePressed f (sf.Event.TextEntered code)).2 ++ r.2), ?_,
          hinv⟩
        simp [he, hfoc, hr]
      | KeyPressed code =>
        refine ⟨_, by simp [he, hfoc]; rfl, ?_⟩
        exact TextField.onKeyPressed_inv _ code hm
      | Closed => exact ⟨_, by simp [he, hfoc], hm⟩
      | MouseMoved x y => exact ⟨_, by simp [he, hfoc], hm⟩
      | MouseButtonPressed b x y => exact ⟨_, by simp [he, hfoc], hm⟩
      | MouseButtonReleased b x y => exact ⟨_, by simp [he, hfoc], hm⟩
      | Other => exact ⟨_, by simp [he, hfoc], hm⟩
    · exact ⟨_, by simp [he, hfoc], hm⟩
  · exact ⟨(f, []), by simp [he], h⟩

theorem TextField.reachable_inv (f : TextField κ) (h : TextField.Reachable f) :
    f.m_caretPos ≤ f.m_value.length := by
  induction h with
  | new theme => simp [TextField.new]
  | handle_event e window _ hev ih =>
    obtain ⟨r, hr, hinv⟩ := TextField.handle_event_inv _ e window ih
    rw [hev] at hr
    cases hr
    exact hinv
  | set_text s _ _ =>
    rw [(TextField.set_text_caret _ s).1, (TextField.set_text_caret _ s).2.1]
    exact Nat.min_le_right _ _
  | update dt _ ih =>
    rw [(TextField.update_frame _ dt).1, (TextField.update_frame _ dt).2.1]
    exact ih
  | onValue v _ ih => exact TextField.onValue_inv _ v ih
  | set_hint s _ ih => exact ih
  | set_position p _ ih => exact ih
  | set_size s _ ih => exact ih
  | set_enabled enabled _ ih => exact ih
  | bound id commit _ ih => exact ih

/-- C19: in every state a TextField reaches from its construction through
`handle_event` (any event), `set_text`, `update`, notifications of a bound
Variable and the other public members, the caret position is at most the
length of the text (it is unsigned, so never below 0), and `handle_event`
raises no exception from such a state.  In particular, for an enabled focused
field, Left at caret 0 and Right at the end of the text change nothing, and
`set_text` with a string shorter than the caret position puts the caret at
the new length. -/
theorem TextField.caret_in_text (f : TextField κ) (h : TextField.Reachable f) :
    0 ≤ f.m_caretPos ∧ f.m_caretPos ≤ f.m_value.length ∧
      (∀ (e : sf.Event) (window : sf.RenderWindow),
        ∃ r, f.handle_event e window = Except.ok r ∧
          r.1.m_caretPos ≤ r.1.m_value.length) ∧
      (∀ window, f.enabled = true → f.m_focused = true → f.m_caretPos = 0 →
        f.handle_event (sf.Event.KeyPressed sf.Key.Left) window = Except.ok (f, [])) ∧
      (∀ window, f.enabled = true → f.m_focused = true → f.m_caretPos = f.m_value.length →
        f.handle_event (sf.Event.KeyPressed sf.Key.Right) window = Except.ok (f, [])) ∧
      (∀ s : String, s.length < f.m_caretPos →
        (f.set_text s).m_caretPos = s.length ∧ (f.set_text s).m_value = s) ∧
      (∀ s : String, (f.set_text s).m_caretPos ≤ (f.set_text s).m_value.length) := by
  have hinv := TextField.reachable_inv f h
  refine ⟨Nat.zero_le _, hinv, ?_, ?_, ?_, ?_, ?_⟩
  · intro e window
    exact TextField.handle_event_inv f e window hinv
  · intro window he hf h0
    rw [TextField.handle_key f _ window he hf]
    simp [TextField.onKeyPressed, h0]
  · intro window he hf hend
    rw [TextField.handle_key f _ window he hf]
    simp [TextField.onKeyPressed, hend]
  · intro s hs
    refine ⟨?_, (TextField.set_text_caret f s).1⟩
    rw [(TextField.set_text_caret f s).2.1]
    exact Nat.min_eq_right (Nat.le_of_lt hs)
  · intro s
    rw [(TextField.set_text_caret f s).1, (TextField.set_text_caret f s).2.1]
    exact Nat.min_le_right _ _

/-- Witness for `TextField.caret_in_text`: the field reached by `set_text`
with `Ivan`, a click inside and `set_text` with `Al`: the caret moves from 4
to 2. -/
theorem TextField.caret_in_text_witness :
    ((TextField.new {} : TextField Nat).set_text "Ivan").m_caretPos ≤
        ((TextField.new {} : TextField Nat).set_text "Ivan").m_value.length ∧
      (({ (TextField.new {} : TextField Nat) with
          m_value := "Ivan", m_caretPos := 4 }).set_text "Al").m_caretPos = 2 :=
  ⟨(TextField.caret_in_text _
      (TextField.Reachable.set_text "Ivan" (TextField.Reachable.new {}))).2.1,
    by decide⟩

/-! ## Widget.contains -/

theorem bitLen_zero (fuel : Nat) : F32.bitLen fuel 0 = 0 := by
  cases fuel <;> simp [F32.bitLen]

theorem bitLen_eq (k : Nat) :
    ∀ fuel n : Nat, 2 ^ k ≤ n → n < 2 ^ (k + 1) → k + 1 ≤ fuel → F32.bitLen fuel n = k + 1 := by
  induction k with
  | zero =>
    intro fuel n h1 h2 hf
    have hn : n = 1 := by omega
    subst hn
    obtain ⟨f, rfl⟩ : ∃ f, fuel = f + 1 := ⟨fuel - 1, by omega⟩
    simp [F32.bitLen, bitLen_zero]
  | succ k ih =>
    intro fuel n h1 h2 hf
    obtain ⟨f, rfl⟩ : ∃ f, fuel = f + 1 := ⟨fuel - 1, by omega⟩
    have hpos : 0 < 2 ^ k := Nat.pow_pos (by decide)
    have e1 : 2 ^ (k + 1) = 2 * 2 ^ k := by rw [Nat.pow_succ, Nat.mul_comm]
    have e2 : 2 ^ (k + 1 + 1) = 2 * (2 * 2 ^ k) := by rw [Nat.pow_succ, e1, Nat.mul_comm]
    have hn0 : n ≠ 0 := by omega
    have hlo : 2 ^ k ≤ n / 2 := by omega
    have hhi : n / 2 < 2 ^ (k + 1) := by omega
    simp [F32.bitLen, hn0, ih f (n / 2) hlo hhi (by omega)]

theorem round_mag (x : F32) (hfin : x.exp.val ≠ 255) : F32.round x.sign x.mag = x := by
  obtain ⟨s, e, m⟩ := x
  obtain ⟨ev, he⟩ := e
  obtain ⟨mv, hm⟩ := m
  simp only at hfin
  by_cases h0 : ev = 0
  · subst h0
    have hlt : mv < 16777216 := by omega
    have hd : mv / 8388608 = 0 := by omega
    have hmod : mv % 8388608 = mv := Nat.mod_eq_of_lt hm
    simp [F32.mag, F32.round, hlt, hd, hmod, Fin.ofNat]
  · by_cases h1 : ev = 1
    · subst h1
      have hlt : 8388608 + mv < 16777216 := by omega
      have hd : (8388608 + mv) / 8388608 = 1 := by omega
      have hmod : (8388608 + mv) % 8388608 = mv := by omega
      simp [F32.mag, F32.round, hlt, hd, hmod, Fin.ofNat, hm]
    · obtain ⟨j, rfl⟩ : ∃ j, ev = j + 2 := ⟨ev - 2, by omega⟩
      have hp : 0 < 2 ^ j := Nat.pow_pos (by decide)
      have hp1 : 2 ^ (j + 1) = 2 * 2 ^ j := by rw [Nat.pow_succ, Nat.mul_comm]
      have hmag : F32.mag ⟨s, ⟨j + 2, he⟩, ⟨mv, hm⟩⟩ = (8388608 + mv) * 2 ^ (j + 1) := by
        simp [F32.mag]
      have hge : ¬ ((8388608 + mv) * 2 ^ (j + 1) < 16777216) := by
        rw [hp1]
        have : 8388608 * (2 * 2 ^ j) ≤ (8388608 + mv) * (2 * 2 ^ j) :=
          Nat.mul_le_mul_right _ (by omega)
        omega
      have hlo : 2 ^ (j + 24) ≤ (8388608 + mv) * 2 ^ (j + 1) := by
        have e : 2 ^ (j + 24) = 8388608 * 2 ^ (j + 1) := by
          rw [show j + 24 = 23 + (j + 1) by omega, Nat.pow_add]
        rw [e]
        exact Nat.mul_le_mul_right _ (by omega)
      have hhi : (8388608 + mv) * 2 ^ (j + 1) < 2 ^ (j + 24 + 1) := by
        have e : 2 ^ (j + 24 + 1) = 16777216 * 2 ^ (j + 1) := by
          rw [show j + 24 + 1 = 24 + (j + 1) by omega, Nat.pow_add]
        rw [e]
        exact Nat.mul_lt_mul_of_pos_right (by omega) (Nat.pow_pos (by decide))
      have hk : j + 24 + 1 ≤ (8388608 + mv) * 2 ^ (j + 1) := by
        have : j + 24 < 2 ^ (j + 24) := Nat.lt_two_pow _
        omega
      have hbl := bitLen_eq (j + 24) _ _ hlo hhi hk
      have hsh : j + 24 + 1 - 24 = j + 1 := by omega
      have hq : (8388608 + mv) * 2 ^ (j + 1) / 2 ^ (j + 1) = 8388608 + mv :=
        Nat.mul_div_cancel _ (Nat.pow_pos (by decide))
      have hr : (8388608 + mv) * 2 ^ (j + 1) % 2 ^ (j + 1) = 0 := Nat.mul_mod_left _ _
      have hhalf : ¬ (2 ^ j < 0) := by omega
      have hhalf2 : ¬ (0 = 2 ^ j) := by omega
      have hq1 : ¬ (8388608 + mv = 16777216) := by omega
      have h254 : ¬ (254 ≤ j + 1) := by omega
      have hemod : (j + 1 + 1) % 256 = j + 2 := by omega
      have hmmod : mv % 8388608 = mv := Nat.mod_eq_of_lt hm
      rw [hmag]
      simp [F32.round, hge, hbl, hsh, hq, hr, hhalf2, hq1, h254, Fin.ofNat, hemod, hmmod]

theorem f32_finite_of (x : F32) (hn : x.isNaN = false) (hi : x.isInf = false) :
    x.exp.val ≠ 255 := by
  intro h
  by_cases hm : x.man.val = 0
  · simp [F32.isInf, h, hm] at hi
  · simp [F32.isNaN, h, hm] at hn

theorem f32_mag_eq_zero (x : F32) (h : x.mag = 0) : x.exp.val = 0 ∧ x.man.val = 0 := by
  unfold F32.mag at h
  by_cases he : x.exp.val = 0
  · simp only [he, if_true] at h
    exact ⟨he, h⟩
  · simp only [he, if_false] at h
    have hp : 0 < 2 ^ (x.exp.val - 1) := Nat.pow_pos (by decide)
    have : 0 < (8388608 + x.man.val) * 2 ^ (x.exp.val - 1) := Nat.mul_pos (by omega) hp
    omega

theorem f32_add_zero (x z : F32) (hx : x.isNaN = false) (hz : z.isZero = true) :
    (F32.add x z).isNaN = false ∧ (F32.add x z).key = x.key := by
  have hz1 : z.exp.val = 0 ∧ z.man.val = 0 := by
    simpa [F32.isZero] using hz
  have hzn : z.isNaN = false := by simp [F32.isNaN, hz1.1]
  have hzi : z.isInf = false := by simp [F32.isInf, hz1.1]
  have hzs : z.scaled = 0 := by
    unfold F32.scaled F32.mag
    cases z.sign <;> simp [hz1.1, hz1.2]
  unfold F32.add
  simp only [hx, hzn, Bool.or_self, Bool.false_eq_true, if_false, hzi, Bool.false_and]
  by_cases hi : x.isInf = true
  · simp [hi, hx]
  · simp only [hi, if_false, hzs, Int.add_zero]
    have hfin := f32_finite_of x hx (by simpa using hi)
    by_cases hs : x.scaled = 0
    · have hm0 : x.mag = 0 := by
        unfold F32.scaled at hs
        cases hsg : x.sign <;> simp [hsg] at hs <;> exact_mod_cast hs
      have hxz := f32_mag_eq_zero x hm0
      simp only [hs, if_true]
      constructor
      · rfl
      · unfold F32.key
        cases x.sign <;> cases z.sign <;> simp [hxz.1, hxz.2]
    · have hm0 : x.mag ≠ 0 := by
        intro h
        apply hs
        unfold F32.scaled
        cases x.sign <;> simp [h]
      have hneg : decide (x.scaled < 0) = x.sign := by
        unfold F32.scaled
        cases hsg : x.sign
        · simp
        · simp
          omega
      have habs : x.scaled.natAbs = x.mag := by
        unfold F32.scaled
        cases x.sign <;> simp
      simp only [hs, if_false, hneg, habs, round_mag x hfin]
      exact ⟨hx, rfl⟩

theorem f32_le_iff (x y : F32) :
    F32.le x y = true ↔ x.isNaN = false ∧ y.isNaN = false ∧ x.key ≤ y.key := by
  simp [F32.le, and_assoc]

theorem f32_lt_iff (x y : F32) :
    F32.lt x y = true ↔ x.isNaN = false ∧ y.isNaN = false ∧ x.key < y.key := by
  simp [F32.lt, and_assoc]

theorem f32_key_eq (x y : F32) (hx : x.isNaN = false) (hy : y.isNaN = false) :
    x.key = y.key ↔ F32.eq x y = true := by
  rw [core.f32_eq_iff]
  obtain ⟨xs, ⟨xe, hxe⟩, ⟨xm, hxm⟩⟩ := x
  obtain ⟨ys, ⟨ye, hye⟩, ⟨ym, hym⟩⟩ := y
  simp only [F32.key, F32.isZero, F32.mk.injEq, Fin.mk.injEq, hx, hy, true_and]
  cases xs <;> cases ys <;> simp <;> omega

theorem contains_unfold (w : Widget) (p : sf.Vector2f) :
    w.contains p = true ↔
      F32.le w.m_pos.x p.x = true ∧ F32.le p.x (F32.add w.m_pos.x w.m_size.x) = true ∧
        F32.le w.m_pos.y p.y = true ∧ F32.le p.y (F32.add w.m_pos.y w.m_size.y) = true := by
  simp [Widget.contains, F32.ge, and_assoc]

set_option maxRecDepth 100000 in
theorem contains_rounded_sum :
    (Widget.mk ⟨F32.ofInt 33554432, F32.ofInt 0⟩ ⟨F32.ofInt (-1), F32.ofInt 0⟩ true).contains
        ⟨F32.ofInt 33554432, F32.ofInt 0⟩ = true ∧
      F32.lt (F32.ofInt (-1)) (F32.ofInt 0) = true ∧
      F32.add (F32.ofInt 33554432) (F32.ofInt (-1)) = F32.ofInt 33554432 := by
  decide

set_option maxRecDepth 100000 in
theorem contains_infinite_pos :
    (Widget.mk ⟨F32.inf false, F32.ofInt 0⟩ ⟨F32.ofInt (-1), F32.ofInt 0⟩ true).contains
        ⟨F32.inf false, F32.ofInt 0⟩ = true := by
  decide

set_option maxRecDepth 100000 in
theorem contains_nan_pos :
    (Widget.mk ⟨F32.qnan, F32.ofInt 0⟩ ⟨F32.ofInt 0, F32.ofInt 0⟩ true).contains
        ⟨F32.qnan, F32.ofInt 0⟩ = false ∧
      (F32.ofInt 0).isZero = true := by
  decide

set_option maxRecDepth 100000 in
theorem add_five_minus_one :
    F32.lt (F32.add ⟨false, 129, 2097152⟩ ⟨true, 127, 0⟩) ⟨false, 129, 2097152⟩ = true := by
  decide

/-- C18, as stated, fails in `float` arithmetic.  A widget at
`(33554432, 0)` with size `(-1, 0)` contains the point `(33554432, 0)`: the
sum `33554432 + (-1)` rounds back to `33554432`.  A widget at `(+inf, 0)`
with size `(-1, 0)` contains `(+inf, 0)`.  A zero-size widget at `(NaN, 0)`
does not contain its own position. -/
theorem Widget.contains_counterexample :
    (Widget.mk ⟨F32.ofInt 33554432, F32.ofInt 0⟩ ⟨F32.ofInt (-1), F32.ofInt 0⟩ true).contains
        ⟨F32.ofInt 33554432, F32.ofInt 0⟩ = true ∧
      F32.lt (F32.ofInt (-1)) (F32.ofInt 0) = true ∧
      (Widget.mk ⟨F32.inf false, F32.ofInt 0⟩ ⟨F32.ofInt (-1), F32.ofInt 0⟩ true).contains
        ⟨F32.inf false, F32.ofInt 0⟩ = true ∧
      (Widget.mk ⟨F32.qnan, F32.ofInt 0⟩ ⟨F32.ofInt 0, F32.ofInt 0⟩ true).contains
        ⟨F32.qnan, F32.ofInt 0⟩ = false :=
  ⟨contains_rounded_sum.1, contains_rounded_sum.2.1, contains_infinite_pos, contains_nan_pos.1⟩

/-- C18, amended: `contains` is true exactly when `px <= x`, `x <= px + sx`,
`py <= y` and `y <= py + sy` hold with the comparison and the rounded sum of
`float` (a comparison with a NaN is false).  So the four corners are inside
whenever `px <= px + sx` and `py <= py + sy`; no point is inside when
`px + sx < px` or `py + sy < py`; and a widget whose size components are
zeros and whose position has no NaN contains exactly the points that are
`==` to its position on both axes. -/
theorem Widget.contains_iff (w : Widget) (p : sf.Vector2f) :
    (w.contains p = true ↔
        F32.le w.m_pos.x p.x = true ∧ F32.le p.x (F32.add w.m_pos.x w.m_size.x) = true ∧
          F32.le w.m_pos.y p.y = true ∧ F32.le p.y (F32.add w.m_pos.y w.m_size.y) = true) ∧
      (F32.le w.m_pos.x (F32.add w.m_pos.x w.m_size.x) = true →
        F32.le w.m_pos.y (F32.add w.m_pos.y w.m_size.y) = true →
        w.contains w.m_pos = true ∧
        w.contains ⟨F32.add w.m_pos.x w.m_size.x, w.m_pos.y⟩ = true ∧
        w.contains ⟨w.m_pos.x, F32.add w.m_pos.y w.m_size.y⟩ = true ∧
        w.contains ⟨F32.add w.m_pos.x w.m_size.x, F32.add w.m_pos.y w.m_size.y⟩ = true) ∧
      (F32.lt (F32.add w.m_pos.x w.m_size.x) w.m_pos.x = true ∨
          F32.lt (F32.add w.m_pos.y w.m_size.y) w.m_pos.y = true →
        w.contains p = false) ∧
      (w.m_size.x.isZero = true → w.m_size.y.isZero = true →
        w.m_pos.x.isNaN = false → w.m_pos.y.isNaN = false →
        (w.contains p = true ↔ F32.eq p.x w.m_pos.x = true ∧ F32.eq p.y w.m_pos.y = true)) := by
  refine ⟨contains_unfold w p, ?_, ?_, ?_⟩
  · intro hx hy
    have hx1 := (f32_le_iff _ _).mp hx
    have hy1 := (f32_le_iff _ _).mp hy
    have rx : F32.le w.m_pos.x w.m_pos.x = true :=
      (f32_le_iff _ _).mpr ⟨hx1.1, hx1.1, Int.le_refl _⟩
    have ry : F32.le w.m_pos.y w.m_pos.y = true :=
      (f32_le_iff _ _).mpr ⟨hy1.1, hy1.1, Int.le_refl _⟩
    have sx : F32.le (F32.add w.m_pos.x w.m_size.x) (F32.add w.m_pos.x w.m_size.x) = true :=
      (f32_le_iff _ _).mpr ⟨hx1.2.1, hx1.2.1, Int.le_refl _⟩
    have sy : F32.le (F32.add w.m_pos.y w.m_size.y) (F32.add w.m_pos.y w.m_size.y) = true :=
      (f32_le_iff _ _).mpr ⟨hy1.2.1, hy1.2.1, Int.le_refl _⟩
    exact ⟨(contains_unfold w _).mpr ⟨rx, hx, ry, hy⟩,
      (contains_unfold w _).mpr ⟨hx, sx, ry, hy⟩,
      (contains_unfold w _).mpr ⟨rx, hx, hy, sy⟩,
      (contains_unfold w _).mpr ⟨hx, sx, hy, sy⟩⟩
  · intro h
    cases hc : w.contains p with
    | false => rfl
    | true =>
      obtain ⟨h1, h2, h3, h4⟩ := (contains_unfold w p).mp hc
      have a1 := (f32_le_iff _ _).mp h1
      have a2 := (f32_le_iff _ _).mp h2
      have a3 := (f32_le_iff _ _).mp h3
      have a4 := (f32_le_iff _ _).mp h4
      rcases h with h | h
      · have b := (f32_lt_iff _ _).mp h
        omega
      · have b := (f32_lt_iff _ _).mp h
        omega
  · intro zx zy nx ny
    have ax := f32_add_zero w.m_pos.x w.m_size.x nx zx
    have ay := f32_add_zero w.m_pos.y w.m_size.y ny zy
    rw [contains_unfold, f32_le_iff, f32_le_iff, f32_le_iff, f32_le_iff, ax.2, ay.2]
    constructor
    · rintro ⟨⟨_, hpx, h1⟩, ⟨_, _, h2⟩, ⟨_, hpy, h3⟩, ⟨_, _, h4⟩⟩
      exact ⟨(f32_key_eq _ _ hpx nx).mp (by omega), (f32_key_eq _ _ hpy ny).mp (by omega)⟩
    · rintro ⟨h1, h2⟩
      have e1 := (core.f32_eq_iff _ _).mp h1
      have e2 := (core.f32_eq_iff _ _).mp h2
      have k1 := (f32_key_eq _ _ e1.1 nx).mpr h1
      have k2 := (f32_key_eq _ _ e2.1 ny).mpr h2
      exact ⟨⟨nx, e1.1, by omega⟩, ⟨e1.1, ax.1, by omega⟩, ⟨ny, e2.1, by omega⟩,
        ⟨e2.1, ay.1, by omega⟩⟩

/-- Witness for `Widget.contains_iff`: a zero-size widget at `(5, 7)`
contains `(5, 7)`, and a widget at `(5, 7)` of size `(-1, 0)` does not. -/
theorem Widget.contains_iff_witness :
    (Widget.mk ⟨⟨false, 129, 2097152⟩, ⟨false, 129, 6291456⟩⟩ ⟨⟨false, 0, 0⟩, ⟨false, 0, 0⟩⟩
        true).contains ⟨⟨false, 129, 2097152⟩, ⟨false, 129, 6291456⟩⟩ = true ∧
      (Widget.mk ⟨⟨false, 129, 2097152⟩, ⟨false, 129, 6291456⟩⟩ ⟨⟨true, 127, 0⟩, ⟨false, 0, 0⟩⟩
        true).contains ⟨⟨false, 129, 2097152⟩, ⟨false, 129, 6291456⟩⟩ = false :=
  ⟨((Widget.contains_iff
      (Widget.mk ⟨⟨false, 129, 2097152⟩, ⟨false, 129, 6291456⟩⟩ ⟨⟨false, 0, 0⟩, ⟨false, 0, 0⟩⟩
        true) ⟨⟨false, 129, 2097152⟩, ⟨false, 129, 6291456⟩⟩).2.2.2
      (by decide) (by decide) (by decide) (by decide)).mpr ⟨by decide, by decide⟩,
    (Widget.contains_iff
      (Widget.mk ⟨⟨false, 129, 2097152⟩, ⟨false, 129, 6291456⟩⟩ ⟨⟨true, 127, 0⟩, ⟨false, 0, 0⟩⟩
        true) ⟨⟨false, 129, 2097152⟩, ⟨false, 129, 6291456⟩⟩).2.2.1
      (Or.inl add_five_minus_one)⟩

/-! ## Runs of the closures of bound widgets -/

theorem TextField.onValue_focused (f : TextField κ) (v : core.Value)
    (h : f.m_focused = true) : f.onValue v = f := by
  simp [TextField.onValue, h]

theorem TextField.onValue_idem (f : TextField κ) (v : core.Value) :
    (f.onValue v).onValue v = f.onValue v := by
  by_cases h : (!f.m_focused && v.type == core.ValueType.String) = true
  · have h1 : (f.onValue v) = f.set_text v.s := by simp [TextField.onValue, h]
    have hfoc : (f.set_text v.s).m_focused = f.m_focused := (TextField.set_text_caret f v.s).2.2.1
    have h2 : (!(f.set_text v.s).m_focused && v.type == core.ValueType.String) = true := by
      rw [hfoc]; exact h
    rw [h1]
    simp only [TextField.onValue, h2, if_true]
    unfold TextField.set_text
    by_cases hl : v.s.length < f.m_caretPos
    · simp [hl, TextField.apply_text]
    · simp [hl, TextField.apply_text]
  · have h1 : (f.onValue v) = f := by simp [TextField.onValue, h]
    rw [h1, h1]

theorem hasTarget_of_lengths (w w1 : World) (c : Observer)
    (hl : w1.labels.length = w.labels.length) (hb : w1.buttons.length = w.buttons.length)
    (hf : w1.fields.length = w.fields.length) : w1.hasTarget c = w.hasTarget c := by
  cases c <;> simp [World.hasTarget, hl, hb, hf]

theorem exec_widget_jobs (name : String) (x : core.Variable Observer) :
    ∀ (cbs : List Observer) (fuel : Nat) (w : World), cbs.length ≤ fuel →
      w.vars.m_vars name = some x →
      (∀ c ∈ cbs, c.isWidget = true ∧ w.hasTarget c = true) →
      ∃ w1, World.exec fuel (cbs.map (Job.notify name)) w = Except.ok w1 ∧
        w1.vars = w.vars ∧ w1.labels.length = w.labels.length ∧
        w1.buttons.length = w.buttons.length ∧ w1.fields.length = w.fields.length ∧
        ∀ i, w1.fields[i]? =
          (w.fields[i]?).map
            (fun f => if Observer.fieldValue i ∈ cbs then f.onValue x.get else f) := by
  intro cbs
  induction cbs with
  | nil =>
    intro fuel w _ _ _
    refine ⟨w, exec_nil fuel w, rfl, rfl, rfl, rfl, ?_⟩
    intro i
    cases w.fields[i]? <;> simp
  | cons c rest ih =>
    intro fuel w hfuel hvar hall
    obtain ⟨n, rfl⟩ : ∃ n, fuel = n + 1 := ⟨fuel - 1, by simp at hfuel; omega⟩
    have hn : rest.length ≤ n := by simp at hfuel; omega
    have hc := hall c (List.mem_cons_self _ _)
    have hrest : ∀ d ∈ rest, d.isWidget = true ∧ w.hasTarget d = true :=
      fun d hd => hall d (List.mem_cons_of_mem _ hd)
    simp only [List.map_cons, exec_cons, World.runJob, hvar]
    cases c with
    | pumpView => simp [Observer.isWidget] at hc
    | labelValue j =>
      have hj : j < w.labels.length := by simpa [World.hasTarget] using hc.2
      simp only [World.runObserver, List.getElem?_eq_getElem hj, List.nil_append]
      obtain ⟨w1, h1, h2, h3, h4, h5, h6⟩ := ih n
        { w with labels := w.labels.set j ((w.labels[j]).onValue x.get) } hn hvar
        (fun d hd => by
          refine ⟨(hrest d hd).1, ?_⟩
          rw [← (hrest d hd).2]
          exact hasTarget_of_lengths w _ d (by simp) rfl rfl)
      refine ⟨w1, h1, h2, by simpa using h3, h4, h5, ?_⟩
      intro i
      rw [h6 i]
      simp
    | buttonIsOn k =>
      have hk : k < w.buttons.length := by simpa [World.hasTarget] using hc.2
      simp only [World.runObserver, List.getElem?_eq_getElem hk, List.nil_append]
      obtain ⟨w1, h1, h2, h3, h4, h5, h6⟩ := ih n
        { w with buttons := w.buttons.set k ((w.buttons[k]).onValue x.get) } hn hvar
        (fun d hd => by
          refine ⟨(hrest d hd).1, ?_⟩
          rw [← (hrest d hd).2]
          exact hasTarget_of_lengths w _ d rfl (by simp) rfl)
      refine ⟨w1, h1, h2, h3, by simpa using h4, h5, ?_⟩
      intro i
      rw [h6 i]
      simp
    | fieldValue i0 =>
      have hi0 : i0 < w.fields.length := by simpa [World.hasTarget] using hc.2
      simp only [World.runObserver, List.getElem?_eq_getElem hi0, List.nil_append]
      obtain ⟨w1, h1, h2, h3, h4, h5, h6⟩ := ih n
        { w with fields := w.fields.set i0 ((w.fields[i0]).onValue x.get) } hn hvar
        (fun d hd => by
          refine ⟨(hrest d hd).1, ?_⟩
          rw [← (hrest d hd).2]
          exact hasTarget_of_lengths w _ d rfl rfl (by simp))
      refine ⟨w1, h1, h2, h3, h4, by simpa using h5, ?_⟩
      intro i
      rw [h6 i]
      by_cases hii : i0 = i
      · subst hii
        simp only [List.getElem?_set_self hi0, Option.map_some', List.getElem?_eq_getElem hi0,
          List.mem_cons, true_or, if_true]
        split
        · rw [TextField.onValue_idem]
        · rfl
      · have hne : Observer.fieldValue i ≠ Observer.fieldValue i0 := by
          intro h; injection h with h; exact hii h.symm
        simp only [List.getElem?_set_ne hii, List.mem_cons, hne, false_or]

theorem notifyLoop_cbs (v : core.Value) (l : List (core.Subscriber Observer)) :
    (core.Variable.notifyLoop v l).map (fun c => c.cb) = l.filterMap (fun s => s.cb) := by
  induction l with
  | nil => rfl
  | cons s rest ih =>
    cases hcb : s.cb <;> simp [core.Variable.notifyLoop, hcb, ih, List.filterMap_cons]

theorem filterMap_cb_length (l : List (core.Subscriber Observer)) :
    (l.filterMap (fun s => s.cb)).length ≤ l.length := by
  induction l with
  | nil => simp
  | cons s rest ih =>
    cases hcb : s.cb <;> simp [List.filterMap_cons, hcb] <;> omega

theorem widgetBound_elim (w : World) (name : String) (x : core.Variable Observer)
    (hvar : w.vars.m_vars name = some x) (hb : w.widgetBound name = true) :
    ∀ c ∈ x.m_subs.filterMap (fun s => s.cb), c.isWidget = true ∧ w.hasTarget c = true := by
  intro c hc
  obtain ⟨s, hs, hsc⟩ := List.mem_filterMap.mp hc
  simp only [World.widgetBound, hvar, List.all_eq_true] at hb
  have := hb s hs
  simpa [hsc] using this

theorem storeSet_exec (w : World) (name : String) (v : core.Value)
    (x : core.Variable Observer) (fuel : Nat) (hvar : w.vars.m_vars name = some x)
    (hb : w.widgetBound name = true) (hfuel : x.m_subs.length ≤ fuel) :
    ∃ w1, World.exec fuel (w.storeSet name v).2 (w.storeSet name v).1 = Except.ok w1 ∧
      w1.vars = w.vars.put name (x.set v).1 ∧ w1.labels.length = w.labels.length ∧
      w1.buttons.length = w.buttons.length ∧ w1.fields.length = w.fields.length ∧
      ∀ i, w1.fields[i]? =
        (w.fields[i]?).map (fun f =>
          if x.get.equals v = false ∧
              Observer.fieldValue i ∈ x.m_subs.filterMap (fun s => s.cb) then
            f.onValue v
          else f) := by
  have hens : w.vars.ensure name v = (x, w.vars) := core.VariableStore.ensure_present _ _ _ _ hvar
  by_cases heq : x.m_value.equals v = true
  · have hset : x.set v = (x, []) := by simp [core.Variable.set, heq]
    refine ⟨{ w with vars := w.vars.put name x }, ?_, ?_, rfl, rfl, rfl, ?_⟩
    · simp [World.storeSet, core.VariableStore.set, hens, hset, World.jobsOf, exec_nil]
    · simp [hset]
    · intro i
      have : x.get.equals v = true := heq
      cases w.fields[i]? <;> simp [this]
  · have heq' : x.m_value.equals v = false := by simpa using heq
    have hset : x.set v = ({ x with m_value := v }, core.Variable.notifyLoop v x.m_subs) := by
      simp [core.Variable.set, heq', core.Variable.notify]
    have hjobs : (w.storeSet name v).2 =
        (x.m_subs.filterMap (fun s => s.cb)).map (Job.notify name) := by
      simp only [World.storeSet, core.VariableStore.set, hens, hset, World.jobsOf]
      rw [← notifyLoop_cbs v x.m_subs, List.map_map]
      rfl
    have hworld : (w.storeSet name v).1 =
        { w with vars := w.vars.put name { x with m_value := v } } := by
      simp [World.storeSet, core.VariableStore.set, hens, hset]
    rw [hjobs, hworld]
    have hall := widgetBound_elim w name x hvar hb
    obtain ⟨w1, h1, h2, h3, h4, h5, h6⟩ := exec_widget_jobs name { x with m_value := v }
      (x.m_subs.filterMap (fun s => s.cb)) fuel
      { w with vars := w.vars.put name { x with m_value := v } }
      (Nat.le_trans (filterMap_cb_length _) hfuel)
      (core.VariableStore.put_same _ _ _)
      (fun c hc => ⟨(hall c hc).1, (hall c hc).2⟩)
    refine ⟨w1, h1, ?_, h3, h4, h5, ?_⟩
    · rw [h2, hset]
    · intro i
      rw [h6 i]
      simp [heq', core.Variable.get]

theorem commit_exec (w : World) (name : String) (i : Nat) (f : TextField Action)
    (x : core.Variable Observer) (fuel : Nat) (hf : w.fields[i]? = some f)
    (hfoc : f.m_focused = true) (hvar : w.vars.m_vars name = some x)
    (hb : w.widgetBound name = true) (hfuel : x.m_subs.length + 1 ≤ fuel) :
    ∃ w1, World.exec fuel [Job.act (Action.fieldCommit name i)] w = Except.ok w1 ∧
      w1.vars = w.vars.put name (x.set (core.Value.make_string f.m_value)).1 ∧
      w1.labels.length = w.labels.length ∧ w1.buttons.length = w.buttons.length ∧
      w1.fields.length = w.fields.length ∧ w1.fields[i]? = some f := by
  obtain ⟨n, rfl⟩ : ∃ n, fuel = n + 1 := ⟨fuel - 1, by omega⟩
  obtain ⟨w1, h1, h2, h3, h4, h5, h6⟩ :=
    storeSet_exec w name (core.Value.make_string f.m_value) x n hvar hb (by omega)
  refine ⟨w1, ?_, h2, h3, h4, h5, ?_⟩
  · simp only [exec_cons, World.runJob, World.runAction, hf, List.append_nil]
    exact h1
  · rw [h6 i, hf]
    simp [TextField.onValue_focused f _ hfoc]

theorem field_event_eq (w w1 : World) (i : Nat) (f f1 : TextField Action) (e : sf.Event)
    (window : sf.RenderWindow) (fuel : Nat) (calls : List Action)
    (hf : w.fields[i]? = some f) (hev : f.handle_event e window = Except.ok (f1, calls))
    (hex : World.exec fuel (calls.map Job.act) w = Except.ok w1)
    (hf1 : w1.fields[i]? = some f) :
    World.field_handle_event fuel i e window w =
      Except.ok { w1 with fields := w1.fields.set i f1 } := by
  simp [World.field_handle_event, hf, hev, hex, hf1]

theorem field_event_quiet (w : World) (i : Nat) (f f1 : TextField Action) (e : sf.Event)
    (window : sf.RenderWindow) (fuel : Nat) (hf : w.fields[i]? = some f)
    (hev : f.handle_event e window = Except.ok (f1, [])) :
    World.field_handle_event fuel i e window w =
      Except.ok { w with fields := w.fields.set i f1 } :=
  field_event_eq w w i f f1 e window fuel [] hf hev (exec_nil fuel w) hf

theorem field_events_append (fuel i : Nat) (window : sf.RenderWindow) :
    ∀ (es1 es2 : List sf.Event) (w : World),
      World.field_handle_events fuel i window (es1 ++ es2) w =
        (match World.field_handle_events fuel i window es1 w with
          | Except.error err => Except.error err
          | Except.ok w1 => World.field_handle_events fuel i window es2 w1) := by
  intro es1
  induction es1 with
  | nil => intro es2 w; rfl
  | cons e rest ih =>
    intro es2 w
    simp only [List.cons_append, World.field_handle_events]
    cases World.field_handle_event fuel i e window w with
    | error err => rfl
    | ok w1 => exact ih es2 w1

theorem lt_length_of_getElem? {α : Type} (l : List α) (i : Nat) (a : α)
    (h : l[i]? = some a) : i < l.length := by
  obtain ⟨h1, _⟩ := List.getElem?_eq_some.mp h
  exact h1

theorem equals_make_string (v : core.Value) (t : String)
    (h : v.equals (core.Value.make_string t) = true) :
    v.type = core.ValueType.String ∧ v.s = t := by
  unfold core.Value.equals at h
  by_cases ht : v.type = core.ValueType.String
  · simp [ht, core.Value.make_string] at h
    exact ⟨ht, h⟩
  · simp [core.Value.make_string, ht] at h

theorem set_make_string (x : core.Variable Observer) (t : String) :
    (x.set (core.Value.make_string t)).1.get.type = core.ValueType.String ∧
      (x.set (core.Value.make_string t)).1.get.s = t ∧
      (x.set (core.Value.make_string t)).1.get.equals (core.Value.make_string t) = true ∧
      (x.set (core.Value.make_string t)).1.m_subs = x.m_subs := by
  by_cases heq : x.m_value.equals (core.Value.make_string t) = true
  · have hset : x.set (core.Value.make_string t) = (x, []) := by simp [core.Variable.set, heq]
    rw [hset]
    exact ⟨(equals_make_string _ _ heq).1, (equals_make_string _ _ heq).2, heq, rfl⟩
  · have heq' : x.m_value.equals (core.Value.make_string t) = false := by simpa using heq
    have hset : x.set (core.Value.make_string t) =
        ({ x with m_value := core.Value.make_string t },
          core.Variable.notifyLoop (core.Value.make_string t) x.m_subs) := by
      simp [core.Variable.set, heq', core.Variable.notify]
    rw [hset]
    simp [core.Variable.get, core.Value.make_string, core.Value.equals]

theorem TextField.type_at_end (f : TextField κ) (k : Nat) (window : sf.RenderWindow)
    (he : f.enabled = true) (hfoc : f.m_focused = true)
    (hc : f.m_caretPos = f.m_value.length) (hlen : f.m_value.length < 32)
    (hlo : 32 ≤ k) (hhi : k ≤ 126) :
    ∃ f1, f.handle_event (sf.Event.TextEntered k) window = Except.ok (f1, []) ∧
      f1.toWidget = f.toWidget ∧ f1.m_focused = true ∧ f1.m_commit = f.m_commit ∧
      f1.m_value = ⟨f.m_value.data ++ [Char.ofNat k]⟩ ∧
      f1.m_caretPos = f1.m_value.length := by
  rw [TextField.handle_text f k window he hfoc,
    TextField.printable_eq f k (Nat.le_of_eq hc) hlo hhi hlen]
  have ht : List.take f.m_value.length f.m_value.data = f.m_value.data :=
    List.take_length f.m_value.data
  have hd : List.drop f.m_value.length f.m_value.data = [] :=
    List.drop_length f.m_value.data
  refine ⟨_, rfl, rfl, hfoc, rfl, ?_, ?_⟩
  · simp only [hc, ht, hd]
  · simp only [hc, ht, hd]
    show f.m_value.data.length + 1 = (f.m_value.data ++ [Char.ofNat k]).length
    simp

theorem type_codes (i fuel : Nat) (window : sf.RenderWindow) :
    ∀ (ks : List Nat) (w : World) (f : TextField Action), w.fields[i]? = some f →
      f.enabled = true → f.m_focused = true → f.m_caretPos = f.m_value.length →
      f.m_value.length + ks.length ≤ 32 → (∀ k ∈ ks, 32 ≤ k ∧ k ≤ 126) →
      ∃ f1, World.field_handle_events fuel i window (ks.map sf.Event.TextEntered) w =
          Except.ok { w with fields := w.fields.set i f1 } ∧
        f1.toWidget = f.toWidget ∧ f1.m_focused = true ∧ f1.m_commit = f.m_commit ∧
        f1.m_value = ⟨f.m_value.data ++ ks.map Char.ofNat⟩ ∧
        f1.m_caretPos = f1.m_value.length := by
  intro ks
  induction ks with
  | nil =>
    intro w f hf _ hfoc hc _ _
    refine ⟨f, ?_, rfl, hfoc, rfl, by simp, hc⟩
    simp [World.field_handle_events, list_set_self _ _ _ hf]
  | cons k rest ih =>
    intro w f hf he hfoc hc hlen hks
    have hk := hks k (List.mem_cons_self _ _)
    obtain ⟨fk, hev, hw, hfock, hcom, hval, hcar⟩ :=
      TextField.type_at_end f k window he hfoc hc
        (by simp only [List.length_cons] at hlen; omega) hk.1 hk.2
    have hi : i < w.fields.length := lt_length_of_getElem? _ _ _ hf
    have hlenk : fk.m_value.length = f.m_value.length + 1 := by
      rw [hval]
      show (f.m_value.data ++ [Char.ofNat k]).length = f.m_value.data.length + 1
      simp
    obtain ⟨f1, h1, h2, h3, h4, h5, h6⟩ := ih { w with fields := w.fields.set i fk } fk
      (by simp [List.getElem?_set_self hi])
      (by rw [← he]; exact congrArg Widget.enabled hw) hfock hcar
      (by simp only [List.length_cons] at hlen; omega)
      (fun k' hk' => hks k' (List.mem_cons_of_mem _ hk'))
    refine ⟨f1, ?_, h2.trans hw, h3, h4.trans hcom, ?_, h6⟩
    · simp only [List.map_cons, World.field_handle_events,
        field_event_quiet w i f fk _ window fuel hf hev, h1, List.set_set]
    · rw [h5, hval]
      simp

theorem TextField.onTextEntered_edit (f : TextField κ) (k : Nat) (h13 : k ≠ 13)
    (h : f.m_caretPos ≤ f.m_value.length) :
    ∃ f1, TextField.onTextEntered f k = Except.ok (f1, []) ∧ f1.toWidget = f.toWidget ∧
      f1.m_focused = f.m_focused ∧ f1.m_commit = f.m_commit ∧
      f1.m_caretPos ≤ f1.m_value.length := by
  by_cases h8 : k = 8
  · subst h8
    rw [TextField.backspace_eq f h]
    by_cases h0 : 0 < f.m_caretPos
    · have hlt : f.m_caretPos - 1 < f.m_value.length := by omega
      have hsub : f.m_caretPos - 1 + 1 = f.m_caretPos := by omega
      have hl := (strErase_ok f.m_value (f.m_caretPos - 1) hlt).2
      rw [hsub] at hl
      simp only [h0, if_true]
      refine ⟨_, rfl, rfl, rfl, rfl, ?_⟩
      simp only
      omega
    · simp only [h0, if_false]
      exact ⟨f, rfl, rfl, rfl, rfl, h⟩
  · by_cases hr : 32 ≤ k ∧ k ≤ 126
    · by_cases hl : f.m_value.length < 32
      · refine ⟨_, TextField.printable_eq f k h hr.1 hr.2 hl, rfl, rfl, rfl, ?_⟩
        have := (strInsert_ok f.m_value f.m_caretPos (Char.ofNat k) h).2
        simp only
        omega
      · exact ⟨f, TextField.printable_full_eq f k hr.1 hr.2 (Nat.not_lt.mp hl), rfl, rfl, rfl, h⟩
    · exact ⟨f, TextField.other_code_eq f k h8 h13 hr, rfl, rfl, rfl, h⟩

theorem TextField.edit_event (f : TextField κ) (e : sf.Event) (window : sf.RenderWindow)
    (hed : TextField.isEdit e = true) (he : f.enabled = true) (hfoc : f.m_focused = true)
    (h : f.m_caretPos ≤ f.m_value.length) :
    ∃ f1, f.handle_event e window = Except.ok (f1, []) ∧ f1.enabled = true ∧
      f1.m_focused = true ∧ f1.m_commit = f.m_commit ∧
      f1.m_caretPos ≤ f1.m_value.length := by
  cases e with
  | TextEntered k =>
    have h13 : k ≠ 13 := by simpa [TextField.isEdit] using hed
    obtain ⟨f1, h1, h2, h3, h4, h5⟩ := TextField.onTextEntered_edit f k h13 h
    rw [TextField.handle_text f k window he hfoc]
    exact ⟨f1, h1, by rw [← he]; exact congrArg Widget.enabled h2, h3.trans hfoc, h4, h5⟩
  | KeyPressed c =>
    rw [TextField.handle_key f c window he hfoc]
    cases c with
    | Left =>
      refine ⟨_, rfl, ?_, ?_, ?_, TextField.onKeyPressed_inv f _ h⟩ <;>
        simp only [TextField.onKeyPressed] <;> split <;> first | exact he | exact hfoc | rfl
    | Right =>
      refine ⟨_, rfl, ?_, ?_, ?_, TextField.onKeyPressed_inv f _ h⟩ <;>
        simp only [TextField.onKeyPressed] <;> split <;> first | exact he | exact hfoc | rfl
    | Escape => simp [TextField.isEdit] at hed
    | Other code => simp [TextField.isEdit] at hed
  | Closed => simp [TextField.isEdit] at hed
  | MouseMoved x y => simp [TextField.isEdit] at hed
  | MouseButtonPressed b x y => simp [TextField.isEdit] at hed
  | MouseButtonReleased b x y => simp [TextField.isEdit] at hed
  | Other => simp [TextField.isEdit] at hed

theorem field_event_commit (w : World) (i : Nat) (f f1 : TextField Action) (name : String)
    (x : core.Variable Observer) (fuel : Nat) (e : sf.Event) (window : sf.RenderWindow)
    (hf : w.fields[i]? = some f) (hfoc : f.m_focused = true)
    (hvar : w.vars.m_vars name = some x) (hb : w.widgetBound name = true)
    (hfuel : x.m_subs.length + 1 ≤ fuel)
    (hev : f.handle_event e window = Except.ok (f1, [Action.fieldCommit name i])) :
    ∃ w1, World.field_handle_event fuel i e window w = Except.ok w1 ∧
      w1.vars = w.vars.put name (x.set (core.Value.make_string f.m_value)).1 ∧
      w1.fields[i]? = some f1 ∧ w1.labels.length = w.labels.length ∧
      w1.buttons.length = w.buttons.length ∧ w1.fields.length = w.fields.length := by
  obtain ⟨w0, h1, h2, h3, h4, h5, h6⟩ := commit_exec w name i f x fuel hf hfoc hvar hb hfuel
  have hi : i < w0.fields.length := lt_length_of_getElem? _ _ _ h6
  refine ⟨{ w0 with fields := w0.fields.set i f1 }, ?_, h2, ?_, h3, h4, ?_⟩
  · exact field_event_eq w w0 i f f1 e window fuel _ hf hev h1 h6
  · simp [List.getElem?_set_self hi]
  · simpa using h5

theorem TextField.handle_left_press (f : TextField κ) (x y : Int) (window : sf.RenderWindow)
    (he : f.enabled = true) :
    f.handle_event (sf.Event.MouseButtonPressed sf.MouseButton.Left x y) window =
      Except.ok (TextField.onMousePressed f
        (sf.Event.MouseButtonPressed sf.MouseButton.Left x y)) := by
  unfold TextField.handle_event
  simp only [he, Bool.not_true, Bool.false_eq_true, if_false]
  split <;> rfl

/-! ## TextField: Enter commits -/

set_option maxRecDepth 100000 in
theorem typingDemo_built :
    ∃ w1 w2,
      World.field_bind_string 1 0 "operator.name"
        (World.addField {} (TextField.new {})) = Except.ok w1 ∧
      World.field_handle_event 0 0 (sf.Event.MouseButtonPressed sf.MouseButton.Left 100 20)
        ⟨100, 20⟩ w1 = Except.ok w2 ∧
      w2.labels = World.typingDemo.labels ∧ w2.buttons = World.typingDemo.buttons ∧
      w2.fields = World.typingDemo.fields ∧
      w2.vars.m_vars "operator.name" = World.typingDemo.vars.m_vars "operator.name" :=
  ⟨_, _, rfl, rfl, rfl, rfl, rfl, rfl⟩

set_option maxRecDepth 100000 in
theorem echo_enter_run :
    ∃ w0 w1 x1 f1 w2 x2 f2,
      World.echoDemo 1 = Except.ok w0 ∧
      World.field_handle_events 0 0 ⟨100, 20⟩
        [sf.Event.MouseButtonPressed sf.MouseButton.Left 100 20, sf.Event.TextEntered 90] w0
        = Except.ok w1 ∧
      w1.vars.m_vars "pump.enabled.view" = some x1 ∧
      x1 = ⟨core.Value.make_string "OFF",
        [⟨1, some Observer.pumpView⟩, ⟨2, some (Observer.fieldValue 0)⟩], 2⟩ ∧
      w1.fields[0]? = some f1 ∧ f1.enabled = true ∧ f1.m_focused = true ∧
      f1.m_value = "OFFZ" ∧ f1.m_subId = 2 ∧
      f1.m_commit = some (Action.fieldCommit "pump.enabled.view" 0) ∧
      World.field_handle_event 5 0 (sf.Event.TextEntered 13) ⟨100, 20⟩ w1 = Except.ok w2 ∧
      w2.vars.m_vars "pump.enabled.view" = some x2 ∧
      x2.get = core.Value.make_string "OFF" ∧
      w2.fields[0]? = some f2 ∧ f2.m_focused = false ∧ f2.m_value = "OFFZ" :=
  ⟨_, _, _, _, _, _, _, rfl, rfl, rfl, rfl, rfl, rfl, rfl, rfl, rfl, rfl, rfl, rfl, rfl, rfl,
    rfl, rfl⟩

/-- C11, as stated, fails when a subscriber of the bound Variable writes to
the store.  In the world of `World.echoDemo` the Variable `pump.enabled.view`
holds `OFF` and is subscribed to by the lambda of `main` that sets
`pump.enabled.view` (id 1) and by the closure of the field bound to it with
`bind_string` (id 2).  The field is clicked at `(100, 20)` inside and receives
`Z`: it is enabled and focused with the text `OFFZ`.  On Enter the commit
closure writes `String OFFZ`, the lambda is notified and writes `String OFF`
back, and the field loses the focus: the store holds `String OFF`, not the
text `OFFZ` of the field.  Five closures are called. -/
theorem World.enter_commit_overwritten :
    ∃ w0 w1 x1 f1 w2 x2 f2,
      World.echoDemo 1 = Except.ok w0 ∧
      World.field_handle_events 0 0 ⟨100, 20⟩
        [sf.Event.MouseButtonPressed sf.MouseButton.Left 100 20, sf.Event.TextEntered 90] w0
        = Except.ok w1 ∧
      w1.vars.m_vars "pump.enabled.view" = some x1 ∧
      x1 = ⟨core.Value.make_string "OFF",
        [⟨1, some Observer.pumpView⟩, ⟨2, some (Observer.fieldValue 0)⟩], 2⟩ ∧
      w1.fields[0]? = some f1 ∧ f1.enabled = true ∧ f1.m_focused = true ∧
      f1.m_value = "OFFZ" ∧ f1.m_subId = 2 ∧
      f1.m_commit = some (Action.fieldCommit "pump.enabled.view" 0) ∧
      World.field_handle_event 5 0 (sf.Event.TextEntered 13) ⟨100, 20⟩ w1 = Except.ok w2 ∧
      w2.vars.m_vars "pump.enabled.view" = some x2 ∧
      x2.get = core.Value.make_string "OFF" ∧
      w2.fields[0]? = some f2 ∧ f2.m_focused = false ∧ f2.m_value = "OFFZ" :=
  echo_enter_run

/-- C11, amended: an enabled, focused TextField bound with
`bind_string(store, name)` and holding the text `t`, where every nonempty
subscriber of the Variable `name` is a closure subscribed by `Label::bind_to`,
`Button::bind_toggle_bool` or `TextField::bind_string` on a widget of the
world (so no subscriber writes to the store), handles the text input 13
(Enter) by writing `String t` to the Variable `name` and losing the focus, its
text still `t`; the closures of the widgets bound to the Variable are run, and
a step bound of one more than their number is enough.  In particular an empty
focused field bound in this way that receives `I`, `v`, `a`, `n` and then
Enter leaves the store holding `String "Ivan"` and is unfocused. -/
theorem World.enter_commits (w : World) (i : Nat) (f : TextField Action) (name : String)
    (x : core.Variable Observer) (fuel : Nat) (window : sf.RenderWindow)
    (hf : w.fields[i]? = some f) (he : f.enabled = true) (hfoc : f.m_focused = true)
    (hc : f.m_commit = some (Action.fieldCommit name i))
    (hvar : w.vars.m_vars name = some x) (hb : w.widgetBound name = true)
    (hfuel : x.m_subs.length + 1 ≤ fuel) :
    (∃ w1 x1 f1,
        World.field_handle_event fuel i (sf.Event.TextEntered 13) window w = Except.ok w1 ∧
        w1.vars.m_vars name = some x1 ∧ x1.get.type = core.ValueType.String ∧
        x1.get.s = f.m_value ∧ x1.get.equals (core.Value.make_string f.m_value) = true ∧
        w1.fields[i]? = some f1 ∧ f1.m_focused = false ∧ f1.m_value = f.m_value) ∧
      (f.m_value = "" → f.m_caretPos = 0 →
        ∃ w2 x2 f2,
          World.field_handle_events fuel i window
            [sf.Event.TextEntered 73, sf.Event.TextEntered 118, sf.Event.TextEntered 97,
              sf.Event.TextEntered 110, sf.Event.TextEntered 13] w = Except.ok w2 ∧
          w2.vars.m_vars name = some x2 ∧ x2.get.type = core.ValueType.String ∧
          x2.get.s = "Ivan" ∧ w2.fields[i]? = some f2 ∧ f2.m_focused = false ∧
          f2.m_value = "Ivan") := by
  have enter : ∀ (w0 : World) (g : TextField Action), w0.fields[i]? = some g →
      g.enabled = true → g.m_focused = true → g.m_commit = some (Action.fieldCommit name i) →
      w0.vars.m_vars name = some x → w0.widgetBound name = true →
      ∃ w1 x1 f1,
        World.field_handle_event fuel i (sf.Event.TextEntered 13) window w0 = Except.ok w1 ∧
        w1.vars.m_vars name = some x1 ∧ x1.get.type = core.ValueType.String ∧
        x1.get.s = g.m_value ∧ x1.get.equals (core.Value.make_string g.m_value) = true ∧
        w1.fields[i]? = some f1 ∧ f1.m_focused = false ∧ f1.m_value = g.m_value := by
    intro w0 g hg hge hgf hgc hv0 hb0
    have hev : g.handle_event (sf.Event.TextEntered 13) window =
        Except.ok (TextField.refresh_style { g with m_focused := false },
          [Action.fieldCommit name i]) := by
      rw [TextField.handle_text g 13 window hge hgf, TextField.enter_eq, hgc]
      rfl
    obtain ⟨w1, h1, h2, h3, _, _, _⟩ :=
      field_event_commit w0 i g _ name x fuel _ window hg hgf hv0 hb0 hfuel hev
    have hs := set_make_string x g.m_value
    refine ⟨w1, _, _, h1, by rw [h2]; exact core.VariableStore.put_same _ _ _, hs.1, hs.2.1,
      hs.2.2.1, h3, ?_, ?_⟩
    · rw [(TextField.restyle_frame _).2.2.2.1]
    · rw [(TextField.restyle_frame _).2.1]
  refine ⟨enter w f hf he hfoc hc hvar hb, ?_⟩
  intro hval hcar
  obtain ⟨g, hg1, hg2, hg3, hg4, hg5, _⟩ := type_codes i fuel window [73, 118, 97, 110] w f hf
    he hfoc (by rw [hcar, hval]; rfl) (by rw [hval]; decide) (by decide)
  have hi : i < w.fields.length := lt_length_of_getElem? _ _ _ hf
  have hgval : g.m_value = "Ivan" := by
    rw [hg5, hval]
    decide
  have hbound : ({ w with fields := w.fields.set i g } : World).widgetBound name = true := by
    have hall := hb
    simp only [World.widgetBound, hvar] at hall ⊢
    rw [List.all_eq_true] at hall ⊢
    intro s hs
    have := hall s hs
    cases hcb : s.cb with
    | none => rfl
    | some c =>
      simp only [hcb, Bool.and_eq_true] at this ⊢
      refine ⟨this.1, ?_⟩
      rw [← this.2]
      exact hasTarget_of_lengths w _ c rfl rfl (by simp)
  obtain ⟨w2, x2, f2, k1, k2, k3, k4, _, k6, k7, k8⟩ :=
    enter { w with fields := w.fields.set i g } g (by simp [List.getElem?_set_self hi])
      (by rw [← he]; exact congrArg Widget.enabled hg2) hg3 (hg4.trans hc) hvar hbound
  refine ⟨w2, x2, f2, ?_, k2, k3, k4.trans hgval, k6, k7, k8.trans hgval⟩
  have happ := field_events_append fuel i window
    ([73, 118, 97, 110].map sf.Event.TextEntered) [sf.Event.TextEntered 13] w
  simp only [List.map_cons, List.map_nil, List.cons_append, List.nil_append] at happ hg1
  rw [happ, hg1]
  simp only [World.field_handle_events, k1]

/-- Witness for `World.enter_commits`: the field of `World.typingDemo`,
empty, focused and bound to `operator.name`, the only subscriber of that
Variable being its own closure, receives `I`, `v`, `a`, `n` and Enter. -/
theorem World.enter_commits_witness :
    ∃ w2 x2 f2,
      World.field_handle_events 2 0 ⟨0, 0⟩
        [sf.Event.TextEntered 73, sf.Event.TextEntered 118, sf.Event.TextEntered 97,
          sf.Event.TextEntered 110, sf.Event.TextEntered 13] World.typingDemo = Except.ok w2 ∧
      w2.vars.m_vars "operator.name" = some x2 ∧ x2.get.type = core.ValueType.String ∧
      x2.get.s = "Ivan" ∧ w2.fields[0]? = some f2 ∧ f2.m_focused = false ∧
      f2.m_value = "Ivan" :=
  (World.enter_commits World.typingDemo 0 _ "operator.name"
    ⟨core.Value.make_string "", [⟨1, some (Observer.fieldValue 0)⟩], 1⟩ 2 ⟨0, 0⟩
    rfl rfl rfl rfl rfl (by decide) (by decide)).2 rfl rfl

/-! ## TextField: Escape discards -/

theorem edit_events_then_escape (i fuel : Nat) (window : sf.RenderWindow) :
    ∀ (es : List sf.Event) (w : World) (f : TextField Action), w.fields[i]? = some f →
      f.enabled = true → f.m_focused = true → f.m_caretPos ≤ f.m_value.length →
      (∀ e ∈ es, TextField.isEdit e = true) →
      ∃ f1, World.field_handle_events fuel i window
            (es ++ [sf.Event.KeyPressed sf.Key.Escape]) w =
          Except.ok { w with fields := w.fields.set i f1 } ∧
        f.handle_events window (es ++ [sf.Event.KeyPressed sf.Key.Escape]) =
          Except.ok (f1, []) ∧
        f1.m_focused = false ∧ f1.m_commit = f.m_commit := by
  intro es
  induction es with
  | nil =>
    intro w f hf he hfoc _ _
    have hev := TextField.handle_key f sf.Key.Escape window he hfoc
    refine ⟨TextField.onKeyPressed f sf.Key.Escape, ?_, ?_, ?_, ?_⟩
    · simp only [List.nil_append, World.field_handle_events,
        field_event_quiet w i f _ _ window fuel hf hev]
    · simp only [List.nil_append, TextField.handle_events, hev, List.append_nil]
    · simp only [TextField.onKeyPressed]
      rw [(TextField.restyle_frame _).2.2.2.1]
    · simp only [TextField.onKeyPressed]
      rw [(TextField.restyle_frame _).2.2.2.2.1]
  | cons e rest ih =>
    intro w f hf he hfoc hinv hes
    obtain ⟨fe, hev, hee, hef, hec, hei⟩ :=
      TextField.edit_event f e window (hes e (List.mem_cons_self _ _)) he hfoc hinv
    have hi : i < w.fields.length := lt_length_of_getElem? _ _ _ hf
    obtain ⟨f1, h1, h2, h3, h4⟩ := ih { w with fields := w.fields.set i fe } fe
      (by simp [List.getElem?_set_self hi]) hee hef hei
      (fun e' he' => hes e' (List.mem_cons_of_mem _ he'))
    have happ : (e :: rest) ++ [sf.Event.KeyPressed sf.Key.Escape] =
        e :: (rest ++ [sf.Event.KeyPressed sf.Key.Escape]) := rfl
    rw [happ]
    refine ⟨f1, ?_, ?_, h3, h4.trans hec⟩
    · simp only [World.field_handle_events,
        field_event_quiet w i f fe _ window fuel hf hev, h1, List.set_set]
    · simp only [TextField.handle_events, hev, h2, List.append_nil]

/-- C12: an enabled, focused TextField (caret inside the text) that handles
any sequence of text-input events other than Enter and of Left and Right key
presses, and then an Escape key press, calls no closure, its commit closure
included, and ends unfocused; with the closures run, the store, the labels
and the buttons of the world are exactly as before, so the bound Variable
keeps the value it had before the editing began.  No step bound is needed. -/
theorem World.escape_discards (w : World) (i : Nat) (f : TextField Action)
    (es : List sf.Event) (fuel : Nat) (window : sf.RenderWindow)
    (hf : w.fields[i]? = some f) (he : f.enabled = true) (hfoc : f.m_focused = true)
    (hinv : f.m_caretPos ≤ f.m_value.length)
    (hes : ∀ e ∈ es, TextField.isEdit e = true) :
    ∃ w1 f1,
      World.field_handle_events fuel i window
        (es ++ [sf.Event.KeyPressed sf.Key.Escape]) w = Except.ok w1 ∧
      w1.vars = w.vars ∧ (∀ name, w1.vars.get name = w.vars.get name) ∧
      w1.labels = w.labels ∧ w1.buttons = w.buttons ∧ w1.fields = w.fields.set i f1 ∧
      f1.m_focused = false ∧
      f.handle_events window (es ++ [sf.Event.KeyPressed sf.Key.Escape]) =
        Except.ok (f1, []) := by
  obtain ⟨f1, h1, h2, h3, _⟩ := edit_events_then_escape i fuel window es w f hf he hfoc hinv hes
  exact ⟨_, f1, h1, rfl, fun _ => rfl, rfl, rfl, rfl, h3, h2⟩

/-- Witness for `World.escape_discards`: the focused field of
`World.typingDemo` receives `A`, Left, `b`, a backspace and then Escape with
no step allowed for closures. -/
theorem World.escape_discards_witness :
    ∃ w1 f1,
      World.field_handle_events 0 0 ⟨0, 0⟩
        ([sf.Event.TextEntered 65, sf.Event.KeyPressed sf.Key.Left, sf.Event.TextEntered 98,
          sf.Event.TextEntered 8] ++ [sf.Event.KeyPressed sf.Key.Escape])
        World.typingDemo = Except.ok w1 ∧
      w1.vars = World.typingDemo.vars ∧
      (∀ name, w1.vars.get name = World.typingDemo.vars.get name) ∧
      w1.labels = World.typingDemo.labels ∧ w1.buttons = World.typingDemo.buttons ∧
      w1.fields = World.typingDemo.fields.set 0 f1 ∧ f1.m_focused = false ∧
      TextField.handle_events
        { (TextField.new {} : TextField Action) with
          m_focused := true
          m_caretVisible := true
          boxOutline := ⟨80, 160, 255⟩
          m_subId := 1
          m_commit := some (Action.fieldCommit "operator.name" 0) } ⟨0, 0⟩
        ([sf.Event.TextEntered 65, sf.Event.KeyPressed sf.Key.Left, sf.Event.TextEntered 98,
          sf.Event.TextEntered 8] ++ [sf.Event.KeyPressed sf.Key.Escape]) =
        Except.ok (f1, []) :=
  World.escape_discards World.typingDemo 0 _ _ 0 ⟨0, 0⟩ rfl rfl rfl (by decide) (by decide)

/-! ## TextField: mouse press -/

theorem TextField.press_inside (f : TextField κ) (x y : Int)
    (hc : f.contains ⟨F32.ofInt x, F32.ofInt y⟩ = true) :
    ∃ f1, TextField.onMousePressed f (sf.Event.MouseButtonPressed sf.MouseButton.Left x y)
        = (f1, []) ∧
      f1.m_focused = true ∧ f1.m_caretPos = f1.m_value.length ∧ f1.m_value = f.m_value ∧
      f1.m_commit = f.m_commit := by
  have hfr := TextField.restyle_frame { f with m_focused := true }
  refine ⟨{ TextField.refresh_style { f with m_focused := true } with
      m_caretPos := (TextField.refresh_style { f with m_focused := true }).m_value.length },
    ?_, ?_, rfl, ?_, ?_⟩
  · simp [TextField.onMousePressed, hc, hfr.2.2.2.1]
  · exact hfr.2.2.2.1
  · exact hfr.2.1
  · exact hfr.2.2.2.2.1

theorem TextField.press_outside (f : TextField κ) (x y : Int)
    (hc : f.contains ⟨F32.ofInt x, F32.ofInt y⟩ = false) :
    TextField.onMousePressed f (sf.Event.MouseButtonPressed sf.MouseButton.Left x y)
        = (TextField.refresh_style { f with m_focused := false },
          if f.m_focused then f.m_commit.toList else []) ∧
      (TextField.refresh_style { f with m_focused := false }).m_focused = false ∧
      (TextField.refresh_style { f with m_focused := false }).m_value = f.m_value ∧
      (TextField.refresh_style { f with m_focused := false }).m_caretPos = f.m_caretPos := by
  have hfr := TextField.restyle_frame { f with m_focused := false }
  refine ⟨?_, hfr.2.2.2.1, hfr.2.1, hfr.2.2.1⟩
  simp [TextField.onMousePressed, hc, hfr.2.2.2.1]

/-- C13: an enabled TextField handles a left-button press at `(x, y)` as
follows.  Inside the bounds: the field is focused afterwards with the caret
at the end of the text, and no closure is called.  Outside with the field
focused: the commit closure is called once and the field is unfocused
afterwards; with the closures run, a field bound with `bind_string` has
written `String` of its text to its Variable.  Outside with the field
unfocused: it stays unfocused and no closure is called.  The text is the same
afterwards in all three cases. -/
theorem TextField.mouse_press (f : TextField κ) (x y : Int) (window : sf.RenderWindow)
    (he : f.enabled = true) :
    (f.contains ⟨F32.ofInt x, F32.ofInt y⟩ = true →
        ∃ f1, f.handle_event (sf.Event.MouseButtonPressed sf.MouseButton.Left x y) window
            = Except.ok (f1, []) ∧
          f1.m_focused = true ∧ f1.m_caretPos = f1.m_value.length ∧
          f1.m_value = f.m_value) ∧
      (f.contains ⟨F32.ofInt x, F32.ofInt y⟩ = false → f.m_focused = true →
        ∃ f1, f.handle_event (sf.Event.MouseButtonPressed sf.MouseButton.Left x y) window
            = Except.ok (f1, f.m_commit.toList) ∧
          f1.m_focused = false ∧ f1.m_value = f.m_value) ∧
      (f.contains ⟨F32.ofInt x, F32.ofInt y⟩ = false → f.m_focused = false →
        ∃ f1, f.handle_event (sf.Event.MouseButtonPressed sf.MouseButton.Left x y) window
            = Except.ok (f1, []) ∧
          f1.m_focused = false ∧ f1.m_value = f.m_value) ∧
      (∀ (w : World) (i : Nat) (g : TextField Action) (name : String)
          (v : core.Variable Observer) (fuel : Nat),
        w.fields[i]? = some g → g.enabled = true → g.m_focused = true →
        g.contains ⟨F32.ofInt x, F32.ofInt y⟩ = false →
        g.m_commit = some (Action.fieldCommit name i) →
        w.vars.m_vars name = some v → w.widgetBound name = true →
        v.m_subs.length + 1 ≤ fuel →
        ∃ w1 v1 g1,
          World.field_handle_event fuel i
            (sf.Event.MouseButtonPressed sf.MouseButton.Left x y) window w = Except.ok w1 ∧
          w1.vars.m_vars name = some v1 ∧ v1.get.type = core.ValueType.String ∧
          v1.get.s = g.m_value ∧ w1.fields[i]? = some g1 ∧ g1.m_focused = false ∧
          g1.m_value = g.m_value) := by
  rw [TextField.handle_left_press f x y window he]
  refine ⟨?_, ?_, ?_, ?_⟩
  · intro hc
    obtain ⟨f1, h1, h2, h3, h4, _⟩ := TextField.press_inside f x y hc
    exact ⟨f1, by rw [h1], h2, h3, h4⟩
  · intro hc hfoc
    have h := TextField.press_outside f x y hc
    exact ⟨_, by rw [h.1, hfoc]; rfl, h.2.1, h.2.2.1⟩
  · intro hc hfoc
    have h := TextField.press_outside f x y hc
    exact ⟨_, by rw [h.1, hfoc]; rfl, h.2.1, h.2.2.1⟩
  · intro w i g name v fuel hg hge hgf hgc hcom hvar hb hfuel
    have h := TextField.press_outside g x y hgc
    have hev : g.handle_event (sf.Event.MouseButtonPressed sf.MouseButton.Left x y) window =
        Except.ok (TextField.refresh_style { g with m_focused := false },
          [Action.fieldCommit name i]) := by
      rw [TextField.handle_left_press g x y window hge, h.1, hgf, hcom]
      rfl
    obtain ⟨w1, h1, h2, h3, _, _, _⟩ :=
      field_event_commit w i g _ name v fuel _ window hg hgf hvar hb hfuel hev
    have hs := set_make_string v g.m_value
    exact ⟨w1, _, _, h1, by rw [h2]; exact core.VariableStore.put_same _ _ _, hs.1, hs.2.1,
      h3, h.2.1, h.2.2.1⟩

set_option maxRecDepth 100000 in
theorem typingDemo_outside :
    Widget.contains (TextField.new {} : TextField Action).toWidget
        ⟨F32.ofInt 300, F32.ofInt 20⟩ = false ∧
      Widget.contains (TextField.new {} : TextField Action).toWidget
        ⟨F32.ofInt 100, F32.ofInt 20⟩ = true := by
  decide

/-- Witness for `TextField.mouse_press`: the constructed field, of size
`(260, 40)` at the origin, is clicked at `(100, 20)` inside; the focused field
of `World.typingDemo` is clicked at `(300, 20)` outside. -/
theorem TextField.mouse_press_witness :
    (∃ f1, (TextField.new {} : TextField Action).handle_event
          (sf.Event.MouseButtonPressed sf.MouseButton.Left 100 20) ⟨100, 20⟩
          = Except.ok (f1, []) ∧
        f1.m_focused = true ∧ f1.m_caretPos = f1.m_value.length ∧
        f1.m_value = (TextField.new {} : TextField Action).m_value) ∧
      (∃ w1 v1 g1,
        World.field_handle_event 2 0
          (sf.Event.MouseButtonPressed sf.MouseButton.Left 300 20) ⟨300, 20⟩
          World.typingDemo = Except.ok w1 ∧
        w1.vars.m_vars "operator.name" = some v1 ∧ v1.get.type = core.ValueType.String ∧
        v1.get.s = "" ∧ w1.fields[0]? = some g1 ∧ g1.m_focused = false ∧ g1.m_value = "") :=
  ⟨(TextField.mouse_press (TextField.new {} : TextField Action) 100 20 ⟨100, 20⟩ rfl).1
      typingDemo_outside.2,
    (TextField.mouse_press (TextField.new {} : TextField Action) 300 20 ⟨300, 20⟩ rfl).2.2.2
      World.typingDemo 0 _ "operator.name"
      ⟨core.Value.make_string "", [⟨1, some (Observer.fieldValue 0)⟩], 1⟩ 2
      rfl rfl rfl typingDemo_outside.1 rfl rfl (by decide) (by decide)⟩

/-! ## TextField: updates from the bound Variable -/

set_option maxRecDepth 100000 in
theorem nameDemo_built :
    ∃ w1 w2 w3,
      World.set 0 "operator.name" (core.Value.make_string "Ivan") {} = Except.ok w1 ∧
      World.label_bind_to 1 0 "operator.name"
        (w1.addLabel ( Label.set_prefix (Label.new 18 {}) "Operator name:")) = Except.ok w2 ∧
      World.field_bind_string 1 0 "operator.name" (w2.addField (TextField.new {}))
        = Except.ok w3 ∧
      w3.labels = World.nameDemo.labels ∧ w3.buttons = World.nameDemo.buttons ∧
      w3.fields = World.nameDemo.fields ∧
      w3.vars.m_vars "operator.name" = World.nameDemo.vars.m_vars "operator.name" :=
  ⟨_, _, _, rfl, rfl, rfl, rfl, rfl, rfl, rfl⟩

set_option maxRecDepth 100000 in
theorem echo_set_run :
    ∃ w0 x0 f0 w1 x1 f1 w2 f2 w3 x3 f3,
      World.echoDemo 1 = Except.ok w0 ∧
      w0.vars.m_vars "pump.enabled.view" = some x0 ∧
      x0 = ⟨core.Value.make_string "OFF",
        [⟨1, some Observer.pumpView⟩, ⟨2, some (Observer.fieldValue 0)⟩], 2⟩ ∧
      w0.fields[0]? = some f0 ∧ f0.m_focused = false ∧ f0.m_value = "OFF" ∧
      f0.m_subId = 2 ∧
      World.set 4 "pump.enabled.view" (core.Value.make_string "abc") w0 = Except.ok w1 ∧
      w1.vars.m_vars "pump.enabled.view" = some x1 ∧
      x1.get = core.Value.make_string "OFF" ∧
      w1.fields[0]? = some f1 ∧ f1.m_value = "OFF" ∧ f1.m_text = "OFF" ∧
      World.field_handle_events 0 0 ⟨100, 20⟩
        [sf.Event.MouseButtonPressed sf.MouseButton.Left 100 20, sf.Event.TextEntered 90,
          sf.Event.KeyPressed sf.Key.Escape] w0 = Except.ok w2 ∧
      w2.fields[0]? = some f2 ∧ f2.m_focused = false ∧ f2.m_value = "OFFZ" ∧
      World.set 6 "pump.enabled.view" (core.Value.make_bool true) w2 = Except.ok w3 ∧
      w3.vars.m_vars "pump.enabled.view" = some x3 ∧
      x3.get = core.Value.make_string "OFF" ∧
      w3.fields[0]? = some f3 ∧ f3.m_value = "OFF" ∧ f3.m_text = "OFF" :=
  ⟨_, _, _, _, _, _, _, _, _, _, _, rfl, rfl, rfl, rfl, rfl, rfl, rfl, rfl, rfl, rfl, rfl,
    rfl, rfl, rfl, rfl, rfl, rfl, rfl, rfl, rfl, rfl, rfl, rfl⟩

/-- C14, as stated, fails when a subscriber of the bound Variable writes to
the store.  In the world of `World.echoDemo` the Variable `pump.enabled.view`
holds `OFF` and is subscribed to by the lambda of `main` that sets
`pump.enabled.view` (id 1) and by the closure of the field bound to it with
`bind_string` (id 2); the field is unfocused and shows `OFF`.  An external
`set` to `String abc` notifies the lambda, which writes `String OFF` back
before the closure of the field is called: the field shows `OFF`, not `abc`.
After a click inside, `Z` and Escape the unfocused field shows `OFFZ`; an
external `set` to `Bool true`, not a String, then makes the lambda write
`String ON` and `String OFF`, and the text of the field changes to `OFF`. -/
theorem World.external_set_overwritten :
    ∃ w0 x0 f0 w1 x1 f1 w2 f2 w3 x3 f3,
      World.echoDemo 1 = Except.ok w0 ∧
      w0.vars.m_vars "pump.enabled.view" = some x0 ∧
      x0 = ⟨core.Value.make_string "OFF",
        [⟨1, some Observer.pumpView⟩, ⟨2, some (Observer.fieldValue 0)⟩], 2⟩ ∧
      w0.fields[0]? = some f0 ∧ f0.m_focused = false ∧ f0.m_value = "OFF" ∧
      f0.m_subId = 2 ∧
      World.set 4 "pump.enabled.view" (core.Value.make_string "abc") w0 = Except.ok w1 ∧
      w1.vars.m_vars "pump.enabled.view" = some x1 ∧
      x1.get = core.Value.make_string "OFF" ∧
      w1.fields[0]? = some f1 ∧ f1.m_value = "OFF" ∧ f1.m_text = "OFF" ∧
      World.field_handle_events 0 0 ⟨100, 20⟩
        [sf.Event.MouseButtonPressed sf.MouseButton.Left 100 20, sf.Event.TextEntered 90,
          sf.Event.KeyPressed sf.Key.Escape] w0 = Except.ok w2 ∧
      w2.fields[0]? = some f2 ∧ f2.m_focused = false ∧ f2.m_value = "OFFZ" ∧
      World.set 6 "pump.enabled.view" (core.Value.make_bool true) w2 = Except.ok w3 ∧
      w3.vars.m_vars "pump.enabled.view" = some x3 ∧
      x3.get = core.Value.make_string "OFF" ∧
      w3.fields[0]? = some f3 ∧ f3.m_value = "OFF" ∧ f3.m_text = "OFF" :=
  echo_set_run

/-- C14, amended: let every nonempty subscriber of the Variable a TextField
is bound to be a closure subscribed by `Label::bind_to`,
`Button::bind_toggle_bool` or `TextField::bind_string` on a widget of the
world (so no subscriber writes to the store).  When the Variable is changed
from outside by a `set` (the new value is not `equals` to the old one), the
closures of the widgets bound to it run, a step bound of their number being
enough, the Variable holds the new value, and the field ends as the closure
of `bind_string` leaves it: unchanged if it is focused; with the text `s` and
the caret at the smaller of its old position and the length of `s` if it is
unfocused and the value is `String s`; unchanged if the value is not a
String. -/
theorem World.external_set (w : World) (name : String) (v : core.Value)
    (x : core.Variable Observer) (i : Nat) (f : TextField Action) (fuel : Nat)
    (hvar : w.vars.m_vars name = some x) (hb : w.widgetBound name = true)
    (hsub : Observer.fieldValue i ∈ x.m_subs.filterMap (fun s => s.cb))
    (hf : w.fields[i]? = some f) (hfuel : x.m_subs.length ≤ fuel)
    (hch : x.get.equals v = false) :
    ∃ w1, World.set fuel name v w = Except.ok w1 ∧
      w1.vars.get name = Except.ok v ∧
      w1.fields[i]? = some (f.onValue v) ∧
      (f.m_focused = true → f.onValue v = f) ∧
      (f.m_focused = false → v.type = core.ValueType.String →
        (f.onValue v).m_value = v.s ∧ (f.onValue v).m_text = v.s ∧
        (f.onValue v).m_caretPos = min f.m_caretPos v.s.length ∧
        (f.onValue v).m_caretPos ≤ v.s.length ∧ (f.onValue v).m_focused = false) ∧
      (v.type ≠ core.ValueType.String →
        f.onValue v = f ∧ (f.onValue v).m_value = f.m_value) := by
  obtain ⟨w1, h1, h2, _, _, _, h6⟩ := storeSet_exec w name v x fuel hvar hb hfuel
  have hch' : x.m_value.equals v = false := hch
  refine ⟨w1, h1, ?_, ?_, ?_, ?_, ?_⟩
  · rw [h2]
    simp [core.VariableStore.get, core.VariableStore.put, core.Variable.set, hch',
      core.Variable.get]
  · rw [h6 i, hf]
    simp [hch, hsub]
  · intro hfoc
    exact TextField.onValue_focused f v hfoc
  · intro hfoc hty
    have hov : f.onValue v = f.set_text v.s := by simp [TextField.onValue, hfoc, hty]
    have hst := TextField.set_text_caret f v.s
    rw [hov]
    exact ⟨hst.1, hst.2.2.2, hst.2.1, by rw [hst.2.1]; exact Nat.min_le_right _ _,
      hst.2.2.1.trans hfoc⟩
  · intro hty
    have hov : f.onValue v = f := by simp [TextField.onValue, hty]
    exact ⟨hov, by rw [hov]⟩

/-- Witness for `World.external_set`: in `World.nameDemo` the Variable
`operator.name`, subscribed to by the closures of the label and of the field,
is set to `String "Al"`; the unfocused field shows `Al`. -/
theorem World.external_set_witness :
    ∃ w1, World.set 2 "operator.name" (core.Value.make_string "Al") World.nameDemo
        = Except.ok w1 ∧
      w1.vars.get "operator.name" = Except.ok (core.Value.make_string "Al") ∧
      w1.fields[0]? = some (TextField.onValue
        { (TextField.new {} : TextField Action) with
          m_value := "Ivan"
          m_text := "Ivan"
          m_subId := 2
          m_commit := some (Action.fieldCommit "operator.name" 0) }
        (core.Value.make_string "Al")) ∧
      (TextField.onValue
        { (TextField.new {} : TextField Action) with
          m_value := "Ivan"
          m_text := "Ivan"
          m_subId := 2
          m_commit := some (Action.fieldCommit "operator.name" 0) }
        (core.Value.make_string "Al")).m_value = "Al" :=
  have h := World.external_set World.nameDemo "operator.name" (core.Value.make_string "Al")
    ⟨core.Value.make_string "Ivan",
      [⟨1, some (Observer.labelValue 0)⟩, ⟨2, some (Observer.fieldValue 0)⟩], 2⟩
    0 _ 2 rfl (by decide) (by decide) rfl (by decide) (by decide)
  h.elim fun w1 hw => ⟨w1, hw.1, hw.2.1, hw.2.2.1, (hw.2.2.2.2.1 rfl rfl).1⟩

/-! ## The pump wiring of `main` -/

theorem exec_mono : ∀ (n : Nat) (js : List Job) (w w1 : World),
    World.exec n js w = Except.ok w1 → ∀ m, n ≤ m → World.exec m js w = Except.ok w1 := by
  intro n
  induction n with
  | zero =>
    intro js w w1 h m _
    cases js with
    | nil => rw [exec_nil] at h ⊢; exact h
    | cons j rest => simp [World.exec] at h
  | succ n ih =>
    intro js w w1 h m hm
    cases js with
    | nil => rw [exec_nil] at h ⊢; exact h
    | cons j rest =>
      obtain ⟨m1, rfl⟩ : ∃ m1, m = m1 + 1 := ⟨m - 1, by omega⟩
      rw [exec_cons] at h ⊢
      cases hr : w.runJob j with
      | error err => simp [hr] at h
      | ok r =>
        simp only [hr] at h ⊢
        exact ih _ _ _ h m1 (by omega)

theorem mono_exec (js : List Job) (w : World) : World.Mono (fun n => World.exec n js w) :=
  fun n m _ hnm h => exec_mono n js w _ h m hnm

theorem mono_bind {α β : Type} (f : Nat → Except Fault α) (g : α → Nat → Except Fault β)
    (hf : World.Mono f) (hg : ∀ a, World.Mono (g a)) :
    World.Mono (fun n => (f n) >>= fun a => g a n) := by
  intro n m b hnm h
  cases hfn : f n with
  | error err => simp [hfn, bind, Except.bind] at h
  | ok a =>
    simp only [hfn, bind, Except.bind] at h
    simp only [hf n m a hnm hfn, bind, Except.bind]
    exact hg a n m b hnm h

theorem mono_pure {α : Type} (a : α) : World.Mono (fun _ => (pure a : Except Fault α)) :=
  fun _ _ _ _ h => h

theorem mono_set (name : String) (v : core.Value) (w : World) :
    World.Mono (fun n => World.set n name v w) :=
  fun n m _ hnm h => exec_mono n _ _ _ h m hnm

theorem mono_subscribe (name : String) (cb : Observer) (w : World) :
    World.Mono (fun n => World.subscribe n name cb w) := by
  intro n m a hnm h
  unfold World.subscribe at h ⊢
  cases hat : (w.vars.at_ name).1 with
  | error err => simp [hat] at h
  | ok x =>
    simp only [hat] at h ⊢
    cases hex : World.exec n (World.jobsOf name (x.subscribe (some cb)).2.2)
        { w with vars := w.vars.put name (x.subscribe (some cb)).2.1 } with
    | error err => simp [hex] at h
    | ok w1 =>
      simp only [hex] at h
      rw [exec_mono n _ _ _ hex m hnm]
      exact h

theorem mono_label_bind (j : Nat) (name : String) (w : World) :
    World.Mono (fun n => World.label_bind_to n j name w) := by
  intro n m a hnm h
  unfold World.label_bind_to at h ⊢
  cases hs : World.subscribe n name (Observer.labelValue j)
      { w with vars := (w.vars.ensure name (core.Value.make_string "")).2 } with
  | error err => simp [hs] at h
  | ok r =>
    simp only [hs] at h
    simp only [mono_subscribe _ _ _ n m r hnm hs]
    exact h

theorem mono_button_bind (k : Nat) (name : String) (w : World) :
    World.Mono (fun n => World.button_bind_toggle_bool n k name w) := by
  intro n m a hnm h
  unfold World.button_bind_toggle_bool at h ⊢
  cases hs : World.subscribe n name (Observer.buttonIsOn k)
      { w with vars := (w.vars.ensure name (core.Value.make_bool false)).2 } with
  | error err => simp [hs] at h
  | ok r =>
    simp only [hs] at h
    simp only [mono_subscribe _ _ _ n m r hnm hs]
    exact h

theorem mono_field_bind (i : Nat) (name : String) (w : World) :
    World.Mono (fun n => World.field_bind_string n i name w) := by
  intro n m a hnm h
  unfold World.field_bind_string at h ⊢
  cases hs : World.subscribe n name (Observer.fieldValue i)
      { w with vars := (w.vars.ensure name (core.Value.make_string "")).2 } with
  | error err => simp [hs] at h
  | ok r =>
    simp only [hs] at h
    simp only [mono_subscribe _ _ _ n m r hnm hs]
    exact h

theorem mono_main_setup : World.Mono main_setup := by
  unfold main_setup
  refine mono_bind _ _ (mono_set _ _ _) (fun w1 => ?_)
  refine mono_bind _ _ (mono_set _ _ _) (fun w2 => ?_)
  refine mono_bind _ _ (mono_set _ _ _) (fun w3 => ?_)
  refine mono_bind _ _ (mono_set _ _ _) (fun w4 => ?_)
  refine mono_bind _ _ (mono_subscribe _ _ _) (fun r5 => ?_)
  refine mono_bind _ _ (mono_label_bind _ _ _) (fun w8 => ?_)
  refine mono_bind _ _ (mono_button_bind _ _ _) (fun w10 => ?_)
  refine mono_bind _ _ (mono_label_bind _ _ _) (fun w12 => ?_)
  refine mono_bind _ _ (mono_label_bind _ _ _) (fun w15 => ?_)
  refine mono_bind _ _ (mono_field_bind _ _ _) (fun w17 => ?_)
  exact mono_pure _

set_option maxRecDepth 100000 in
theorem main_setup_wired : endsWired false (main_setup 1) = true := by decide

theorem store_set_changed (s : core.VariableStore Observer) (name : String)
    (x : core.Variable Observer) (v : core.Value) (hvar : s.m_vars name = some x)
    (hne : x.m_value.equals v = false) :
    s.set name v = (s.put name { x with m_value := v }, core.Variable.notifyLoop v x.m_subs) := by
  simp [core.VariableStore.set, core.VariableStore.ensure_present s name v x hvar,
    core.Variable.set, hne, core.Variable.notify]

theorem run_toggle (w : World) (name : String) (x : core.Variable Observer) (b : Bool)
    (hvar : w.vars.m_vars name = some x) (hval : x.m_value = core.Value.make_bool b) :
    w.runJob (Job.act (Action.toggleBool name)) =
      Except.ok ({ w with vars := w.vars.put name { x with m_value := core.Value.make_bool (!b) } },
        World.jobsOf name (core.Variable.notifyLoop (core.Value.make_bool (!b)) x.m_subs)) := by
  have hget : w.vars.get_bool name false = Except.ok b := by
    simp [core.VariableStore.get_bool, core.VariableStore.has, core.VariableStore.get, hvar,
      core.Variable.get, hval, core.Value.make_bool]
  have hne : x.m_value.equals (core.Value.make_bool (!b)) = false := by
    rw [hval]
    cases b <;> decide
  simp [World.runJob, World.runAction, hget, World.storeSet,
    store_set_changed _ _ _ _ hvar hne]

theorem run_pumpView (w : World) (name : String) (x y : core.Variable Observer) (b : Bool)
    (hvar : w.vars.m_vars name = some x) (hval : x.m_value = core.Value.make_bool b)
    (hview : w.vars.m_vars "pump.enabled.view" = some y)
    (hy : y.m_value = core.Value.make_string (on_off (!b))) :
    w.runJob (Job.notify name Observer.pumpView) =
      Except.ok
        ({ w with
            vars := w.vars.put "pump.enabled.view"
              { y with m_value := core.Value.make_string (on_off b) } },
          World.jobsOf "pump.enabled.view"
            (core.Variable.notifyLoop (core.Value.make_string (on_off b)) y.m_subs)) := by
  have hne : y.m_value.equals (core.Value.make_string (on_off b)) = false := by
    rw [hy]
    cases b <;> decide
  have hb : (if (core.Value.make_bool b).type = core.ValueType.Bool then
      (core.Value.make_bool b).b else false) = b := by
    simp [core.Value.make_bool]
  simp only [World.runJob, hvar, World.runObserver, core.Variable.get, hval, hb,
    World.storeSet, store_set_changed _ _ _ _ hview hne]

theorem run_labelValue (w : World) (name : String) (x : core.Variable Observer) (j : Nat)
    (l : Label) (hvar : w.vars.m_vars name = some x) (hl : w.labels[j]? = some l) :
    w.runJob (Job.notify name (Observer.labelValue j)) =
      Except.ok ({ w with labels := w.labels.set j (l.onValue x.get) }, []) := by
  simp [World.runJob, hvar, World.runObserver, hl]

theorem run_buttonIsOn (w : World) (name : String) (x : core.Variable Observer) (k : Nat)
    (b : Button Action) (hvar : w.vars.m_vars name = some x) (hb : w.buttons[k]? = some b) :
    w.runJob (Job.notify name (Observer.buttonIsOn k)) =
      Except.ok ({ w with buttons := w.buttons.set k (b.onValue x.get) }, []) := by
  simp [World.runJob, hvar, World.runObserver, hb]

theorem button_press_world (w : World) (k : Nat) (b : Button Action) (x y : Int)
    (window : sf.RenderWindow) (fuel : Nat) (hk : w.buttons[k]? = some b)
    (he : b.enabled = true) (hc : b.contains ⟨F32.ofInt x, F32.ofInt y⟩ = true) :
    World.button_handle_event fuel k (sf.Event.MouseButtonPressed sf.MouseButton.Left x y)
        window w =
      Except.ok
        { w with
          buttons := w.buttons.set k (Button.refresh_style { b with m_pressed := true }) } := by
  simp [World.button_handle_event, hk, Button.handle_press b x y window he hc, exec_nil]

theorem button_release_world (w : World) (k : Nat) (b : Button Action) (x y : Int)
    (window : sf.RenderWindow) (fuel : Nat) (a : Action) (hk : w.buttons[k]? = some b)
    (he : b.enabled = true) (hp : b.m_pressed = true)
    (hc : b.contains ⟨F32.ofInt x, F32.ofInt y⟩ = true) (ha : b.m_onClick = some a) :
    World.button_handle_event fuel k (sf.Event.MouseButtonReleased sf.MouseButton.Left x y)
        window w =
      World.exec fuel [Job.act a]
        { w with
          buttons := w.buttons.set k (Button.refresh_style { b with m_pressed := false }) } := by
  simp [World.button_handle_event, hk, Button.handle_release b x y window he, hp, hc, ha]

theorem Button.onValue_frame (b : Button κ) (v : core.Value) :
    (b.onValue v).toWidget = b.toWidget ∧ (b.onValue v).m_pressed = b.m_pressed ∧
      (b.onValue v).m_onClick = b.m_onClick := by
  have h := Button.refresh_style_frame
    { b with m_isOn := if v.type = core.ValueType.Bool then v.b else false }
  exact ⟨h.1, h.2.1, h.2.2.2.1⟩

theorem exec_step (n : Nat) (j : Job) (js new : List Job) (w w1 : World)
    (h : w.runJob j = Except.ok (w1, new)) :
    World.exec (n + 1) (j :: js) w = World.exec n (new ++ js) w1 := by
  rw [exec_cons, h]

theorem click_step (b : Bool) (w : World) (fuel : Nat) (x y : Int) (hw : pumpWired b w)
    (hfuel : 4 ≤ fuel) (hin : pumpWidget.contains ⟨F32.ofInt x, F32.ofInt y⟩ = true) :
    ∃ w1, clickPump fuel x y w = Except.ok w1 ∧ pumpWired (!b) w1 := by
  obtain ⟨hpe, hpev, hlab, hbtn⟩ := hw
  obtain ⟨n, rfl⟩ : ∃ n, fuel = n + 1 + 1 + 1 + 1 := ⟨fuel - 4, by omega⟩
  -- the button
  obtain ⟨B, hB, hBw, hBc, hBp⟩ : ∃ B, w.buttons[0]? = some B ∧ B.toWidget = pumpWidget ∧
      B.m_onClick = some (Action.toggleBool "pump.enabled") ∧ B.m_pressed = false := by
    cases hb0 : w.buttons[0]? with
    | none => simp [hb0] at hbtn
    | some B =>
      simp only [hb0, Option.map_some', Option.some.injEq, Prod.mk.injEq] at hbtn
      exact ⟨B, rfl, hbtn.1, hbtn.2.1, hbtn.2.2⟩
  -- the label
  obtain ⟨L, hL, hLp⟩ : ∃ L, w.labels[1]? = some L ∧ L.m_prefix = "Pump:" := by
    cases hl1 : w.labels[1]? with
    | none => simp [hl1] at hlab
    | some L =>
      simp only [hl1, Option.map_some', Option.some.injEq, Prod.mk.injEq] at hlab
      exact ⟨L, rfl, hlab.1⟩
  have hB0 : 0 < w.buttons.length := lt_length_of_getElem? _ _ _ hB
  have hL1 : 1 < w.labels.length := lt_length_of_getElem? _ _ _ hL
  have hBe : B.enabled = true := by
    have : B.enabled = pumpWidget.enabled := congrArg Widget.enabled hBw
    rw [this]; rfl
  have hBin : B.contains ⟨F32.ofInt x, F32.ofInt y⟩ = true := by
    have : B.contains ⟨F32.ofInt x, F32.ofInt y⟩ =
        pumpWidget.contains ⟨F32.ofInt x, F32.ofInt y⟩ :=
      congrArg (fun t => Widget.contains t ⟨F32.ofInt x, F32.ofInt y⟩) hBw
    rw [this]; exact hin
  -- press
  have hpress := button_press_world w 0 B x y ⟨x, y⟩ (n + 1 + 1 + 1 + 1) hB hBe hBin
  have hfr1 := Button.refresh_style_frame { B with m_pressed := true }
  have hB1e : (Button.refresh_style { B with m_pressed := true }).enabled = true := by
    have : (Button.refresh_style { B with m_pressed := true }).enabled = B.enabled :=
      congrArg Widget.enabled hfr1.1
    rw [this]; exact hBe
  have hB1in : (Button.refresh_style { B with m_pressed := true }).contains
      ⟨F32.ofInt x, F32.ofInt y⟩ = true := by
    have : (Button.refresh_style { B with m_pressed := true }).contains
        ⟨F32.ofInt x, F32.ofInt y⟩ = B.contains ⟨F32.ofInt x, F32.ofInt y⟩ :=
      congrArg (fun t => Widget.contains t ⟨F32.ofInt x, F32.ofInt y⟩) hfr1.1
    rw [this]; exact hBin
  -- release
  have hrel := button_release_world
    ⟨w.vars, w.labels, w.buttons.set 0 (Button.refresh_style { B with m_pressed := true }),
      w.fields⟩
    0 (Button.refresh_style { B with m_pressed := true }) x y ⟨x, y⟩ (n + 1 + 1 + 1 + 1)
    (Action.toggleBool "pump.enabled") (by simp [List.getElem?_set_self hB0]) hB1e hfr1.2.1
    hB1in (hfr1.2.2.2.1.trans hBc)
  simp only [List.set_set] at hrel
  have hfr2 := Button.refresh_style_frame
    { Button.refresh_style { B with m_pressed := true } with m_pressed := false }
  -- the four closure calls
  have hne1 : "pump.enabled.view" ≠ "pump.enabled" := by decide
  have hne2 : "pump.enabled" ≠ "pump.enabled.view" := by decide
  have s1 := run_toggle
    ⟨w.vars, w.labels, w.buttons.set 0 (Button.refresh_style
        { Button.refresh_style { B with m_pressed := true } with m_pressed := false }),
      w.fields⟩
    "pump.enabled" _ b hpe rfl
  have s2 := run_pumpView
    ⟨w.vars.put "pump.enabled" ⟨core.Value.make_bool (!b),
        [⟨1, some Observer.pumpView⟩, ⟨2, some (Observer.buttonIsOn 0)⟩], 2⟩,
      w.labels, w.buttons.set 0 (Button.refresh_style
        { Button.refresh_style { B with m_pressed := true } with m_pressed := false }),
      w.fields⟩
    "pump.enabled" _ _ (!b) (core.VariableStore.put_same _ _ _) rfl
    ((core.VariableStore.put_other _ _ _ _ hne1).trans hpev) (by simp)
  have s3 := run_labelValue
    ⟨(w.vars.put "pump.enabled" ⟨core.Value.make_bool (!b),
        [⟨1, some Observer.pumpView⟩, ⟨2, some (Observer.buttonIsOn 0)⟩], 2⟩).put
        "pump.enabled.view" ⟨core.Value.make_string (on_off (!b)), [⟨1, some (Observer.labelValue 1)⟩], 1⟩,
      w.labels, w.buttons.set 0 (Button.refresh_style
        { Button.refresh_style { B with m_pressed := true } with m_pressed := false }),
      w.fields⟩
    "pump.enabled.view" _ 1 L (core.VariableStore.put_same _ _ _) hL
  have s4 := run_buttonIsOn
    ⟨(w.vars.put "pump.enabled" ⟨core.Value.make_bool (!b),
        [⟨1, some Observer.pumpView⟩, ⟨2, some (Observer.buttonIsOn 0)⟩], 2⟩).put
        "pump.enabled.view" ⟨core.Value.make_string (on_off (!b)), [⟨1, some (Observer.labelValue 1)⟩], 1⟩,
      w.labels.set 1 (L.onValue (core.Value.make_string (on_off (!b)))),
      w.buttons.set 0 (Button.refresh_style
        { Button.refresh_style { B with m_pressed := true } with m_pressed := false }),
      w.fields⟩
    "pump.enabled" _ 0
    (Button.refresh_style
      { Button.refresh_style { B with m_pressed := true } with m_pressed := false })
    ((core.VariableStore.put_other _ _ _ _ hne2).trans (core.VariableStore.put_same _ _ _))
    (by simp [List.getElem?_set_self hB0])
  refine Exists.intro
    ⟨(w.vars.put "pump.enabled"
        ⟨core.Value.make_bool (!b),
          [⟨1, some Observer.pumpView⟩, ⟨2, some (Observer.buttonIsOn 0)⟩], 2⟩).put
        "pump.enabled.view"
        ⟨core.Value.make_string (on_off (!b)), [⟨1, some (Observer.labelValue 1)⟩], 1⟩,
      w.labels.set 1 (L.onValue (core.Value.make_string (on_off (!b)))),
      (w.buttons.set 0 (Button.refresh_style
        { Button.refresh_style { B with m_pressed := true } with m_pressed := false })).set 0
        (Button.onValue (Button.refresh_style
          { Button.refresh_style { B with m_pressed := true } with m_pressed := false })
          (core.Value.make_bool (!b))),
      w.fields⟩ (And.intro ?h1 ?h2)
  case h1 =>
    unfold clickPump
    rw [hpress]
    simp only
    rw [hrel, exec_step _ _ _ _ _ _ s1]
    simp only [World.jobsOf, core.Variable.notifyLoop, List.map_cons, List.map_nil,
      List.cons_append, List.nil_append]
    rw [exec_step _ _ _ _ _ _ s2]
    simp only [World.jobsOf, core.Variable.notifyLoop, List.map_cons, List.map_nil,
      List.cons_append, List.nil_append]
    rw [exec_step _ _ _ _ _ _ s3]
    simp only [List.nil_append, core.Variable.get]
    rw [exec_step _ _ _ _ _ _ s4, List.nil_append, exec_nil]
    rfl
  case h2 =>
    have hov := Button.onValue_frame
      (Button.refresh_style
        { Button.refresh_style { B with m_pressed := true } with m_pressed := false })
      (core.Value.make_bool (!b))
    refine ⟨?_, ?_, ?_, ?_⟩
    · exact (core.VariableStore.put_other _ _ _ _ hne2).trans
        (core.VariableStore.put_same _ _ _)
    · exact core.VariableStore.put_same _ _ _
    · simp only [List.getElem?_set_self hL1, Option.map_some', Label.onValue,
        Label.set_text, Option.some.injEq, Prod.mk.injEq]
      have hr := Label.rebuild_text
        { L with m_valueText := value_to_string (core.Value.make_string (on_off (!b))) }
      refine ⟨hr.2.1.trans hLp, ?_, ?_⟩
      · rw [hr.2.2]
        rfl
      · rw [hr.1]
        simp only [hLp]
        cases b <;> decide
    · simp only [List.set_set, List.getElem?_set_self hB0, Option.map_some',
        Option.some.injEq, Prod.mk.injEq]
      refine ⟨?_, ?_, ?_⟩
      · rw [hov.1, hfr2.1]
        exact hfr1.1.trans hBw
      · rw [hov.2.2, hfr2.2.2.2.1]
        exact hfr1.2.2.2.1.trans hBc
      · rw [hov.2.1]
        exact hfr2.2.1

theorem wired_shows (b : Bool) (w : World) (hw : pumpWired b w) :
    (w.labels[1]?).map (fun l => l.m_valueText) = some (on_off b) ∧
      (w.labels[1]?).map (fun l => l.m_text) = some ("Pump: " ++ on_off b) ∧
      w.vars.get "pump.enabled" = Except.ok (core.Value.make_bool b) ∧
      w.vars.get "pump.enabled.view" = Except.ok (core.Value.make_string (on_off b)) := by
  obtain ⟨hpe, hpev, hlab, _⟩ := hw
  refine ⟨?_, ?_, ?_, ?_⟩
  · cases hl : w.labels[1]? with
    | none => simp [hl] at hlab
    | some l =>
      simp only [hl, Option.map_some', Option.some.injEq, Prod.mk.injEq] at hlab ⊢
      exact hlab.2.1
  · cases hl : w.labels[1]? with
    | none => simp [hl] at hlab
    | some l =>
      simp only [hl, Option.map_some', Option.some.injEq, Prod.mk.injEq] at hlab ⊢
      exact hlab.2.2
  · simp [core.VariableStore.get, hpe, core.Variable.get]
  · simp [core.VariableStore.get, hpev, core.Variable.get]

theorem clicks_wired (fuel : Nat) (x y : Int) (hfuel : 4 ≤ fuel)
    (hin : pumpWidget.contains ⟨F32.ofInt x, F32.ofInt y⟩ = true) :
    ∀ (n : Nat) (b : Bool) (w : World), pumpWired b w →
      ∃ wn, clicksPump fuel x y n w = Except.ok wn ∧
        pumpWired (if n % 2 = 1 then !b else b) wn := by
  intro n
  induction n with
  | zero =>
    intro b w hw
    exact ⟨w, rfl, by simpa using hw⟩
  | succ n ih =>
    intro b w hw
    obtain ⟨w1, h1, hw1⟩ := click_step b w fuel x y hw hfuel hin
    obtain ⟨wn, h2, hwn⟩ := ih (!b) w1 hw1
    refine ⟨wn, by simp only [clicksPump, h1, h2], ?_⟩
    rcases Nat.mod_two_eq_zero_or_one n with h | h
    · have h' : (n + 1) % 2 = 1 := by omega
      simpa [h, h'] using hwn
    · have h' : (n + 1) % 2 = 0 := by omega
      simpa [h, h'] using hwn

/-- C17: the statements of `main` run to their end with any step bound of at
least 4 (1 is enough for them) and leave the pump wiring in place with the
label `pumpLabel` holding the value text `OFF`.  One click on `pumpBtn` (the
left button pressed and released at a point inside it) then leaves
`pump.enabled` holding `Bool true` and the label holding `ON`, shown as
`Pump: ON`, when the release has been handled; and after `n` clicks the value
text of the label is `ON` for odd `n` and `OFF` for even `n`. -/
theorem main_pump_toggle (fuel : Nat) (x y : Int) (hfuel : 4 ≤ fuel)
    (hin : pumpWidget.contains ⟨F32.ofInt x, F32.ofInt y⟩ = true) :
    ∃ w0, main_setup fuel = Except.ok w0 ∧
      w0.vars.get "pump.enabled" = Except.ok (core.Value.make_bool false) ∧
      (w0.labels[1]?).map (fun l => l.m_valueText) = some "OFF" ∧
      (∃ w1, clickPump fuel x y w0 = Except.ok w1 ∧
        w1.vars.get "pump.enabled" = Except.ok (core.Value.make_bool true) ∧
        w1.vars.get "pump.enabled.view" = Except.ok (core.Value.make_string "ON") ∧
        (w1.labels[1]?).map (fun l => l.m_valueText) = some "ON" ∧
        (w1.labels[1]?).map (fun l => l.m_text) = some "Pump: ON") ∧
      (∀ n : Nat, ∃ wn, clicksPump fuel x y n w0 = Except.ok wn ∧
        (wn.labels[1]?).map (fun l => l.m_valueText) =
          some (if n % 2 = 1 then "ON" else "OFF")) := by
  obtain ⟨w0, h0, hw0⟩ : ∃ w0, main_setup 1 = Except.ok w0 ∧ pumpWired false w0 := by
    have h := main_setup_wired
    cases hm : main_setup 1 with
    | error err => simp [hm, endsWired] at h
    | ok w0 =>
      simp only [hm, endsWired, decide_eq_true_eq] at h
      exact ⟨w0, rfl, h⟩
  have hs0 := wired_shows false w0 hw0
  obtain ⟨w1, hc1, hw1⟩ := click_step false w0 fuel x y hw0 hfuel hin
  have hs1 := wired_shows true w1 hw1
  refine ⟨w0, mono_main_setup 1 fuel w0 (by omega) h0, hs0.2.2.1, hs0.1, ?_, ?_⟩
  · exact ⟨w1, hc1, hs1.2.2.1, hs1.2.2.2, hs1.1, hs1.2.1⟩
  · intro n
    obtain ⟨wn, hn, hwn⟩ := clicks_wired fuel x y hfuel hin n false w0 hw0
    refine ⟨wn, hn, ?_⟩
    rw [(wired_shows _ wn hwn).1]
    rcases Nat.mod_two_eq_zero_or_one n with h | h <;> simp [h, on_off]

set_option maxRecDepth 100000 in
theorem pumpWidget_inside :
    pumpWidget.contains ⟨F32.ofInt 250, F32.ofInt 80⟩ = true := by decide

/-- Witness for `main_pump_toggle`: the step bound 4 and clicks at
`(250, 80)`, inside the button at `(240, 78)` of size `(220, 42)`. -/
theorem main_pump_toggle_witness :
    ∃ w0, main_setup 4 = Except.ok w0 ∧
      w0.vars.get "pump.enabled" = Except.ok (core.Value.make_bool false) ∧
      (w0.labels[1]?).map (fun l => l.m_valueText) = some "OFF" ∧
      (∃ w1, clickPump 4 250 80 w0 = Except.ok w1 ∧
        w1.vars.get "pump.enabled" = Except.ok (core.Value.make_bool true) ∧
        w1.vars.get "pump.enabled.view" = Except.ok (core.Value.make_string "ON") ∧
        (w1.labels[1]?).map (fun l => l.m_valueText) = some "ON" ∧
        (w1.labels[1]?).map (fun l => l.m_text) = some "Pump: ON") ∧
      (∀ n : Nat, ∃ wn, clicksPump 4 250 80 n w0 = Except.ok wn ∧
        (wn.labels[1]?).map (fun l => l.m_valueText) =
          some (if n % 2 = 1 then "ON" else "OFF")) :=
  main_pump_toggle 4 250 80 (by decide) pumpWidget_inside

/-! ## TextField: backspace -/

theorem erase_take_drop {α : Type} (l : List α) (c : Nat) (h0 : 0 < c) :
    l.take (c - 1) ++ l.drop c = l.eraseIdx (c - 1) := by
  have hsub : c - 1 + 1 = c := by omega
  rw [List.eraseIdx_eq_take_drop_succ, hsub]

/-- C21: an enabled, focused TextField with text `t` and caret `c` inside the
text handles a text-input event with code 8 as follows.  If `c > 0` the text
and the displayed string become `t` without its character at index `c - 1`
(one character shorter, the characters before index `c - 1` and those from
index `c` on kept in order) and the caret becomes `c - 1`; if `c = 0` the
field is unchanged.  No exception is raised, no closure is called, the field
stays focused, and with the field in a world the store, the labels and the
buttons are as before, whatever the step bound. -/
theorem World.backspace (w : World) (i : Nat) (f : TextField Action) (fuel : Nat)
    (window : sf.RenderWindow) (hw : w.fields[i]? = some f) (he : f.enabled = true)
    (hfoc : f.m_focused = true) (hc : f.m_caretPos ≤ f.m_value.length) :
    (0 < f.m_caretPos →
      f.handle_event (sf.Event.TextEntered 8) window =
          Except.ok
            ({ f with
              m_value := ⟨f.m_value.data.eraseIdx (f.m_caretPos - 1)⟩
              m_text := ⟨f.m_value.data.eraseIdx (f.m_caretPos - 1)⟩
              m_caretPos := f.m_caretPos - 1 }, []) ∧
        (f.m_value.data.eraseIdx (f.m_caretPos - 1)).length + 1 = f.m_value.length) ∧
      (f.m_caretPos = 0 → f.handle_event (sf.Event.TextEntered 8) window = Except.ok (f, [])) ∧
      ∃ f1,
        f.handle_event (sf.Event.TextEntered 8) window = Except.ok (f1, []) ∧
        f1.m_focused = true ∧ f1.m_commit = f.m_commit ∧
        World.field_handle_event fuel i (sf.Event.TextEntered 8) window w =
          Except.ok { w with fields := w.fields.set i f1 } := by
  have hev := TextField.handle_text f 8 window he hfoc
  rw [TextField.backspace_eq f hc] at hev
  refine ⟨?_, ?_, ?_⟩
  · intro h0
    rw [hev, if_pos h0, erase_take_drop _ _ h0]
    refine ⟨rfl, ?_⟩
    have hlt : f.m_caretPos - 1 < f.m_value.data.length := by
      have : f.m_caretPos ≤ f.m_value.data.length := hc
      omega
    rw [List.length_eraseIdx, if_pos hlt]
    show f.m_value.data.length - 1 + 1 = f.m_value.data.length
    omega
  · intro h0
    rw [hev, if_neg (by omega)]
  · refine ⟨_, hev, ?_, ?_, field_event_quiet w i f _ _ window fuel hw hev⟩
    · by_cases h0 : 0 < f.m_caretPos <;> simp [h0, hfoc]
    · by_cases h0 : 0 < f.m_caretPos <;> simp [h0]

/-- Witness for `World.backspace`: a focused field holding `Ivan` with the
caret after the `v` loses the `v`; the same field with the caret at 0 is
unchanged. -/
theorem World.backspace_witness :
    TextField.handle_event
        { (TextField.new {} : TextField Action) with
          m_focused := true, m_value := "Ivan", m_text := "Ivan", m_caretPos := 2 }
        (sf.Event.TextEntered 8) ⟨0, 0⟩ =
      Except.ok
        ({ (TextField.new {} : TextField Action) with
          m_focused := true, m_value := "Ian", m_text := "Ian", m_caretPos := 1 }, []) ∧
      TextField.handle_event
          { (TextField.new {} : TextField Action) with
            m_focused := true, m_value := "Ivan", m_text := "Ivan", m_caretPos := 0 }
          (sf.Event.TextEntered 8) ⟨0, 0⟩ =
        Except.ok
          ({ (TextField.new {} : TextField Action) with
            m_focused := true, m_value := "Ivan", m_text := "Ivan", m_caretPos := 0 }, []) :=
  ⟨((World.backspace
      { fields := [{ (TextField.new {} : TextField Action) with
          m_focused := true, m_value := "Ivan", m_text := "Ivan", m_caretPos := 2 }] }
      0 _ 0 ⟨0, 0⟩ rfl rfl rfl (by decide)).1 (by decide)).1,
    (World.backspace
      { fields := [{ (TextField.new {} : TextField Action) with
          m_focused := true, m_value := "Ivan", m_text := "Ivan", m_caretPos := 0 }] }
      0 _ 0 ⟨0, 0⟩ rfl rfl rfl (by decide)).2.1 rfl⟩

/-! ## TextField: the caret is hidden while unfocused -/

theorem TextField.restyle_caret (f : TextField κ) (he : f.enabled = true) :
    f.refresh_style.m_caretVisible = f.m_focused ∧
      f.refresh_style.m_blinkTimer = ⟨false, 0, 0⟩ ∧
      f.refresh_style.m_focused = f.m_focused ∧ f.refresh_style.enabled = true := by
  have hen : f.refresh_style.enabled = f.enabled :=
    congrArg Widget.enabled (TextField.restyle_frame f).1
  refine ⟨?_, ?_, (TextField.restyle_frame f).2.2.2.1, hen.trans he⟩ <;>
    simp [TextField.refresh_style, he]

theorem TextField.onMousePressed_hidden (f : TextField κ) (e : sf.Event)
    (he : f.enabled = true) (h : f.m_focused = false → f.m_caretVisible = false) :
    ((TextField.onMousePressed f e).1.m_focused = false →
        (TextField.onMousePressed f e).1.m_caretVisible = false) ∧
      (TextField.onMousePressed f e).1.enabled = true := by
  cases e with
  | MouseButtonPressed button x y =>
    cases button with
    | Left =>
      simp only [TextField.onMousePressed]
      have hr := TextField.restyle_caret
        { f with m_focused := f.contains ⟨F32.ofInt x, F32.ofInt y⟩ } he
      constructor
      · split
        · rename_i hfoc
          intro hno
          simp only at hno
          rw [hno] at hfoc
          exact absurd hfoc (by simp)
        · intro hno
          rw [hr.1]
          rw [hr.2.2.1] at hno
          exact hno
      · split
        · exact hr.2.2.2
        · exact hr.2.2.2
    | _ => simp only [TextField.onMousePressed, he, and_true]; exact h
  | _ => simp only [TextField.onMousePressed, he, and_true]; exact h

theorem TextField.onTextEntered_hidden (f : TextField κ) (k : Nat) (r : TextField κ × List κ)
    (he : f.enabled = true) (h : f.m_focused = false → f.m_caretVisible = false)
    (hr : TextField.onTextEntered f k = Except.ok r) :
    r.1.m_focused = false → r.1.m_caretVisible = false := by
  have hesc := TextField.restyle_caret { f with m_focused := false } he
  unfold TextField.onTextEntered at hr
  split_ifs at hr
  · split at hr
    · cases hr
    · cases hr
      exact h
  · cases hr
    exact h
  · cases hr
    intro _
    rw [hesc.1]
  · cases hr
    exact h
  · split at hr
    · cases hr
    · cases hr
      exact h
  · cases hr
    exact h
  · cases hr
    exact h

theorem TextField.onKeyPressed_hidden (f : TextField κ) (c : sf.Key)
    (he : f.enabled = true) (h : f.m_focused = false → f.m_caretVisible = false) :
    (TextField.onKeyPressed f c).m_focused = false →
      (TextField.onKeyPressed f c).m_caretVisible = false := by
  cases c with
  | Left =>
    simp only [TextField.onKeyPressed]
    split <;> exact h
  | Right =>
    simp only [TextField.onKeyPressed]
    split <;> exact h
  | Escape =>
    intro _
    simp only [TextField.onKeyPressed]
    rw [(TextField.restyle_caret { f with m_focused := false } he).1]
  | Other code => exact h

theorem TextField.handle_event_hidden (f : TextField κ) (e : sf.Event)
    (window : sf.RenderWindow) (r : TextField κ × List κ)
    (h : f.m_focused = false → f.m_caretVisible = false)
    (hr : f.handle_event e window = Except.ok r) :
    r.1.m_focused = false → r.1.m_caretVisible = false := by
  unfold TextField.handle_event at hr
  by_cases he : f.enabled = true
  · obtain ⟨hm, hen⟩ := TextField.onMousePressed_hidden f e he h
    by_cases hfoc : (TextField.onMousePressed f e).1.m_focused = true
    · simp only [he, hfoc, Bool.not_true, Bool.false_eq_true, if_false] at hr
      cases e with
      | TextEntered code =>
        simp only at hr
        cases hq : TextField.onTextEntered
            (TextField.onMousePressed f (sf.Event.TextEntered code)).1 code with
        | error err => rw [hq] at hr; cases hr
        | ok r1 =>
          rw [hq] at hr
          cases hr
          exact TextField.onTextEntered_hidden _ code r1 hen hm hq
      | KeyPressed code =>
        cases hr
        exact TextField.onKeyPressed_hidden _ code hen hm
      | Closed => cases hr; exact hm
      | MouseMoved x y => cases hr; exact hm
      | MouseButtonPressed b x y => cases hr; exact hm
      | MouseButtonReleased b x y => cases hr; exact hm
      | Other => cases hr; exact hm
    · simp only [he, hfoc, Bool.not_true, Bool.false_eq_true, if_false, Bool.not_false,
        if_true] at hr
      cases hr
      exact hm
  · simp only [he, Bool.not_false, if_true] at hr
    cases hr
    exact h

theorem TextField.update_hidden (f : TextField κ) (dt : F32) :
    (f.update dt).m_focused = false → (f.update dt).m_caretVisible = false := by
  unfold TextField.update
  by_cases hf : f.m_focused = true
  · by_cases hg : F32.ge (F32.add f.m_blinkTimer dt) ⟨false, 126, 0⟩ = true <;> simp [hf, hg]
  · simp [hf]

theorem TextField.set_text_hidden (f : TextField κ) (s : String) :
    (f.set_text s).m_focused = f.m_focused ∧ (f.set_text s).m_caretVisible = f.m_caretVisible := by
  unfold TextField.set_text
  by_cases h : s.length < f.m_caretPos <;> simp [h, TextField.apply_text]

theorem TextField.reachable_hidden (f : TextField κ) (h : TextField.Reachable f) :
    f.m_focused = false → f.m_caretVisible = false := by
  induction h with
  | new theme => intro _; rfl
  | handle_event e window _ hev ih => exact TextField.handle_event_hidden _ e window _ ih hev
  | set_text s _ ih =>
    rw [(TextField.set_text_hidden _ s).1, (TextField.set_text_hidden _ s).2]
    exact ih
  | update dt _ _ => exact TextField.update_hidden _ dt
  | onValue v _ ih =>
    unfold TextField.onValue
    split
    · rw [(TextField.set_text_hidden _ v.s).1, (TextField.set_text_hidden _ v.s).2]
      exact ih
    · exact ih
  | set_hint s _ ih => exact ih
  | set_position p _ ih => exact ih
  | set_size s _ ih => exact ih
  | set_enabled enabled _ ih => exact ih
  | bound id commit _ ih => exact ih

set_option maxRecDepth 100000 in
theorem typed_then_escape :
    TextField.Reachable
      ({ (TextField.new {} : TextField Action) with
        m_value := "A", m_text := "A", m_caretPos := 1 }) :=
  TextField.Reachable.handle_event (sf.Event.KeyPressed sf.Key.Escape) ⟨100, 20⟩
    (TextField.Reachable.handle_event (sf.Event.TextEntered 65) ⟨100, 20⟩
      (TextField.Reachable.handle_event
        (sf.Event.MouseButtonPressed sf.MouseButton.Left 100 20) ⟨100, 20⟩
        (TextField.Reachable.new {})
        (rfl :
          (TextField.new {} : TextField Action).handle_event
              (sf.Event.MouseButtonPressed sf.MouseButton.Left 100 20) ⟨100, 20⟩ =
            Except.ok
              ({ (TextField.new {} : TextField Action) with
                m_focused := true, m_caretVisible := true, boxOutline := ⟨80, 160, 255⟩ }, [])))
      (rfl :
        TextField.handle_event
            { (TextField.new {} : TextField Action) with
              m_focused := true, m_caretVisible := true, boxOutline := ⟨80, 160, 255⟩ }
            (sf.Event.TextEntered 65) ⟨100, 20⟩ =
          Except.ok
            ({ (TextField.new {} : TextField Action) with
              m_focused := true, m_caretVisible := true, boxOutline := ⟨80, 160, 255⟩,
              m_value := "A", m_text := "A", m_caretPos := 1 }, [])))
    (rfl :
      TextField.handle_event
          { (TextField.new {} : TextField Action) with
            m_focused := true, m_caretVisible := true, boxOutline := ⟨80, 160, 255⟩,
            m_value := "A", m_text := "A", m_caretPos := 1 }
          (sf.Event.KeyPressed sf.Key.Escape) ⟨100, 20⟩ =
        Except.ok
          ({ (TextField.new {} : TextField Action) with
            m_value := "A", m_text := "A", m_caretPos := 1 }, []))

/-- C23: in every state a TextField reaches from its construction through
`handle_event` (any event), `update`, `set_text`, `set_enabled`, notifications
of a bound Variable and the other public members, an unfocused field has the
caret-visible flag false.  When an enabled field, in any state, handles a
left-button press inside its bounds, no exception is raised and afterwards the
field is focused, the caret-visible flag is true and the blink timer is 0. -/
theorem TextField.caret_hidden_unfocused (f : TextField κ) :
    (TextField.Reachable f → f.m_focused = false → f.m_caretVisible = false) ∧
      (∀ (x y : Int) (window : sf.RenderWindow), f.enabled = true →
        f.contains ⟨F32.ofInt x, F32.ofInt y⟩ = true →
        ∃ f1,
          f.handle_event (sf.Event.MouseButtonPressed sf.MouseButton.Left x y) window
            = Except.ok (f1, []) ∧
          f1.m_focused = true ∧ f1.m_caretVisible = true ∧
          f1.m_blinkTimer = ⟨false, 0, 0⟩) := by
  refine ⟨TextField.reachable_hidden f, ?_⟩
  intro x y window he hc
  have hr := TextField.restyle_caret { f with m_focused := true } he
  refine ⟨{ TextField.refresh_style { f with m_focused := true } with
      m_caretPos := (TextField.refresh_style { f with m_focused := true }).m_value.length },
    ?_, hr.2.2.1, hr.1, hr.2.1⟩
  rw [TextField.handle_left_press f x y window he]
  simp [TextField.onMousePressed, hc, hr.2.2.1]

/-- Witness for `TextField.caret_hidden_unfocused`: the constructed field is
clicked at `(100, 20)` inside, receives `A` and Escape: it is unfocused with
the caret-visible flag false, and a second click inside makes the flag true
with the blink timer at 0. -/
theorem TextField.caret_hidden_unfocused_witness :
    TextField.Reachable
        ({ (TextField.new {} : TextField Action) with
          m_value := "A", m_text := "A", m_caretPos := 1 }) ∧
      ({ (TextField.new {} : TextField Action) with
          m_value := "A", m_text := "A", m_caretPos := 1 }).m_caretVisible = false ∧
      ∃ f1,
        TextField.handle_event
            { (TextField.new {} : TextField Action) with
              m_value := "A", m_text := "A", m_caretPos := 1 }
            (sf.Event.MouseButtonPressed sf.MouseButton.Left 100 20) ⟨100, 20⟩
          = Except.ok (f1, []) ∧
        f1.m_focused = true ∧ f1.m_caretVisible = true ∧ f1.m_blinkTimer = ⟨false, 0, 0⟩ :=
  ⟨typed_then_escape,
    (TextField.caret_hidden_unfocused _).1 typed_then_escape rfl,
    (TextField.caret_hidden_unfocused _).2 100 20 ⟨100, 20⟩ rfl typingDemo_outside.2⟩

/-! ## TextField: Escape keeps the edited text -/

theorem TextField.unfocused_ignores (f : TextField κ) (e : sf.Event) (window : sf.RenderWindow)
    (hfoc : f.m_focused = false)
    (hne : ∀ x y, e ≠ sf.Event.MouseButtonPressed sf.MouseButton.Left x y) :
    f.handle_event e window = Except.ok (f, []) := by
  have hm : TextField.onMousePressed f e = (f, []) := by
    cases e with
    | MouseButtonPressed button x y =>
      cases button with
      | Left => exact absurd rfl (hne x y)
      | _ => rfl
    | _ => rfl
  unfold TextField.handle_event
  by_cases he : f.enabled = true
  · simp [he, hm, hfoc]
  · simp [he]

theorem unfocused_world (w : World) (i : Nat) (f : TextField Action)
    (hf : w.fields[i]? = some f) (hfoc : f.m_focused = false) (e : sf.Event)
    (window : sf.RenderWindow) (fuel : Nat)
    (hne : ∀ x y, e ≠ sf.Event.MouseButtonPressed sf.MouseButton.Left x y) :
    World.field_handle_event fuel i e window w = Except.ok w := by
  rw [field_event_quiet w i f f e window fuel hf
    (TextField.unfocused_ignores f e window hfoc hne), list_set_self _ _ _ hf]

set_option maxRecDepth 100000 in
theorem escape_demo_run :
    ∃ w0 w3 f3 x3,
      main_setup 1 = Except.ok w0 ∧
      World.field_handle_events 0 0 ⟨300, 220⟩
        [sf.Event.MouseButtonPressed sf.MouseButton.Left 300 220, sf.Event.TextEntered 120,
          sf.Event.KeyPressed sf.Key.Escape] w0 = Except.ok w3 ∧
      w3.fields[0]? = some f3 ∧ w3.vars.m_vars "operator.name" = some x3 ∧
      f3.m_focused = false ∧ f3.m_value = "Ivanx" ∧ f3.m_text = "Ivanx" ∧
      f3.m_commit = some (Action.fieldCommit "operator.name" 0) ∧
      x3.m_subs = [⟨1, some (Observer.labelValue 3)⟩, ⟨2, some (Observer.fieldValue 0)⟩] ∧
      x3.get = core.Value.make_string "Ivan" ∧
      (w3.labels[3]?).map (fun l => l.m_text) = some "Operator name: Ivan" ∧
      (∀ dt, (f3.update dt).m_value = "Ivanx" ∧ (f3.update dt).m_text = "Ivanx") ∧
      (∃ w4, World.set 0 "operator.name" (core.Value.make_string "Ivan") w3 = Except.ok w4 ∧
        w4.fields[0]? = some f3) ∧
      (∃ w5 f5, World.set 2 "operator.name" (core.Value.make_string "Bob") w3 = Except.ok w5 ∧
        w5.fields[0]? = some f5 ∧ f5.m_focused = false ∧ f5.m_value = "Bob" ∧
        f5.m_text = "Bob") :=
  ⟨_, _, _, _, rfl, rfl, rfl, rfl, rfl, rfl, rfl, rfl, rfl, rfl, rfl, fun _ => ⟨rfl, rfl⟩,
    ⟨_, rfl, rfl⟩, ⟨_, _, rfl, rfl, rfl, rfl, rfl⟩⟩

/-- C24: in the world `main` sets up, the field `nameField`, bound with
`bind_string` to `operator.name`, handles a left-button press at `(300, 220)`
inside its bounds, the text input `x` and an Escape key press; no closure is
called.  The field ends unfocused with the text and the displayed string
`Ivanx`, while the Variable, still subscribed to by the closure of the field,
holds `String Ivan` and the label bound to it shows `Ivan`.  The field keeps
that text: any event that is not a left-button press leaves the whole world
unchanged, `update` leaves the text unchanged, and a `set` of the Variable to
the equal value `Ivan` notifies nobody and leaves the field as it is.  Only a
`set` that changes the Variable, here to `Bob`, replaces the text. -/
theorem World.escape_keeps_edit (e : sf.Event) (window : sf.RenderWindow) (fuel : Nat)
    (dt : F32) (hne : ∀ x y, e ≠ sf.Event.MouseButtonPressed sf.MouseButton.Left x y) :
    ∃ w0 w3 f3 x3,
      main_setup 1 = Except.ok w0 ∧
      World.field_handle_events 0 0 ⟨300, 220⟩
        [sf.Event.MouseButtonPressed sf.MouseButton.Left 300 220, sf.Event.TextEntered 120,
          sf.Event.KeyPressed sf.Key.Escape] w0 = Except.ok w3 ∧
      w3.fields[0]? = some f3 ∧ w3.vars.m_vars "operator.name" = some x3 ∧
      f3.m_focused = false ∧ f3.m_value = "Ivanx" ∧ f3.m_text = "Ivanx" ∧
      f3.m_commit = some (Action.fieldCommit "operator.name" 0) ∧
      x3.m_subs = [⟨1, some (Observer.labelValue 3)⟩, ⟨2, some (Observer.fieldValue 0)⟩] ∧
      x3.get = core.Value.make_string "Ivan" ∧
      (w3.labels[3]?).map (fun l => l.m_text) = some "Operator name: Ivan" ∧
      World.field_handle_event fuel 0 e window w3 = Except.ok w3 ∧
      (f3.update dt).m_value = "Ivanx" ∧ (f3.update dt).m_text = "Ivanx" ∧
      (∃ w4, World.set 0 "operator.name" (core.Value.make_string "Ivan") w3 = Except.ok w4 ∧
        w4.fields[0]? = some f3) ∧
      (∃ w5 f5, World.set 2 "operator.name" (core.Value.make_string "Bob") w3 = Except.ok w5 ∧
        w5.fields[0]? = some f5 ∧ f5.m_focused = false ∧ f5.m_value = "Bob" ∧
        f5.m_text = "Bob") := by
  obtain ⟨w0, w3, f3, x3, h0, h3, hf, hx, hfoc, hval, htext, hcommit, hsubs, hget, hlabel, hupd,
    hsame, hnext⟩ := escape_demo_run
  exact ⟨w0, w3, f3, x3, h0, h3, hf, hx, hfoc, hval, htext, hcommit, hsubs, hget, hlabel,
    unfocused_world w3 0 f3 hf hfoc e window fuel hne, (hupd dt).1, (hupd dt).2, hsame, hnext⟩

/-- Witness for `World.escape_keeps_edit`: after the Escape the field ignores
the text input `A` and keeps `Ivanx` while `operator.name` holds `Ivan`. -/
theorem World.escape_keeps_edit_witness :
    ∃ w0 w3 f3 x3,
      main_setup 1 = Except.ok w0 ∧
      World.field_handle_events 0 0 ⟨300, 220⟩
        [sf.Event.MouseButtonPressed sf.MouseButton.Left 300 220, sf.Event.TextEntered 120,
          sf.Event.KeyPressed sf.Key.Escape] w0 = Except.ok w3 ∧
      w3.fields[0]? = some f3 ∧ w3.vars.m_vars "operator.name" = some x3 ∧
      f3.m_focused = false ∧ f3.m_value = "Ivanx" ∧
      x3.get = core.Value.make_string "Ivan" ∧
      World.field_handle_event 0 0 (sf.Event.TextEntered 65) ⟨300, 220⟩ w3 = Except.ok w3 :=
  match World.escape_keeps_edit (sf.Event.TextEntered 65) ⟨300, 220⟩ 0 ⟨false, 0, 0⟩
    (fun _ _ h => sf.Event.noConfusion h) with
  | ⟨w0, w3, f3, x3, h0, h3, hf, hx, hfoc, hval, _, _, _, hget, _, hkeep, _⟩ =>
    ⟨w0, w3, f3, x3, h0, h3, hf, hx, hfoc, hval, hget, hkeep⟩

end ui

end xs
